import Mathlib

/-!
Verification of the criware-utf UTF-table codec.

This file is a shallow embedding of the Rust sources of the `criware-utf`
repository (crate `criware-utf-core`): the XOR cipher
(`src/packet/cri_encryption.rs`), the packet envelope (`src/packet.rs`),
the table reader (`src/reader.rs`), the table writer (`src/writer.rs`) and
the primitive value codec (`src/value.rs`).

Modelling conventions:
* Bytes are `Nat`s, intended `< 256`; buffers and streams are `List Nat`.
* Machine integers are `Nat` with explicit `% 2^w` where the Rust code can
  overflow (release-mode wrapping semantics).
* `f32` values are carried as their 32-bit big-endian bit pattern, which is
  exact: the Rust code only moves them via `from_be_bytes`/`to_be_bytes`.
* Rust `HashMap` is an association list where `insert` conses and `lookup`
  takes the first match (insertion shadows, like `HashMap::insert`).
* Fallible Rust functions return `Except Error _`; `read_exact` on a stream
  is modelled as `take`/`drop` with an end-of-file error when short.
-/

set_option maxRecDepth 10000

namespace CriwareUtf

/-! ### Byte-level number codecs (`u{8,16,32,64}::from_be_bytes` etc.) -/

/-- Big-endian byte encoding of `n` in `k` bytes, as in `to_be_bytes`
(the value is implicitly truncated mod `256^k`, as a cast to the
corresponding unsigned integer type would do). -/
def beBytes : Nat → Nat → List Nat
  | 0, _ => []
  | k + 1, n => (n / 256 ^ k % 256) :: beBytes k n

/-- Big-endian byte decoding, as in `from_be_bytes`. -/
def beToNat : List Nat → Nat
  | [] => 0
  | b :: bs => b * 256 ^ bs.length + beToNat bs

/-- Little-endian byte decoding, as in `from_le_bytes`. -/
def leToNat : List Nat → Nat
  | [] => 0
  | b :: bs => b + 256 * leToNat bs

/-- Little-endian byte encoding of `n` in `k` bytes. -/
def leBytes : Nat → Nat → List Nat
  | 0, _ => []
  | k + 1, n => n % 256 :: leBytes k (n / 256)

theorem beBytes_length (k n : Nat) : (beBytes k n).length = k := by
  induction k generalizing n with
  | zero => rfl
  | succ k ih => simp [beBytes, ih]

theorem leBytes_length (k n : Nat) : (leBytes k n).length = k := by
  induction k generalizing n with
  | zero => rfl
  | succ k ih => simp [leBytes, ih]

theorem beToNat_beBytes (k n : Nat) : beToNat (beBytes k n) = n % 256 ^ k := by
  induction k generalizing n with
  | zero => simp [beBytes, beToNat, Nat.mod_one]
  | succ k ih =>
      have h256 : (256 : Nat) ^ (k + 1) = 256 ^ k * 256 := by ring
      rw [beBytes, beToNat, beBytes_length, ih, h256, Nat.mod_mul]
      ring

theorem beToNat_beBytes_of_lt {k n : Nat} (h : n < 256 ^ k) :
    beToNat (beBytes k n) = n := by
  rw [beToNat_beBytes, Nat.mod_eq_of_lt h]

theorem beBytes_lt (k n : Nat) : ∀ b ∈ beBytes k n, b < 256 := by
  induction k generalizing n with
  | zero => simp [beBytes]
  | succ k ih =>
      intro b hb
      rcases List.mem_cons.mp hb with h | h
      · exact h ▸ Nat.mod_lt _ (by norm_num)
      · exact ih n b h

theorem leBytes_lt (k n : Nat) : ∀ b ∈ leBytes k n, b < 256 := by
  induction k generalizing n with
  | zero => simp [leBytes]
  | succ k ih =>
      intro b hb
      rcases List.mem_cons.mp hb with h | h
      · exact h ▸ Nat.mod_lt _ (by norm_num)
      · exact ih (n / 256) b h

theorem leBytes_leToNat (l : List Nat) (h : ∀ b ∈ l, b < 256) :
    leBytes l.length (leToNat l) = l := by
  induction l with
  | nil => rfl
  | cons b bs ih =>
      have hb : b < 256 := h b (List.mem_cons_self _ _)
      have hbs : ∀ x ∈ bs, x < 256 := fun x hx => h x (List.mem_cons_of_mem _ hx)
      simp only [List.length_cons, leBytes, leToNat]
      have h1 : (b + 256 * leToNat bs) % 256 = b := by omega
      have h2 : (b + 256 * leToNat bs) / 256 = leToNat bs := by omega
      rw [h1, h2, ih hbs]

theorem leToNat_lt (l : List Nat) (h : ∀ b ∈ l, b < 256) :
    leToNat l < 256 ^ l.length := by
  induction l with
  | nil => simp [leToNat]
  | cons b bs ih =>
      have hb : b < 256 := h b (List.mem_cons_self _ _)
      have hbs := ih (fun x hx => h x (List.mem_cons_of_mem _ hx))
      simp only [leToNat, List.length_cons, pow_succ]
      calc b + 256 * leToNat bs < 256 + 256 * leToNat bs := by omega
        _ ≤ 256 * 256 ^ bs.length := by omega
        _ = 256 ^ bs.length * 256 := by ring

/-! ### XOR on packed little-endian words acts bytewise -/

theorem testBit_add_two_pow_mul (a x k i : Nat) (h : a < 2 ^ k) :
    (a + 2 ^ k * x).testBit i =
      if i < k then a.testBit i else x.testBit (i - k) := by
  by_cases hik : i < k
  · simp only [hik, if_true, Nat.testBit_to_div_mod]
    have hk : 2 ^ k = 2 ^ i * 2 ^ (k - i) := by
      rw [← pow_add]
      congr 1
      omega
    rw [hk, mul_assoc, Nat.add_mul_div_left _ _ (Nat.pos_pow_of_pos i (by norm_num))]
    have h2 : 2 ^ (k - i) * x = 2 * (2 ^ (k - i - 1) * x) := by
      rw [← mul_assoc, ← pow_succ']
      congr 2
      omega
    rw [h2, Nat.add_mul_mod_self_left]
  · simp only [hik, if_false, Nat.testBit_to_div_mod]
    have hi : 2 ^ i = 2 ^ k * 2 ^ (i - k) := by
      rw [← pow_add]
      congr 1
      omega
    rw [hi, ← Nat.div_div_eq_div_mul, Nat.add_mul_div_left _ _ (Nat.pos_pow_of_pos k (by norm_num)),
      Nat.div_eq_of_lt h, Nat.zero_add]

theorem xor_byte_add (a b x y : Nat) (ha : a < 256) (hb : b < 256) :
    (a + 256 * x) ^^^ (b + 256 * y) = (a ^^^ b) + 256 * (x ^^^ y) := by
  have h256 : (256 : Nat) = 2 ^ 8 := by norm_num
  have hx : a ^^^ b < 256 := by
    rw [h256] at ha hb ⊢
    exact Nat.xor_lt_two_pow ha hb
  apply Nat.eq_of_testBit_eq
  intro i
  rw [Nat.testBit_xor, h256] at *
  rw [testBit_add_two_pow_mul _ _ _ _ ha, testBit_add_two_pow_mul _ _ _ _ hb,
    testBit_add_two_pow_mul _ _ _ _ hx]
  by_cases hi : i < 8
  · simp [hi]
  · simp [hi, Nat.testBit_xor]

theorem leToNat_xor (a b : List Nat) (hlen : a.length = b.length)
    (ha : ∀ x ∈ a, x < 256) (hb : ∀ x ∈ b, x < 256) :
    leToNat a ^^^ leToNat b = leToNat (List.zipWith (· ^^^ ·) a b) := by
  induction a generalizing b with
  | nil =>
      cases b with
      | nil => rfl
      | cons y ys => simp at hlen
  | cons x xs ih =>
      cases b with
      | nil => simp at hlen
      | cons y ys =>
          have hx : x < 256 := ha x (List.mem_cons_self _ _)
          have hy : y < 256 := hb y (List.mem_cons_self _ _)
          simp only [leToNat, List.zipWith]
          rw [xor_byte_add _ _ _ _ hx hy,
            ih ys (by simpa using hlen) (fun z hz => ha z (List.mem_cons_of_mem _ hz))
              (fun z hz => hb z (List.mem_cons_of_mem _ hz))]

theorem zipWith_xor_lt (a b : List Nat) (ha : ∀ x ∈ a, x < 256)
    (hb : ∀ x ∈ b, x < 256) : ∀ x ∈ List.zipWith (· ^^^ ·) a b, x < 256 := by
  induction a generalizing b with
  | nil => simp
  | cons x xs ih =>
      cases b with
      | nil => simp
      | cons y ys =>
          intro z hz
          rcases List.mem_cons.mp hz with h | h
          · have h256 : (256 : Nat) = 2 ^ 8 := by norm_num
            subst h
            rw [h256]
            exact Nat.xor_lt_two_pow (h256 ▸ ha x (List.mem_cons_self _ _))
              (h256 ▸ hb y (List.mem_cons_self _ _))
          · exact ih ys (fun u hu => ha u (List.mem_cons_of_mem _ hu))
              (fun u hu => hb u (List.mem_cons_of_mem _ hu)) z h

/-! ### The CRI XOR cipher (`src/packet/cri_encryption.rs`) -/

/-- The fixed 64-byte mask `DECRYPTION_MASK` from `cri_encryption.rs`. -/
def DECRYPTION_MASK : List Nat :=
  [95, 203, 167, 179, 175, 91, 119, 195, 255, 235, 71, 211, 79, 123, 23, 227,
   159, 11, 231, 243, 239, 155, 183, 3, 63, 43, 135, 19, 143, 187, 87, 35,
   223, 75, 39, 51, 47, 219, 247, 67, 127, 107, 199, 83, 207, 251, 151, 99,
   31, 139, 103, 115, 111, 27, 55, 131, 191, 171, 7, 147, 15, 59, 215, 163]

/-- The `i`-th `w`-byte chunk of a buffer (the `transmute`d word view of a
byte slice: word `i` covers bytes `w*i .. w*i+w`). -/
def chunkAt (buf : List Nat) (w i : Nat) : List Nat := (buf.drop (w * i)).take w

/-- Word `i` of the `transmute`d mask (`[u64; 8]`, `[__m128i; 4]`, ... views
of `DECRYPTION_MASK`), as a little-endian packed value. -/
def maskWord (w i : Nat) : Nat := leToNat (chunkAt DECRYPTION_MASK w i)

/--
The chunked XOR loop shared by `decrypt_fallback` (`w = 8`) and the
`decrypt_vectored!` variants (`w = 16/32/64`):

    let count = src.len().div_ceil(w);
    while i < count { dst[i] = src[i] ^ mask[i & (64/w - 1)]; i += 1 }

where `src`/`dst`/`mask` are the word-transmuted views.  When `src.len()` is
not a multiple of `w` the final word read/write covers bytes past the end of
the byte slices (the crate backs them with 64-byte-aligned allocations whose
capacity is a multiple of 64); `pad` stands for the allocation bytes past
`src.len()`.  The result is the full `w * count` bytes the loop writes.
-/
def decryptChunked (w : Nat) (src pad : List Nat) : List Nat :=
  (List.range ((src.length + (w - 1)) / w)).flatMap fun i =>
    leBytes w (leToNat (chunkAt (src ++ pad) w i) ^^^ maskWord w (i &&& (64 / w - 1)))

/-- `decrypt_fallback`: the portable `u64`-at-a-time path. -/
def decrypt_fallback (src pad : List Nat) : List Nat := decryptChunked 8 src pad

/-- `decrypt_sse2`: 128-bit (16-byte) chunks. -/
def decrypt_sse2 (src pad : List Nat) : List Nat := decryptChunked 16 src pad

/-- `decrypt_avx2`: 256-bit (32-byte) chunks. -/
def decrypt_avx2 (src pad : List Nat) : List Nat := decryptChunked 32 src pad

/-- `decrypt_avx512f`: 512-bit (64-byte) chunks. -/
def decrypt_avx512f (src pad : List Nat) : List Nat := decryptChunked 64 src pad

/-- Contents of the `dst` slice after `decrypt(src, dst)` with
`dst.len() == src.len()`: the runtime CPU dispatch picks one of the four
paths; they agree on these bytes (proved below), so the fallback path with
zero-filled allocation padding represents all of them. -/
def cri_decrypt (src : List Nat) : List Nat :=
  (decrypt_fallback src (List.replicate 63 0)).take src.length

/-- `encrypt` is literally `decrypt` in the source. -/
def cri_encrypt (src : List Nat) : List Nat := cri_decrypt src

/-- `can_decrypt`: the first 4 bytes, read as a little-endian `u32`, must be
the guard value `0xF5F39E1F`. -/
def can_decrypt (src : List Nat) : Bool := leToNat (src.take 4) == 0xF5F39E1F

/-- The mask byte applied at position `i`. -/
def maskByte (i : Nat) : Nat := DECRYPTION_MASK.getD (i % 64) 0

theorem decryptChunked_length (w : Nat) (src pad : List Nat) :
    (decryptChunked w src pad).length = w * ((src.length + (w - 1)) / w) := by
  rw [decryptChunked, List.length_flatMap]
  have : List.map (List.length ∘ fun i =>
      leBytes w (leToNat (chunkAt (src ++ pad) w i) ^^^ maskWord w (i &&& (64 / w - 1))))
      (List.range ((src.length + (w - 1)) / w))
        = List.map (fun _ => w) (List.range ((src.length + (w - 1)) / w)) :=
    List.map_congr_left fun i _ => leBytes_length _ _
  rw [this]
  simp [List.map_const', mul_comm]

theorem getD_flatMap_range (f : Nat → List Nat) (w count : Nat)
    (hf : ∀ i, (f i).length = w) (q r : Nat) (hr : r < w) (hq : q < count) :
    ((List.range count).flatMap f).getD (w * q + r) 0 = (f q).getD r 0 := by
  rw [List.range_eq_range']
  suffices h : ∀ n s q, q < n →
      ((List.range' s n).flatMap f).getD (w * q + r) 0 = (f (s + q)).getD r 0 by
    have := h count 0 q hq
    simpa using this
  intro n
  induction n with
  | zero => omega
  | succ n ih =>
      intro s q hqn
      rw [List.range'_succ]
      simp only [List.flatMap_cons]
      cases q with
      | zero =>
          rw [List.getD_append]
          · simp
          · rw [hf]
            omega
      | succ q' =>
          rw [List.getD_append_right]
          · rw [hf]
            have hmul : w * (q' + 1) = w * q' + w := by ring
            have harg : w * (q' + 1) + r - w = w * q' + r := by omega
            have hs : s + (q' + 1) = s + 1 + q' := by omega
            rw [harg, hs]
            exact ih (s + 1) q' (by omega)
          · rw [hf]
            have hmul : w * (q' + 1) = w * q' + w := by ring
            omega

theorem getD_take_lt (l : List Nat) (n i : Nat) (h : i < n) :
    (l.take n).getD i 0 = l.getD i 0 := by
  rw [List.getD_eq_getElem?_getD, List.getD_eq_getElem?_getD, List.getElem?_take, if_pos h]

theorem getD_drop_add (l : List Nat) (n i : Nat) :
    (l.drop n).getD i 0 = l.getD (n + i) 0 := by
  rw [List.getD_eq_getElem?_getD, List.getD_eq_getElem?_getD, List.getElem?_drop]

theorem getD_zipWith_xor (a b : List Nat) (i : Nat) (ha : i < a.length)
    (hb : i < b.length) :
    (List.zipWith (· ^^^ ·) a b).getD i 0 = a.getD i 0 ^^^ b.getD i 0 := by
  rw [List.getD_eq_getElem?_getD, List.getD_eq_getElem?_getD, List.getD_eq_getElem?_getD,
    List.getElem?_zipWith, List.getElem?_eq_getElem ha, List.getElem?_eq_getElem hb]
  rfl

theorem chunkAt_getD (buf : List Nat) (w q r : Nat) (hr : r < w) :
    (chunkAt buf w q).getD r 0 = buf.getD (w * q + r) 0 := by
  rw [chunkAt, getD_take_lt _ _ _ hr, getD_drop_add]

theorem chunkAt_length (buf : List Nat) (w q : Nat) (h : w * q + w ≤ buf.length) :
    (chunkAt buf w q).length = w := by
  rw [chunkAt, List.length_take, List.length_drop]
  omega

theorem chunkAt_mem_lt (buf : List Nat) (w q : Nat) (h : ∀ b ∈ buf, b < 256) :
    ∀ b ∈ chunkAt buf w q, b < 256 := fun b hb =>
  h b (List.mem_of_mem_drop (List.mem_of_mem_take hb))

theorem mask_mem_lt : ∀ b ∈ DECRYPTION_MASK, b < 256 := by decide

/-- Each byte of the chunked-XOR output that lies inside the source buffer
equals the source byte XORed with the mask byte at the same position mod 64,
for any chunk width `w` dividing 64 — so all four cipher paths agree there. -/
theorem decryptChunked_getD (w m k : Nat) (hw : 64 = w * m) (hm : m = 2 ^ k)
    (hwpos : 0 < w) (src pad : List Nat) (hs : ∀ b ∈ src, b < 256)
    (hp : ∀ b ∈ pad, b < 256) (hpad : w - 1 ≤ pad.length) (i : Nat)
    (hi : i < src.length) :
    (decryptChunked w src pad).getD i 0 = src.getD i 0 ^^^ maskByte i := by
  have hmpos : 0 < m := by
    rw [hm]
    exact Nat.pos_pow_of_pos k (by norm_num)
  have hiq : w * (i / w) + i % w = i := Nat.div_add_mod i w
  have hr : i % w < w := Nat.mod_lt _ hwpos
  have hqcount : i / w < (src.length + (w - 1)) / w := by
    have h1 : (src.length + (w - 1)) / w = (src.length - 1) / w + 1 := by
      have : src.length + (w - 1) = (src.length - 1) + w := by omega
      rw [this, Nat.add_div_right _ hwpos]
    have h2 : i / w ≤ (src.length - 1) / w := Nat.div_le_div_right (by omega)
    omega
  rw [decryptChunked]
  have hstep := getD_flatMap_range
    (fun j => leBytes w (leToNat (chunkAt (src ++ pad) w j) ^^^ maskWord w (j &&& (64 / w - 1))))
    w ((src.length + (w - 1)) / w) (fun j => leBytes_length _ _) (i / w) (i % w) hr hqcount
  rw [hiq] at hstep
  rw [hstep]
  show (leBytes w (leToNat (chunkAt (src ++ pad) w (i / w)) ^^^
      maskWord w (i / w &&& (64 / w - 1)))).getD (i % w) 0 = src.getD i 0 ^^^ maskByte i
  have hand : i / w &&& (64 / w - 1) = i / w % m := by
    have h64w : 64 / w = m := by
      rw [hw, Nat.mul_div_cancel_left _ hwpos]
    rw [h64w, hm, Nat.and_pow_two_sub_one_eq_mod]
  have hfull : w * (i / w) + w ≤ (src ++ pad).length := by
    rw [List.length_append]
    have : w * (i / w) ≤ i := by omega
    omega
  have hmask : w * (i / w % m) + w ≤ DECRYPTION_MASK.length := by
    have hq : i / w % m < m := Nat.mod_lt _ hmpos
    have : w * (i / w % m) + w ≤ w * m := by nlinarith
    simpa [DECRYPTION_MASK, ← hw] using this
  have hlen1 : (chunkAt (src ++ pad) w (i / w)).length = w := chunkAt_length _ _ _ hfull
  have hlen2 : (chunkAt DECRYPTION_MASK w (i / w % m)).length = w := chunkAt_length _ _ _ hmask
  have hb1 : ∀ b ∈ chunkAt (src ++ pad) w (i / w), b < 256 := by
    apply chunkAt_mem_lt
    intro b hb
    rcases List.mem_append.mp hb with h | h
    · exact hs b h
    · exact hp b h
  have hb2 : ∀ b ∈ chunkAt DECRYPTION_MASK w (i / w % m), b < 256 :=
    chunkAt_mem_lt _ _ _ mask_mem_lt
  rw [hand, maskWord, leToNat_xor _ _ (by rw [hlen1, hlen2]) hb1 hb2]
  have hzlen : (List.zipWith (· ^^^ ·) (chunkAt (src ++ pad) w (i / w))
      (chunkAt DECRYPTION_MASK w (i / w % m))).length = w := by
    rw [List.length_zipWith, hlen1, hlen2]
    simp
  nth_rewrite 1 [← hzlen]
  rw [leBytes_leToNat _ (zipWith_xor_lt _ _ hb1 hb2)]
  rw [getD_zipWith_xor _ _ _ (by omega) (by omega)]
  rw [chunkAt_getD _ _ _ _ hr, chunkAt_getD _ _ _ _ hr, hiq]
  have hsrcb : (src ++ pad).getD i 0 = src.getD i 0 := List.getD_append _ _ _ _ hi
  have hmod : (w * (i / w % m) + i % w) = i % 64 := by
    rw [hw, Nat.mod_mul]
    omega
  rw [hsrcb, hmod, maskByte]

/-- The specification's description of the cipher: the pure positional XOR
`dst[i] = src[i] ^ mask[i mod 64]`.  Stated from the spec, to be compared
with the implementation paths. -/
def specPositionalXor (src : List Nat) : List Nat :=
  (List.range src.length).map fun i => src.getD i 0 ^^^ maskByte i

theorem specPositionalXor_length (src : List Nat) :
    (specPositionalXor src).length = src.length := by
  rw [specPositionalXor, List.length_map, List.length_range]

theorem specPositionalXor_getD (src : List Nat) (i : Nat) (hi : i < src.length) :
    (specPositionalXor src).getD i 0 = src.getD i 0 ^^^ maskByte i := by
  rw [specPositionalXor, List.getD_eq_getElem?_getD,
    List.getElem?_eq_getElem (by simpa using hi)]
  simp

theorem maskByte_lt (i : Nat) : maskByte i < 256 := by
  have h : i % 64 < 64 := Nat.mod_lt _ (by norm_num)
  rw [maskByte]
  interval_cases h : i % 64 <;> decide

theorem specPositionalXor_mem_lt (src : List Nat) (h : ∀ b ∈ src, b < 256) :
    ∀ b ∈ specPositionalXor src, b < 256 := by
  intro b hb
  rw [specPositionalXor, List.mem_map] at hb
  obtain ⟨i, hi, rfl⟩ := hb
  rw [List.mem_range] at hi
  have h256 : (256 : Nat) = 2 ^ 8 := by norm_num
  rw [h256]
  refine Nat.xor_lt_two_pow ?_ (h256 ▸ maskByte_lt i)
  have hmem : src.getD i 0 ∈ src := by
    rw [List.getD_eq_getElem?_getD, List.getElem?_eq_getElem (by omega : i < src.length)]
    exact List.getElem_mem _
  exact h256 ▸ h _ hmem

theorem length_le_chunked (w n : Nat) (hw : 0 < w) : n ≤ w * ((n + (w - 1)) / w) := by
  have h := Nat.div_add_mod (n + (w - 1)) w
  have h2 : (n + (w - 1)) % w < w := Nat.mod_lt _ hw
  omega

/-- Restricted to the bytes of the source slice, every chunked path computes
the specification's positional XOR (hence all paths agree there). -/
theorem decryptChunked_take_spec (w m k : Nat) (hw : 64 = w * m) (hm : m = 2 ^ k)
    (hwpos : 0 < w) (src pad : List Nat) (hs : ∀ b ∈ src, b < 256)
    (hp : ∀ b ∈ pad, b < 256) (hpad : w - 1 ≤ pad.length) :
    (decryptChunked w src pad).take src.length = specPositionalXor src := by
  have hlen : ((decryptChunked w src pad).take src.length).length = src.length := by
    rw [List.length_take, decryptChunked_length]
    exact Nat.min_eq_left (length_le_chunked w src.length hwpos)
  apply List.ext_getElem (by rw [hlen, specPositionalXor_length])
  intro i h1 h2
  have hi : i < src.length := by rwa [hlen] at h1
  have hgd : ∀ (l : List Nat) (j : Nat) (h : j < l.length), l[j] = l.getD j 0 := by
    intro l j h
    rw [List.getD_eq_getElem?_getD, List.getElem?_eq_getElem h]
    rfl
  rw [hgd _ _ h1, hgd _ _ h2]
  rw [getD_take_lt _ _ _ hi, decryptChunked_getD w m k hw hm hwpos src pad hs hp hpad i hi,
    specPositionalXor_getD _ _ hi]

theorem cri_decrypt_eq_spec (src : List Nat) (hs : ∀ b ∈ src, b < 256) :
    cri_decrypt src = specPositionalXor src := by
  rw [cri_decrypt, decrypt_fallback]
  exact decryptChunked_take_spec 8 8 3 (by norm_num) (by norm_num) (by norm_num) src _ hs
    (by intro b hb; rw [List.eq_of_mem_replicate hb]; norm_num) (by simp)

theorem specPositionalXor_involutive (src : List Nat) :
    specPositionalXor (specPositionalXor src) = src := by
  apply List.ext_getElem (by rw [specPositionalXor_length, specPositionalXor_length])
  intro i h1 h2
  have hi : i < src.length := by
    rwa [specPositionalXor_length, specPositionalXor_length] at h1
  have hgd : ∀ (l : List Nat) (j : Nat) (h : j < l.length), l[j] = l.getD j 0 := by
    intro l j h
    rw [List.getD_eq_getElem?_getD, List.getElem?_eq_getElem h]
    rfl
  rw [hgd _ _ h1, hgd _ _ h2]
  rw [specPositionalXor_getD _ _ (by rwa [specPositionalXor_length]),
    specPositionalXor_getD _ _ hi, Nat.xor_assoc, Nat.xor_self, Nat.xor_zero]

theorem cri_decrypt_mem_lt (src : List Nat) (h : ∀ b ∈ src, b < 256) :
    ∀ b ∈ cri_decrypt src, b < 256 := by
  rw [cri_decrypt_eq_spec src h]
  exact specPositionalXor_mem_lt src h

/-- C3: the cipher transform is the positional XOR
`dst[i] = src[i] ^ mask[i mod 64]` against the fixed 64-byte mask
(`cri_decrypt buf = specPositionalXor buf`), encrypt and decrypt are the
same function, and for every buffer of every length (including lengths not a
multiple of 8/16/32/64) applying the transform twice yields the original
buffer. -/
theorem claim_C3_cipher_involutive (buf : List Nat) (h : ∀ b ∈ buf, b < 256) :
    cri_encrypt = cri_decrypt ∧
    cri_decrypt buf = specPositionalXor buf ∧
    cri_decrypt (cri_encrypt buf) = buf ∧
    cri_encrypt (cri_encrypt buf) = buf := by
  have hspec := cri_decrypt_eq_spec buf h
  have hdd : cri_decrypt (cri_decrypt buf) = buf := by
    rw [hspec, cri_decrypt_eq_spec _ (specPositionalXor_mem_lt buf h),
      specPositionalXor_involutive]
  exact ⟨rfl, hspec, hdd, hdd⟩

theorem claim_C3_witness :
    (∀ b ∈ [17, 3, 250, 7, 9], b < 256) ∧
      (cri_encrypt = cri_decrypt ∧
       cri_decrypt [17, 3, 250, 7, 9] = specPositionalXor [17, 3, 250, 7, 9] ∧
       cri_decrypt (cri_encrypt [17, 3, 250, 7, 9]) = [17, 3, 250, 7, 9] ∧
       cri_encrypt (cri_encrypt [17, 3, 250, 7, 9]) = [17, 3, 250, 7, 9]) :=
  ⟨by decide, claim_C3_cipher_involutive _ (by decide)⟩

/-- C4 (amended): every cipher path — the scalar `u64` fallback and the
SSE2/AVX2/AVX512F vectorized variants — produces bit-identical output on the
bytes of the source slice (each equals the positional XOR there); but a
buffer whose length is not a multiple of the chosen chunk width is handled
not by a narrower/byte path for the remainder but by processing one final
full-width chunk: a path of chunk width `w` reads and writes
`w * ceil(len / w)` bytes, which lie past the slice lengths inside the
crate's 64-byte-aligned over-allocation whenever `w` does not divide `len`. -/
theorem claim_C4_paths_amended (src pad : List Nat) (hs : ∀ b ∈ src, b < 256)
    (hp : ∀ b ∈ pad, b < 256) (hpad : 63 ≤ pad.length) :
    (decrypt_fallback src pad).take src.length = specPositionalXor src ∧
    (decrypt_sse2 src pad).take src.length = specPositionalXor src ∧
    (decrypt_avx2 src pad).take src.length = specPositionalXor src ∧
    (decrypt_avx512f src pad).take src.length = specPositionalXor src ∧
    (decrypt_fallback src pad).length = 8 * ((src.length + 7) / 8) ∧
    (decrypt_sse2 src pad).length = 16 * ((src.length + 15) / 16) ∧
    (decrypt_avx2 src pad).length = 32 * ((src.length + 31) / 32) ∧
    (decrypt_avx512f src pad).length = 64 * ((src.length + 63) / 64) := by
  refine ⟨?_, ?_, ?_, ?_, ?_, ?_, ?_, ?_⟩
  · exact decryptChunked_take_spec 8 8 3 (by norm_num) (by norm_num) (by norm_num)
      src pad hs hp (by omega)
  · exact decryptChunked_take_spec 16 4 2 (by norm_num) (by norm_num) (by norm_num)
      src pad hs hp (by omega)
  · exact decryptChunked_take_spec 32 2 1 (by norm_num) (by norm_num) (by norm_num)
      src pad hs hp (by omega)
  · exact decryptChunked_take_spec 64 1 0 (by norm_num) (by norm_num) (by norm_num)
      src pad hs hp (by omega)
  · exact decryptChunked_length 8 src pad
  · exact decryptChunked_length 16 src pad
  · exact decryptChunked_length 32 src pad
  · exact decryptChunked_length 64 src pad

theorem claim_C4_witness :
    (∀ b ∈ [1, 2, 3], b < 256) ∧ (∀ b ∈ List.replicate 63 0, b < 256) ∧
      63 ≤ (List.replicate 63 0 : List Nat).length ∧
      ((decrypt_fallback [1, 2, 3] (List.replicate 63 0)).take 3 =
          specPositionalXor [1, 2, 3] ∧
       (decrypt_sse2 [1, 2, 3] (List.replicate 63 0)).take 3 =
          specPositionalXor [1, 2, 3] ∧
       (decrypt_avx2 [1, 2, 3] (List.replicate 63 0)).take 3 =
          specPositionalXor [1, 2, 3] ∧
       (decrypt_avx512f [1, 2, 3] (List.replicate 63 0)).take 3 =
          specPositionalXor [1, 2, 3] ∧
       (decrypt_fallback [1, 2, 3] (List.replicate 63 0)).length = 8 * ((3 + 7) / 8) ∧
       (decrypt_sse2 [1, 2, 3] (List.replicate 63 0)).length = 16 * ((3 + 15) / 16) ∧
       (decrypt_avx2 [1, 2, 3] (List.replicate 63 0)).length = 32 * ((3 + 31) / 32) ∧
       (decrypt_avx512f [1, 2, 3] (List.replicate 63 0)).length = 64 * ((3 + 63) / 64)) :=
  ⟨by decide, by decide, by decide,
    claim_C4_paths_amended [1, 2, 3] (List.replicate 63 0) (by decide) (by decide) (by decide)⟩

/-- C4 (counterexample to the claim as stated): on a 63-byte buffer the
fallback path does not fall back to a narrower/byte path for the remainder:
it writes a full final 8-byte word, 64 bytes in total — one byte past the
63-byte destination slice — and the extra byte moreover depends on the
allocation bytes past the 63-byte source slice, witnessing a read past the
source length. -/
theorem claim_C4_counterexample :
    (decrypt_fallback (List.replicate 63 0) (List.replicate 63 0)).length = 64 ∧
    ¬ (decrypt_fallback (List.replicate 63 0) (List.replicate 63 0)).length ≤ 63 ∧
    (decrypt_fallback (List.replicate 63 0) (List.replicate 63 1)).getD 63 0 ≠
      (decrypt_fallback (List.replicate 63 0) (List.replicate 63 0)).getD 63 0 := by
  refine ⟨?_, ?_, ?_⟩
  · rw [decrypt_fallback, decryptChunked_length, List.length_replicate]
  · rw [decrypt_fallback, decryptChunked_length, List.length_replicate]
    norm_num
  · decide

/-! ### Errors (`criware-utf-core/src/lib.rs`) -/

/-- The crate's `Error` enum.  `EOF` carries its context message;
`WrongColumnName` carries the actual and expected name (as UTF-8 bytes);
`StringMalformed`, `IOError` and `ValueConversion` drop their non-observable
payloads.  `DecryptionError` is the variant `packet.rs` throws (the spec's
`CipherError`); it is referenced by `src/packet.rs` though the copy of
`lib.rs` under inspection predates it. -/
inductive Error where
  | BlobWrongSize
  | DataNotFound
  | EOF (msg : String)
  | InvalidColumnStorage (flag : Nat)
  | InvalidColumnType (flag : Nat)
  | IOError
  | MalformedHeader
  | StringMalformed
  | OptionalColumnConflict (name : String)
  | ValueConversion
  | WrongColumnName (got : List Nat) (expected : List Nat)
  | WrongColumnType (got : Nat) (expected : Nat)
  | WrongColumnStorage (got : Nat) (expected : String)
  | WrongTableSchema
  | DecryptionError
deriving Repr, DecidableEq

/-! ### Value kinds and primitive codec (`src/value.rs`) -/

/-- The `ValueKind` enum with its on-disk numeric tags. -/
inductive ValueKind where
  | U8 | I8 | U16 | I16 | U32 | I32 | U64 | I64 | F32 | STR | BLOB
deriving Repr, DecidableEq

/-- The `#[repr(u8)]` discriminant of each `ValueKind`. -/
def ValueKind.tag : ValueKind → Nat
  | .U8 => 0 | .I8 => 1 | .U16 => 2 | .I16 => 3 | .U32 => 4 | .I32 => 5
  | .U64 => 6 | .I64 => 7 | .F32 => 8 | .STR => 0xa | .BLOB => 0xb

/-- `SIZE_IN_UTF`: the on-disk width of each primitive (numbers at their
natural width, `f32` as its 4-byte bit pattern, strings as a 4-byte pool
offset, blobs as an 8-byte offset-and-length pair). -/
def ValueKind.width : ValueKind → Nat
  | .U8 => 1 | .I8 => 1 | .U16 => 2 | .I16 => 2 | .U32 => 4 | .I32 => 4
  | .U64 => 8 | .I64 => 8 | .F32 => 4 | .STR => 4 | .BLOB => 8

/-- A decoded primitive value: numbers (including signed integers and `f32`)
as their big-endian bit pattern, strings and blobs as byte lists.  The Rust
`Value` conversions used by the claims (`u8..u64`, `i8..i64`, `f32`,
`String`, `Vec<u8>`) are all identity conversions on the primitive. -/
inductive UTFValue where
  | num (n : Nat)
  | strv (s : List Nat)
  | blobv (b : List Nat)
deriving Repr, DecidableEq

/-- Numeric payload extractor (the Rust type system guarantees the match;
the default is dead code). -/
def UTFValue.asNum : UTFValue → Nat
  | .num n => n
  | _ => 0

/-- String payload extractor (dead default, as for `asNum`). -/
def UTFValue.asStr : UTFValue → List Nat
  | .strv s => s
  | _ => []

/-- Continuation-byte test, `0x80..=0xBF`. -/
def isUtf8Cont (b : Nat) : Bool := decide (0x80 ≤ b ∧ b ≤ 0xBF)

/-- Strict UTF-8 validity of a byte sequence, as checked by
`std::str::from_utf8` (RFC 3629: no overlongs, no surrogates, max
`U+10FFFF`). -/
def utf8Valid : List Nat → Bool
  | [] => true
  | b :: l =>
    if b ≤ 0x7F then utf8Valid l
    else if 0xC2 ≤ b ∧ b ≤ 0xDF then
      match l with
      | c1 :: l2 => isUtf8Cont c1 && utf8Valid l2
      | [] => false
    else if b = 0xE0 then
      match l with
      | c1 :: c2 :: l2 =>
          decide (0xA0 ≤ c1 ∧ c1 ≤ 0xBF) && isUtf8Cont c2 && utf8Valid l2
      | _ => false
    else if (0xE1 ≤ b ∧ b ≤ 0xEC) ∨ b = 0xEE ∨ b = 0xEF then
      match l with
      | c1 :: c2 :: l2 => isUtf8Cont c1 && isUtf8Cont c2 && utf8Valid l2
      | _ => false
    else if b = 0xED then
      match l with
      | c1 :: c2 :: l2 =>
          decide (0x80 ≤ c1 ∧ c1 ≤ 0x9F) && isUtf8Cont c2 && utf8Valid l2
      | _ => false
    else if b = 0xF0 then
      match l with
      | c1 :: c2 :: c3 :: l2 =>
          decide (0x90 ≤ c1 ∧ c1 ≤ 0xBF) && isUtf8Cont c2 && isUtf8Cont c3 && utf8Valid l2
      | _ => false
    else if 0xF1 ≤ b ∧ b ≤ 0xF3 then
      match l with
      | c1 :: c2 :: c3 :: l2 =>
          isUtf8Cont c1 && isUtf8Cont c2 && isUtf8Cont c3 && utf8Valid l2
      | _ => false
    else if b = 0xF4 then
      match l with
      | c1 :: c2 :: c3 :: l2 =>
          decide (0x80 ≤ c1 ∧ c1 ≤ 0x8F) && isUtf8Cont c2 && isUtf8Cont c3 && utf8Valid l2
      | _ => false
    else false

/-- `<str as Primitive>::write`: look the string up in the writer's
dedup map; if absent, append `s ++ [0]` to the pool at the current length
(stored `as u32`) and record it.  Returns the 4-byte big-endian offset
buffer together with the updated map and pool. -/
def strWrite (strings : List (List Nat × Nat)) (string_buffer : List Nat)
    (s : List Nat) : List Nat × List (List Nat × Nat) × List Nat :=
  match List.lookup s strings with
  | some idx => (beBytes 4 idx, strings, string_buffer)
  | none =>
      let position := string_buffer.length % 2 ^ 32
      (beBytes 4 position, (s, position) :: strings, string_buffer ++ s ++ [0])

/-- `<[u8] as Primitive>::write`: always append to the blob pool; the 8-byte
buffer packs `(blobs.len() << 32) | value.len()` as a `u64`. -/
def blobWrite (blobs : List Nat) (b : List Nat) : List Nat × List Nat :=
  (beBytes 8 (((blobs.length <<< 32) ||| b.length) % 2 ^ 64), blobs ++ b)

/-- `Primitive::write`, dispatched on the value kind.  Numbers are their
big-endian bytes.  A kind/value mismatch cannot arise through the Rust API
(the `Value` trait fixes the primitive per type); those arms are dead
totalization code. -/
def primWrite (k : ValueKind) (v : UTFValue) (strings : List (List Nat × Nat))
    (string_buffer : List Nat) (blobs : List Nat) :
    List Nat × List (List Nat × Nat) × List Nat × List Nat :=
  match k, v with
  | .STR, .strv s =>
      match strWrite strings string_buffer s with
      | (buf, st, sb) => (buf, st, sb, blobs)
  | .BLOB, .blobv b =>
      match blobWrite blobs b with
      | (buf, bl) => (buf, strings, string_buffer, bl)
  | k, .num n => (beBytes k.width n, strings, string_buffer, blobs)
  | k, _ => (List.replicate k.width 0, strings, string_buffer, blobs)

/-- `Primitive::parse`, dispatched on the value kind, against the reader's
string map and blob pool.  `STR` resolves the 4-byte offset in the map
(`None` when absent); `BLOB` slices `blobs[idx..idx+len]`, `None` when
`idx + len > blobs.len()`; numbers always parse. -/
def parsePrim (k : ValueKind) (buf : List Nat) (strings : List (Nat × List Nat))
    (blobs : List Nat) : Option UTFValue :=
  match k with
  | .STR => (List.lookup (beToNat buf) strings).map .strv
  | .BLOB =>
      let idx := beToNat (buf.take 4)
      let len := beToNat ((buf.drop 4).take 4)
      if idx + len > blobs.length then none
      else some (.blobv ((blobs.drop idx).take len))
  | _ => some (.num (beToNat buf))

/-! ### The table writer (`src/writer.rs`) -/

/-- The bytes of the string `"<NULL>"`. -/
def nullName : List Nat := [0x3c, 0x4e, 0x55, 0x4c, 0x4c, 0x3e]

/-- `WriteContext`: optional-rowed-column name to inclusion flag. -/
structure WriteContext where
  map : List (String × Bool)
deriving Repr, DecidableEq

/-- `WriteContext::new`. -/
def WriteContext.new : WriteContext := ⟨[]⟩

/-- `WriteContext::is_included`: the recorded flag, defaulting to `true`. -/
def WriteContext.is_included (ctx : WriteContext) (column_name : String) : Bool :=
  match List.lookup column_name ctx.map with
  | some v => v
  | none => true

/-- `WriteContext::set_inclusion_state`: `HashMap::insert`. -/
def WriteContext.set_inclusion_state (ctx : WriteContext) (column_name : String)
    (included : Bool) : WriteContext := ⟨(column_name, included) :: ctx.map⟩

/-- The `Writer` state: the four growing buffers, the string dedup map and
the running field count. -/
structure Writer where
  column_data : List Nat
  row_data : List Nat
  strings : List (List Nat × Nat)
  string_data : List Nat
  blobs : List Nat
  field_count : Nat
deriving Repr, DecidableEq

/-- `Writer::new`: seeds the pool with `<NULL>\0` at offset 0 and the table
name (NUL-terminated) at offset 7, recording both in the dedup map. -/
def Writer.new (table_name : List Nat) : Writer where
  column_data := []
  row_data := []
  strings := [(table_name, 7), (nullName, 0)]
  string_data := nullName ++ [0] ++ table_name ++ [0]
  blobs := []
  field_count := 0

/-- `Writer::write_primitive`: encode one primitive and append its buffer to
the row or column data. -/
def Writer.write_primitive (w : Writer) (rowed : Bool) (k : ValueKind)
    (v : UTFValue) : Writer :=
  match primWrite k v w.strings w.string_data w.blobs with
  | (buf, st, sd, bl) =>
      if rowed then
        { w with row_data := w.row_data ++ buf, strings := st, string_data := sd, blobs := bl }
      else
        { w with column_data := w.column_data ++ buf, strings := st, string_data := sd, blobs := bl }

/-- `Writer::write_value`: `to_primitive` (identity for the primitive types
the claims use, hence infallible here) followed by `write_primitive`. -/
def Writer.write_value (w : Writer) (rowed : Bool) (k : ValueKind)
    (v : UTFValue) : Writer :=
  w.write_primitive rowed k v

/-- `Writer::push_constant_column_private`: flag byte
(`0x30` present / `0x10` absent, low nibble the kind tag), then the name,
then — only when present — the value, all into the column area; bumps the
`u16` field count. -/
def Writer.push_constant_column_private (w : Writer) (k : ValueKind)
    (name : List Nat) (value : Option UTFValue) : Writer :=
  let flag : Nat := if value.isSome then 0x30 else 0x10
  let w1 := w.write_primitive false .U8 (.num (flag ||| k.tag))
  let w2 := w1.write_primitive false .STR (.strv name)
  let w3 := match value with
    | some v => w2.write_value false k v
    | none => w2
  { w3 with field_count := (w3.field_count + 1) % 2 ^ 16 }

/-- `Writer::push_constant_column`. -/
def Writer.push_constant_column (w : Writer) (k : ValueKind) (name : List Nat)
    (value : UTFValue) : Writer :=
  w.push_constant_column_private k name (some value)

/-- `Writer::push_constant_column_opt`. -/
def Writer.push_constant_column_opt (w : Writer) (k : ValueKind)
    (name : List Nat) (value : Option UTFValue) : Writer :=
  w.push_constant_column_private k name value

/-- `Writer::push_rowed_column_private`: flag byte (`0x50` included / `0x10`
excluded, low nibble the kind tag) and the name; no value. -/
def Writer.push_rowed_column_private (w : Writer) (name : List Nat)
    (included : Bool) (k : ValueKind) : Writer :=
  let storage_flag : Nat := if included then 0x50 else 0x10
  let w1 := w.write_primitive false .U8 (.num (storage_flag ||| k.tag))
  let w2 := w1.write_primitive false .STR (.strv name)
  { w2 with field_count := (w2.field_count + 1) % 2 ^ 16 }

/-- `Writer::push_rowed_column`. -/
def Writer.push_rowed_column (w : Writer) (k : ValueKind) (name : List Nat) : Writer :=
  w.push_rowed_column_private name true k

/-- `Writer::push_rowed_column_opt`. -/
def Writer.push_rowed_column_opt (w : Writer) (k : ValueKind) (name : List Nat)
    (included : Bool) : Writer :=
  w.push_rowed_column_private name included k

/-- The ASCII bytes of `@UTF`. -/
def utfMagic : List Nat := [0x40, 0x55, 0x54, 0x46]

/--
`Writer::end`: checks the accumulated row buffer against
`row_size * row_count` (mismatch: `MalformedHeader`, before anything is
written), computes the offsets in `u32` arithmetic — note
`blob_offset += 8 - (blob_offset & 7)` adds a full 8 when already aligned —
and emits the primary header, secondary header (with the table-name
reference fixed at 7) and the four buffers with `8 - (blob_offset & 7)`
zero bytes of padding before the blob pool.  The returned list is the byte
stream written on success; in the error case the check precedes every
`write_all`, so nothing is emitted.
-/
def Writer.end (w : Writer) (row_size row_count : Nat) : Except Error (List Nat) :=
  if w.row_data.length ≠ row_size * row_count then .error .MalformedHeader
  else
    let row_offset := (w.column_data.length % 2 ^ 32 + 24) % 2 ^ 32
    let string_offset := (row_offset + w.row_data.length % 2 ^ 32) % 2 ^ 32
    let blob_offset0 := (string_offset + w.string_data.length % 2 ^ 32) % 2 ^ 32
    let blob_offset_remainder := 8 - (blob_offset0 &&& 7)
    let blob_offset := (blob_offset0 + blob_offset_remainder) % 2 ^ 32
    let table_name : Nat := 7
    let table_size := (blob_offset + w.blobs.length % 2 ^ 32) % 2 ^ 32
    .ok (utfMagic ++ beBytes 4 table_size ++ beBytes 4 row_offset ++
      beBytes 4 string_offset ++ beBytes 4 blob_offset ++ beBytes 4 table_name ++
      beBytes 2 w.field_count ++ beBytes 2 row_size ++ beBytes 4 row_count ++
      w.column_data ++ w.row_data ++ w.string_data ++
      List.replicate blob_offset_remainder 0 ++ w.blobs)

/-! ### The table reader (`src/reader.rs`) -/

/-- `read_exact` on a byte stream: returns the bytes read and the rest of
the stream, or the end-of-file error tagged with its context. -/
def readExact (s : List Nat) (n : Nat) (tag : String) :
    Except Error (List Nat × List Nat) :=
  if n ≤ s.length then .ok (s.take n, s.drop n) else .error (.EOF tag)

/-- The `Reader` state: the unread remainders of the column and row buffers
(`Cursor` positions), the scanned string map, the blob pool, the table-name
offset and the field count. -/
structure Reader where
  columnRem : List Nat
  rowRem : List Nat
  strings : List (Nat × List Nat)
  blobs : List Nat
  table_name_index : Nat
  field_count : Nat
deriving Repr, DecidableEq

/-- The string-pool scan loop of `Reader::new`: split the buffer on NUL
bytes, decode each segment as strict UTF-8 (failure is fatal), and map each
segment's start offset to the segment.  `start`/`cur` are the loop state;
`acc` accumulates insertions (later insertions in front, as `HashMap`). -/
def scanGo : List Nat → Nat → List Nat → List (Nat × List Nat) →
    Except Error (List (Nat × List Nat))
  | [], _, _, acc => .ok acc
  | 0 :: rest, start, cur, acc =>
      if utf8Valid cur then scanGo rest (start + cur.length + 1) [] ((start, cur) :: acc)
      else .error .StringMalformed
  | b :: rest, start, cur, acc => scanGo rest start (cur ++ [b]) acc

/-- `Reader::new`: magic and size header, the 24-byte secondary header with
the region-layout checks (the `row_size as u32 * row_count` product wraps
mod `2^32` as the `u32` multiplication does), then the four regions, the
string-pool scan and the table-name resolution check. -/
def Reader.new (stream : List Nat) : Except Error Reader := do
  let (header8, s1) ← readExact stream 8 "@UTF header"
  if header8.take 4 ≠ utfMagic then throw .MalformedHeader
  let table_size := beToNat (header8.drop 4)
  if table_size < 24 then throw (.EOF "@UTF header")
  let (header24, s2) ← readExact s1 24 "@UTF header"
  let row_offset := beToNat (header24.take 4)
  let string_offset := beToNat ((header24.drop 4).take 4)
  let blob_offset := beToNat ((header24.drop 8).take 4)
  let table_name := beToNat ((header24.drop 12).take 4)
  let field_count := beToNat ((header24.drop 16).take 2)
  let row_size := beToNat ((header24.drop 18).take 2)
  let row_count := beToNat ((header24.drop 20).take 4)
  if 24 > row_offset ∨ row_offset > string_offset ∨ string_offset > blob_offset ∨
      blob_offset > table_size ∨
      (row_size * row_count) % 2 ^ 32 ≠ string_offset - row_offset then
    throw .MalformedHeader
  let (column_buffer, s3) ← readExact s2 (row_offset - 24) "UTF column data"
  let (row_buffer, s4) ← readExact s3 (string_offset - row_offset) "UTF row data"
  let (string_buffer, s5) ← readExact s4 (blob_offset - string_offset) "UTF string data"
  let strings ← scanGo string_buffer 0 [] []
  if (List.lookup table_name strings).isNone then throw .MalformedHeader
  let (blobs, _) ← readExact s5 (table_size - blob_offset) "UTF blob data"
  pure { columnRem := column_buffer, rowRem := row_buffer, strings := strings,
         blobs := blobs, table_name_index := table_name, field_count := field_count }

/-- `Reader::table_name` (the `unwrap` is safe after `Reader::new`). -/
def Reader.table_name (r : Reader) : List Nat :=
  (List.lookup r.table_name_index r.strings).getD []

/-- `Reader::more_column_data`. -/
def Reader.more_column_data (r : Reader) : Bool := !r.columnRem.isEmpty

/-- `Reader::more_row_data`. -/
def Reader.more_row_data (r : Reader) : Bool := !r.rowRem.isEmpty

/-- The buffer-filling part of `Reader::read_primitive`: take `n` bytes from
the row or column cursor, or the named end-of-file error. -/
def Reader.readBytes (r : Reader) (row : Bool) (n : Nat) (tag : String) :
    Except Error (List Nat × Reader) :=
  if row then
    if n ≤ r.rowRem.length then .ok (r.rowRem.take n, { r with rowRem := r.rowRem.drop n })
    else .error (.EOF tag)
  else
    if n ≤ r.columnRem.length then
      .ok (r.columnRem.take n, { r with columnRem := r.columnRem.drop n })
    else .error (.EOF tag)

/-- The Rust `type_name` of the primitive backing each kind (only used in
end-of-file messages). -/
def ValueKind.rustName : ValueKind → String
  | .U8 => "u8" | .I8 => "i8" | .U16 => "u16" | .I16 => "i16" | .U32 => "u32"
  | .I32 => "i32" | .U64 => "u64" | .I64 => "i64" | .F32 => "f32"
  | .STR => "str" | .BLOB => "[u8]"

/-- `Reader::read_primitive`: fill the fixed-width buffer from the selected
cursor, then `Primitive::parse` it against the pools (`None` is the
`DataNotFound` data-integrity error). -/
def Reader.read_primitive (r : Reader) (row : Bool) (k : ValueKind) :
    Except Error (UTFValue × Reader) := do
  let (buf, r1) ← r.readBytes row k.width ("reading " ++ k.rustName ++ " value")
  match parsePrim k buf r1.strings r1.blobs with
  | some v => pure (v, r1)
  | none => throw .DataNotFound

/-- `Reader::read_value`: `read_primitive` plus the (identity) value
conversion. -/
def Reader.read_value (r : Reader) (row : Bool) (k : ValueKind) :
    Except Error (UTFValue × Reader) :=
  r.read_primitive row k

/-- `is_valid_value_flag`: the eleven valid value tags. -/
def is_valid_value_flag (half : Nat) : Bool :=
  decide (half ≤ 8) || half == 0xa || half == 0xb

/-- `is_valid_storage_flag`: the three valid (shifted) storage tags. -/
def is_valid_storage_flag (half : Nat) : Bool :=
  half == 0x10 || half == 0x30 || half == 0x50

/-- `Reader::read_constant_column_private`: flag byte, name, name equality,
the `handle_type_flag!` low-nibble check, then the high-nibble storage
check; on `0x30` additionally reads the constant's value. -/
def Reader.read_constant_column_private (r : Reader) (k : ValueKind)
    (name : List Nat) (optional : Bool) : Except Error (Option UTFValue × Reader) := do
  let (flagv, r1) ← r.read_primitive false .U8
  let flag := flagv.asNum
  let (namev, r2) ← r1.read_primitive false .STR
  let column_name := namev.asStr
  if column_name ≠ name then throw (.WrongColumnName column_name name)
  let type_flag := flag &&& 0x0f
  let storage_flag := flag &&& 0xf0
  if type_flag ≠ k.tag then
    if is_valid_value_flag type_flag then throw (.WrongColumnType type_flag k.tag)
    else throw (.InvalidColumnType type_flag)
  if storage_flag == 0x30 then
    let (v, r3) ← r2.read_value false k
    pure (some v, r3)
  else if optional && storage_flag == 0x10 then pure (none, r2)
  else if is_valid_storage_flag storage_flag then
    throw (.WrongColumnStorage storage_flag "0x30")
  else throw (.InvalidColumnStorage storage_flag)

/-- `Reader::read_constant_column` (the Rust code `unwrap`s the option; with
`optional = false` the private function never returns `none`). -/
def Reader.read_constant_column (r : Reader) (k : ValueKind) (name : List Nat) :
    Except Error (UTFValue × Reader) := do
  let (vopt, r1) ← r.read_constant_column_private k name false
  match vopt with
  | some v => pure (v, r1)
  | none => throw .DataNotFound

/-- `Reader::read_constant_column_opt`. -/
def Reader.read_constant_column_opt (r : Reader) (k : ValueKind)
    (name : List Nat) : Except Error (Option UTFValue × Reader) :=
  r.read_constant_column_private k name true

/-- `Reader::read_rowed_column_private`: the same name and type checks, with
`0x50` (Rowed) as the accepted storage and no value consumption; returns
whether the column is rowed (`true`) or zero (`false`, optional only). -/
def Reader.read_rowed_column_private (r : Reader) (name : List Nat)
    (k : ValueKind) (optional : Bool) : Except Error (Bool × Reader) := do
  let (flagv, r1) ← r.read_primitive false .U8
  let flag := flagv.asNum
  let (namev, r2) ← r1.read_primitive false .STR
  let column_name := namev.asStr
  if column_name ≠ name then throw (.WrongColumnName column_name name)
  let type_flag := flag &&& 0x0f
  let storage_flag := flag &&& 0xf0
  if type_flag ≠ k.tag then
    if is_valid_value_flag type_flag then throw (.WrongColumnType type_flag k.tag)
    else throw (.InvalidColumnType type_flag)
  if storage_flag == 0x50 then pure (true, r2)
  else if optional && storage_flag == 0x10 then pure (false, r2)
  else if is_valid_storage_flag storage_flag then
    throw (.WrongColumnStorage storage_flag "0x50")
  else throw (.InvalidColumnStorage storage_flag)

/-- `Reader::read_rowed_column`. -/
def Reader.read_rowed_column (r : Reader) (k : ValueKind) (name : List Nat) :
    Except Error Reader := do
  let (_, r1) ← r.read_rowed_column_private name k false
  pure r1

/-- `Reader::read_rowed_column_opt`. -/
def Reader.read_rowed_column_opt (r : Reader) (k : ValueKind) (name : List Nat) :
    Except Error (Bool × Reader) :=
  r.read_rowed_column_private name k true

/-! ### The packet envelope (`src/packet.rs`) -/

/-- The observable result of `Packet::read_packet` up to the `T::read`
handoff: the encryption flag, the preserved `unknown_value`, and the exact
plaintext table bytes handed to the table reader. -/
structure PacketOut where
  encrypted : Bool
  unknown_value : Nat
  tableBytes : List Nat
deriving Repr, DecidableEq

/-- `Packet::read_packet`: the 16-byte envelope header (4-byte tag checked
against the caller's, little-endian `u32` unknown value, little-endian `u64`
payload length with a 32-byte minimum), then the payload: `@UTF` means
plaintext; otherwise the `can_decrypt` guard is required and the decrypted
payload must begin with `@UTF`. -/
def read_packet (stream : List Nat) (pfx : List Nat) : Except Error PacketOut := do
  let (header, s1) ← readExact stream 16 "UTF packet header"
  if pfx ≠ header.take 4 then throw .WrongTableSchema
  let unknown_value := leToNat ((header.drop 4).take 4)
  let table_size := leToNat (header.drop 8)
  if table_size < 32 then throw .MalformedHeader
  let (table_data, _) ← readExact s1 table_size "UTF table"
  if table_data.take 4 = utfMagic then
    pure { encrypted := false, unknown_value := unknown_value, tableBytes := table_data }
  else if ¬ can_decrypt table_data then throw .DecryptionError
  else
    let decrypted := cri_decrypt table_data
    if decrypted.take 4 = utfMagic then
      pure { encrypted := true, unknown_value := unknown_value, tableBytes := decrypted }
    else throw .DecryptionError

/-! ### Claim theorems: WriteContext, blob bounds, Writer::end -/

/-- Replay a sequence of `set_inclusion_state` calls on a context. -/
def applyInclusionOps (ops : List (String × Bool)) (ctx : WriteContext) : WriteContext :=
  ops.foldl (fun c p => c.set_inclusion_state p.1 p.2) ctx

theorem is_included_set (ctx : WriteContext) (n name : String) (b : Bool) :
    (ctx.set_inclusion_state n b).is_included name =
      if name == n then b else ctx.is_included name := by
  rw [WriteContext.is_included, WriteContext.set_inclusion_state]
  by_cases h : name == n <;> simp [List.lookup, h, WriteContext.is_included]

theorem applyInclusionOps_is_included (ops : List (String × Bool))
    (ctx : WriteContext) (name : String) :
    (applyInclusionOps ops ctx).is_included name =
      ((ops.reverse.lookup name).getD (ctx.is_included name)) := by
  induction ops generalizing ctx with
  | nil => simp [applyInclusionOps]
  | cons p ops ih =>
      rw [applyInclusionOps, List.foldl_cons, ← applyInclusionOps, ih,
        List.reverse_cons, List.lookup_append]
      cases hfind : ops.reverse.lookup name with
      | some v => simp [Option.or]
      | none =>
          simp only [Option.or]
          rw [is_included_set]
          by_cases h : name == p.1 <;> simp [List.lookup, h]

/-- C10: for every `WriteContext` (reached from `new` by any sequence of
`set_inclusion_state` calls), `is_included name` is `true` when no call ever
set `name`, and otherwise the most recently set flag for `name`. -/
theorem claim_C10_write_context (ops : List (String × Bool)) (name : String) :
    (applyInclusionOps ops WriteContext.new).is_included name =
      ((ops.reverse.lookup name).getD true) := by
  rw [applyInclusionOps_is_included]
  rfl

/-- Reading `pre.length` bytes from a cursor that starts with `pre`
consumes exactly `pre`. -/
theorem readBytes_spec (r : Reader) (row : Bool) (tag : String)
    (pre rest : List Nat)
    (hcur : (if row then r.rowRem else r.columnRem) = pre ++ rest) :
    r.readBytes row pre.length tag =
      .ok (pre, if row then { r with rowRem := rest } else { r with columnRem := rest }) := by
  cases row with
  | false =>
      have hcur' : r.columnRem = pre ++ rest := by simpa using hcur
      simp only [Reader.readBytes, Bool.false_eq_true, if_false, hcur', List.length_append]
      rw [if_pos (by omega), List.take_left, List.drop_left]
  | true =>
      have hcur' : r.rowRem = pre ++ rest := by simpa using hcur
      simp only [Reader.readBytes, if_true, hcur', List.length_append]
      rw [if_pos (by omega), List.take_left, List.drop_left]

/-- `read_primitive` on a cursor that starts with a full-width buffer is
`Primitive::parse` of that buffer (against the unchanged pools), advancing
the cursor on success. -/
theorem read_primitive_spec (r : Reader) (row : Bool) (k : ValueKind)
    (pre rest : List Nat) (hlen : pre.length = k.width)
    (hcur : (if row then r.rowRem else r.columnRem) = pre ++ rest) :
    r.read_primitive row k =
      match parsePrim k pre r.strings r.blobs with
      | some v => .ok (v,
          if row then { r with rowRem := rest } else { r with columnRem := rest })
      | none => .error .DataNotFound := by
  have h := readBytes_spec r row ("reading " ++ k.rustName ++ " value") pre rest hcur
  rw [hlen] at h
  cases row with
  | false =>
      rw [Reader.read_primitive, h]
      simp only [bind, Except.bind, Bool.false_eq_true, if_false, pure, Except.pure]
      rfl
  | true =>
      rw [Reader.read_primitive, h]
      simp only [bind, Except.bind, if_true, pure, Except.pure]
      rfl

/-- C6: a blob reference `(off, len)` read through
`Reader::read_primitive` decodes successfully exactly when
`off + len ≤ blobs.len()` (a blob ending exactly at the pool boundary is
valid, and the decoded bytes are `blobs[off..off+len]`), and fails with the
`DataNotFound` data-integrity error when `off + len` exceeds the pool
length. -/
theorem claim_C6_blob_bounds (r : Reader) (row : Bool) (off len : Nat)
    (hoff : off < 2 ^ 32) (hlen : len < 2 ^ 32) (rest : List Nat)
    (hcur : (if row then r.rowRem else r.columnRem) =
      beBytes 4 off ++ beBytes 4 len ++ rest) :
    (parsePrim .BLOB (beBytes 4 off ++ beBytes 4 len) r.strings r.blobs).isSome =
        decide (off + len ≤ r.blobs.length) ∧
    (off + len ≤ r.blobs.length →
      r.read_primitive row .BLOB =
        .ok (.blobv ((r.blobs.drop off).take len),
          if row then { r with rowRem := rest } else { r with columnRem := rest })) ∧
    (off + len > r.blobs.length →
      r.read_primitive row .BLOB = .error .DataNotFound) := by
  have hparse : parsePrim .BLOB (beBytes 4 off ++ beBytes 4 len) r.strings r.blobs =
      if off + len > r.blobs.length then none
      else some (.blobv ((r.blobs.drop off).take len)) := by
    rw [parsePrim]
    rw [List.take_left' (beBytes_length 4 off),
      List.drop_left' (beBytes_length 4 off),
      List.take_of_length_le (le_of_eq (beBytes_length 4 len)),
      beToNat_beBytes_of_lt (by simpa using hoff),
      beToNat_beBytes_of_lt (by simpa using hlen)]
  have hspec := read_primitive_spec r row .BLOB (beBytes 4 off ++ beBytes 4 len) rest
    (by rw [List.length_append, beBytes_length, beBytes_length]; rfl)
    (by rw [hcur, List.append_assoc])
  refine ⟨?_, ?_, ?_⟩
  · rw [hparse]
    by_cases hb : off + len > r.blobs.length
    · simp [hb, Nat.not_le_of_lt hb]
    · simp [hb, Nat.le_of_not_lt hb]
  · intro hb
    rw [hspec, hparse, if_neg (by omega)]
  · intro hb
    rw [hspec, hparse, if_pos hb]

/-- C7: `Writer::end` fails with the write-consistency (`MalformedHeader`)
error exactly when the accumulated row buffer's length differs from
`row_size * row_count`; the length check precedes every write to the output
stream, so the failure case produces no output bytes at all (the model's
error branch carries none). -/
theorem claim_C7_end_row_check (w : Writer) (row_size row_count : Nat) :
    (Writer.end w row_size row_count = .error .MalformedHeader ↔
      w.row_data.length ≠ row_size * row_count) ∧
    (w.row_data.length = row_size * row_count →
      ∃ out, Writer.end w row_size row_count = .ok out) := by
  by_cases hlen : w.row_data.length = row_size * row_count
  · refine ⟨⟨fun h => ?_, fun hne => absurd hlen hne⟩, fun _ => ?_⟩
    · rw [Writer.end, if_neg (by simp [hlen])] at h
      exact absurd h (by simp)
    · cases hres : Writer.end w row_size row_count with
      | ok out => exact ⟨out, rfl⟩
      | error e =>
          rw [Writer.end, if_neg (by simp [hlen])] at hres
          simp at hres
  · refine ⟨⟨fun _ => hlen, fun _ => ?_⟩, fun h => absurd h hlen⟩
    rw [Writer.end, if_pos hlen]

theorem claim_C7_witness :
    ((Writer.end (Writer.new [65]) 4 1 = .error .MalformedHeader ↔
        (Writer.new [65]).row_data.length ≠ 4 * 1) ∧
     ((Writer.new [65]).row_data.length = 4 * 1 →
        ∃ out, Writer.end (Writer.new [65]) 4 1 = .ok out)) ∧
    ((Writer.end (Writer.new [65]) 0 0 = .error .MalformedHeader ↔
        (Writer.new [65]).row_data.length ≠ 0 * 0) ∧
     ((Writer.new [65]).row_data.length = 0 * 0 →
        ∃ out, Writer.end (Writer.new [65]) 0 0 = .ok out)) :=
  ⟨claim_C7_end_row_check (Writer.new [65]) 4 1,
   claim_C7_end_row_check (Writer.new [65]) 0 0⟩

/-- C8 (amended): on success `Writer::end` emits the layout with
`row_offset = 24 + len(column_buffer)`,
`string_offset = row_offset + len(row_buffer)`, the table-name string
reference fixed at 7, `table_size = blob_offset + len(blob_buffer)` — but
`blob_offset` is the smallest multiple of 8 *strictly greater* than
`string_offset + len(string_buffer)`: the code adds `8 - (x & 7)` bytes of
zero padding, i.e. a full 8 bytes when `x` is already 8-aligned, instead of
rounding up to the next multiple of 8 (which would leave an aligned `x`
unchanged). -/
theorem claim_C8_end_layout_amended (w : Writer) (row_size row_count : Nat)
    (hrows : w.row_data.length = row_size * row_count)
    (hsize : 24 + w.column_data.length + w.row_data.length +
      w.string_data.length + 8 + w.blobs.length < 2 ^ 32) :
    ∃ pad, 1 ≤ pad ∧ pad ≤ 8 ∧
      (24 + w.column_data.length + w.row_data.length + w.string_data.length
          + pad) % 8 = 0 ∧
      ((24 + w.column_data.length + w.row_data.length + w.string_data.length)
          % 8 = 0 → pad = 8) ∧
      Writer.end w row_size row_count = .ok (utfMagic ++
        beBytes 4 (24 + w.column_data.length + w.row_data.length +
          w.string_data.length + pad + w.blobs.length) ++
        beBytes 4 (24 + w.column_data.length) ++
        beBytes 4 (24 + w.column_data.length + w.row_data.length) ++
        beBytes 4 (24 + w.column_data.length + w.row_data.length +
          w.string_data.length + pad) ++
        beBytes 4 7 ++
        beBytes 2 w.field_count ++ beBytes 2 row_size ++ beBytes 4 row_count ++
        w.column_data ++ w.row_data ++ w.string_data ++
        List.replicate pad 0 ++ w.blobs) := by
  have hand : ∀ x : Nat, x &&& 7 = x % 8 := fun x => by
    have h := Nat.and_pow_two_sub_one_eq_mod x 3
    norm_num at h
    exact h
  refine ⟨8 - (24 + w.column_data.length + w.row_data.length +
    w.string_data.length) % 8, by omega, by omega, by omega, by omega, ?_⟩
  rw [Writer.end, if_neg (by simp [hrows])]
  simp only []
  have e1 : (w.column_data.length % 2 ^ 32 + 24) % 2 ^ 32 =
      24 + w.column_data.length := by omega
  rw [e1]
  have e2 : (24 + w.column_data.length + w.row_data.length % 2 ^ 32) % 2 ^ 32 =
      24 + w.column_data.length + w.row_data.length := by omega
  rw [e2]
  have e3 : (24 + w.column_data.length + w.row_data.length +
      w.string_data.length % 2 ^ 32) % 2 ^ 32 =
      24 + w.column_data.length + w.row_data.length + w.string_data.length := by omega
  rw [e3, hand]
  have e4 : (24 + w.column_data.length + w.row_data.length + w.string_data.length +
      (8 - (24 + w.column_data.length + w.row_data.length + w.string_data.length) % 8))
        % 2 ^ 32 =
      24 + w.column_data.length + w.row_data.length + w.string_data.length +
      (8 - (24 + w.column_data.length + w.row_data.length + w.string_data.length) % 8) := by
    omega
  rw [e4]
  have e5 : (24 + w.column_data.length + w.row_data.length + w.string_data.length +
      (8 - (24 + w.column_data.length + w.row_data.length + w.string_data.length) % 8) +
      w.blobs.length % 2 ^ 32) % 2 ^ 32 =
      24 + w.column_data.length + w.row_data.length + w.string_data.length +
      (8 - (24 + w.column_data.length + w.row_data.length + w.string_data.length) % 8) +
      w.blobs.length := by omega
  rw [e5]

theorem claim_C8_witness :
    ((Writer.new [65]).row_data.length = 0 * 0) ∧
    (24 + (Writer.new [65]).column_data.length + (Writer.new [65]).row_data.length +
      (Writer.new [65]).string_data.length + 8 + (Writer.new [65]).blobs.length < 2 ^ 32) ∧
    (∃ pad, 1 ≤ pad ∧ pad ≤ 8 ∧
      (24 + (Writer.new [65]).column_data.length + (Writer.new [65]).row_data.length +
        (Writer.new [65]).string_data.length + pad) % 8 = 0 ∧
      ((24 + (Writer.new [65]).column_data.length + (Writer.new [65]).row_data.length +
        (Writer.new [65]).string_data.length) % 8 = 0 → pad = 8) ∧
      Writer.end (Writer.new [65]) 0 0 = .ok (utfMagic ++
        beBytes 4 (24 + (Writer.new [65]).column_data.length +
          (Writer.new [65]).row_data.length +
          (Writer.new [65]).string_data.length + pad + (Writer.new [65]).blobs.length) ++
        beBytes 4 (24 + (Writer.new [65]).column_data.length) ++
        beBytes 4 (24 + (Writer.new [65]).column_data.length +
          (Writer.new [65]).row_data.length) ++
        beBytes 4 (24 + (Writer.new [65]).column_data.length +
          (Writer.new [65]).row_data.length +
          (Writer.new [65]).string_data.length + pad) ++
        beBytes 4 7 ++
        beBytes 2 (Writer.new [65]).field_count ++ beBytes 2 0 ++ beBytes 4 0 ++
        (Writer.new [65]).column_data ++ (Writer.new [65]).row_data ++
        (Writer.new [65]).string_data ++
        List.replicate pad 0 ++ (Writer.new [65]).blobs)) :=
  ⟨by decide, by decide,
    claim_C8_end_layout_amended (Writer.new [65]) 0 0 (by decide) (by decide)⟩

/-- C8 (counterexample to the claim as stated): for the writer freshly
created with an 8-byte table name, `string_offset + len(string_buffer)`
is `40`, already a multiple of 8, yet the emitted `blob_offset` field
(bytes 16..20 of the output) is `48 = 40 + 8`, not the claimed
round-up-to-next-multiple-of-8 value `40`; 8 padding zero bytes are
inserted although the pool is already aligned. -/
theorem claim_C8_counterexample :
    (24 + (Writer.new (List.replicate 8 65)).column_data.length +
      (Writer.new (List.replicate 8 65)).row_data.length +
      (Writer.new (List.replicate 8 65)).string_data.length) % 8 = 0 ∧
    (Writer.end (Writer.new (List.replicate 8 65)) 0 0).toOption.map
      (fun out => (out.drop 16).take 4) = some (beBytes 4 48) ∧
    48 ≠ 24 + (Writer.new (List.replicate 8 65)).column_data.length +
      (Writer.new (List.replicate 8 65)).row_data.length +
      (Writer.new (List.replicate 8 65)).string_data.length := by decide

theorem claim_C6_witness :
    ((0 : Nat) < 2 ^ 32) ∧ ((2 : Nat) < 2 ^ 32) ∧
    ((if false then (Reader.mk [0, 0, 0, 0, 0, 0, 0, 2] [] [] [5, 6] 0 0).rowRem
        else (Reader.mk [0, 0, 0, 0, 0, 0, 0, 2] [] [] [5, 6] 0 0).columnRem) =
      beBytes 4 0 ++ beBytes 4 2 ++ []) ∧
    ((parsePrim .BLOB (beBytes 4 0 ++ beBytes 4 2)
        (Reader.mk [0, 0, 0, 0, 0, 0, 0, 2] [] [] [5, 6] 0 0).strings
        (Reader.mk [0, 0, 0, 0, 0, 0, 0, 2] [] [] [5, 6] 0 0).blobs).isSome =
      decide (0 + 2 ≤ (Reader.mk [0, 0, 0, 0, 0, 0, 0, 2] [] [] [5, 6] 0 0).blobs.length) ∧
     (0 + 2 ≤ (Reader.mk [0, 0, 0, 0, 0, 0, 0, 2] [] [] [5, 6] 0 0).blobs.length →
       (Reader.mk [0, 0, 0, 0, 0, 0, 0, 2] [] [] [5, 6] 0 0).read_primitive false .BLOB =
         .ok (.blobv (((Reader.mk [0, 0, 0, 0, 0, 0, 0, 2] [] [] [5, 6] 0 0).blobs.drop 0).take 2),
           if false then { Reader.mk [0, 0, 0, 0, 0, 0, 0, 2] [] [] [5, 6] 0 0 with rowRem := [] }
           else { Reader.mk [0, 0, 0, 0, 0, 0, 0, 2] [] [] [5, 6] 0 0 with columnRem := [] })) ∧
     (0 + 2 > (Reader.mk [0, 0, 0, 0, 0, 0, 0, 2] [] [] [5, 6] 0 0).blobs.length →
       (Reader.mk [0, 0, 0, 0, 0, 0, 0, 2] [] [] [5, 6] 0 0).read_primitive false .BLOB =
         .error .DataNotFound)) :=
  ⟨by decide, by decide, by decide,
    claim_C6_blob_bounds (Reader.mk [0, 0, 0, 0, 0, 0, 0, 2] [] [] [5, 6] 0 0)
      false 0 2 (by decide) (by decide) [] (by decide)⟩

/-! ### Claim C2: the header checks of `Reader::new` -/

/-- The `table_size` field of a raw stream (bytes 4..8, big-endian). -/
def hdrTableSize (stream : List Nat) : Nat := beToNat ((stream.drop 4).take 4)

/-- The `row_offset` field of a raw stream (bytes 8..12). -/
def hdrRowOffset (stream : List Nat) : Nat := beToNat ((stream.drop 8).take 4)

/-- The `string_offset` field of a raw stream (bytes 12..16). -/
def hdrStringOffset (stream : List Nat) : Nat := beToNat ((stream.drop 12).take 4)

/-- The `blob_offset` field of a raw stream (bytes 16..20). -/
def hdrBlobOffset (stream : List Nat) : Nat := beToNat ((stream.drop 16).take 4)

/-- The `row_size` field of a raw stream (bytes 26..28). -/
def hdrRowSize (stream : List Nat) : Nat := beToNat ((stream.drop 26).take 2)

/-- The `row_count` field of a raw stream (bytes 28..32). -/
def hdrRowCount (stream : List Nat) : Nat := beToNat ((stream.drop 28).take 4)

theorem take_drop_take (l : List Nat) (m k n : Nat) (h : k + n ≤ m) :
    ((l.take m).drop k).take n = (l.drop k).take n := by
  rw [List.drop_take, List.take_take]
  congr 1
  omega

/-- The `table_name` string reference of a raw stream (bytes 20..24). -/
def hdrTableName (stream : List Nat) : Nat := beToNat ((stream.drop 20).take 4)

/-- The `field_count` field of a raw stream (bytes 24..26). -/
def hdrFieldCount (stream : List Nat) : Nat := beToNat ((stream.drop 24).take 2)

theorem secondarySlice (stream : List Nat) (k n : Nat) (h : k + n ≤ 24) :
    (((stream.drop 8).take 24).drop k).take n = (stream.drop (8 + k)).take n := by
  rw [take_drop_take _ 24 k n h, List.drop_drop]

/-- The part of `Reader::new` after the header validation, phrased over the
raw stream's header fields. -/
def readerNewCont (stream : List Nat) : Except Error Reader := do
  let (column_buffer, s3) ← readExact (stream.drop 32) (hdrRowOffset stream - 24)
    "UTF column data"
  let (row_buffer, s4) ← readExact s3 (hdrStringOffset stream - hdrRowOffset stream)
    "UTF row data"
  let (string_buffer, s5) ← readExact s4 (hdrBlobOffset stream - hdrStringOffset stream)
    "UTF string data"
  let strings ← scanGo string_buffer 0 [] []
  if (List.lookup (hdrTableName stream) strings).isNone then throw .MalformedHeader
  let (blobs, _) ← readExact s5 (hdrTableSize stream - hdrBlobOffset stream)
    "UTF blob data"
  pure { columnRem := column_buffer, rowRem := row_buffer, strings := strings,
         blobs := blobs, table_name_index := hdrTableName stream,
         field_count := hdrFieldCount stream }

/-- `Reader::new` on a stream long enough for both headers, with the right
magic and a table size of at least 24, is exactly the region-layout check
(with the `u32`-wrapping row-area product) followed by the region reads. -/
theorem readerNew_unfold (stream : List Nat) (h32 : 32 ≤ stream.length)
    (hmagic : stream.take 4 = utfMagic) (hts : 24 ≤ hdrTableSize stream) :
    Reader.new stream =
      if 24 > hdrRowOffset stream ∨ hdrRowOffset stream > hdrStringOffset stream ∨
         hdrStringOffset stream > hdrBlobOffset stream ∨
         hdrBlobOffset stream > hdrTableSize stream ∨
         (hdrRowSize stream * hdrRowCount stream) % 2 ^ 32 ≠
           hdrStringOffset stream - hdrRowOffset stream
      then .error .MalformedHeader
      else readerNewCont stream := by
  have e8 : readExact stream 8 "@UTF header" = .ok (stream.take 8, stream.drop 8) := by
    rw [readExact, if_pos (by omega)]
  have e24 : readExact (stream.drop 8) 24 "@UTF header" =
      .ok ((stream.drop 8).take 24, (stream.drop 8).drop 24) := by
    rw [readExact, if_pos (by rw [List.length_drop]; omega)]
  have emagic : (stream.take 8).take 4 = utfMagic := by
    rw [List.take_take]
    exact hmagic
  have ets : beToNat ((stream.take 8).drop 4) = hdrTableSize stream := by
    rw [List.drop_take]
    rfl
  have es0 : ((stream.drop 8).take 24).take 4 = (stream.drop 8).take 4 := by
    rw [List.take_take]
    norm_num
  have es4 : (((stream.drop 8).take 24).drop 4).take 4 = (stream.drop 12).take 4 :=
    secondarySlice stream 4 4 (by norm_num)
  have es8 : (((stream.drop 8).take 24).drop 8).take 4 = (stream.drop 16).take 4 :=
    secondarySlice stream 8 4 (by norm_num)
  have es12 : (((stream.drop 8).take 24).drop 12).take 4 = (stream.drop 20).take 4 :=
    secondarySlice stream 12 4 (by norm_num)
  have es16 : (((stream.drop 8).take 24).drop 16).take 2 = (stream.drop 24).take 2 :=
    secondarySlice stream 16 2 (by norm_num)
  have es18 : (((stream.drop 8).take 24).drop 18).take 2 = (stream.drop 26).take 2 :=
    secondarySlice stream 18 2 (by norm_num)
  have es20 : (((stream.drop 8).take 24).drop 20).take 4 = (stream.drop 28).take 4 :=
    secondarySlice stream 20 4 (by norm_num)
  have es24 : (stream.drop 8).drop 24 = stream.drop 32 := by
    rw [List.drop_drop]
  rw [Reader.new, e8]
  simp only [bind, Except.bind]
  rw [if_neg (by rw [emagic]; simp), ets]
  simp only [pure, Except.pure, bind, Except.bind]
  rw [if_neg (by omega), e24]
  simp only [bind, Except.bind]
  rw [es0, es4, es8, es12, es16, es18, es20, es24]
  rfl

instance {ε α : Type} [DecidableEq ε] [DecidableEq α] : DecidableEq (Except ε α) :=
  fun a b =>
    match a, b with
    | .ok x, .ok y =>
        if h : x = y then .isTrue (by rw [h])
        else .isFalse (fun hc => h (Except.ok.inj hc))
    | .ok _, .error _ => .isFalse (fun hc => Except.noConfusion hc)
    | .error _, .ok _ => .isFalse (fun hc => Except.noConfusion hc)
    | .error x, .error y =>
        if h : x = y then .isTrue (by rw [h])
        else .isFalse (fun hc => h (Except.error.inj hc))

theorem readerNew_err_short (stream : List Nat) (h : stream.length < 8) :
    Reader.new stream = .error (.EOF "@UTF header") := by
  have e8 : readExact stream 8 "@UTF header" = .error (.EOF "@UTF header") := by
    rw [readExact, if_neg (by omega)]
  rw [Reader.new, e8]
  rfl

theorem readerNew_err_magic (stream : List Nat) (h8 : 8 ≤ stream.length)
    (hm : stream.take 4 ≠ utfMagic) : Reader.new stream = .error .MalformedHeader := by
  have e8 : readExact stream 8 "@UTF header" = .ok (stream.take 8, stream.drop 8) := by
    rw [readExact, if_pos (by omega)]
  rw [Reader.new, e8]
  simp only [bind, Except.bind]
  rw [if_pos (by rw [List.take_take]; norm_num; exact hm)]

theorem readerNew_err_ts (stream : List Nat) (h8 : 8 ≤ stream.length)
    (hm : stream.take 4 = utfMagic) (hts : hdrTableSize stream < 24) :
    Reader.new stream = .error (.EOF "@UTF header") := by
  have e8 : readExact stream 8 "@UTF header" = .ok (stream.take 8, stream.drop 8) := by
    rw [readExact, if_pos (by omega)]
  have ets : beToNat ((stream.take 8).drop 4) = hdrTableSize stream := by
    rw [List.drop_take]
    rfl
  rw [Reader.new, e8]
  simp only [bind, Except.bind]
  rw [if_neg (by rw [List.take_take]; norm_num; exact hm), ets]
  simp only [pure, Except.pure, bind, Except.bind]
  rw [if_pos hts]

theorem readerNew_err_len32 (stream : List Nat) (h8 : 8 ≤ stream.length)
    (hm : stream.take 4 = utfMagic) (hts : 24 ≤ hdrTableSize stream)
    (h32 : stream.length < 32) :
    Reader.new stream = .error (.EOF "@UTF header") := by
  have e8 : readExact stream 8 "@UTF header" = .ok (stream.take 8, stream.drop 8) := by
    rw [readExact, if_pos (by omega)]
  have ets : beToNat ((stream.take 8).drop 4) = hdrTableSize stream := by
    rw [List.drop_take]
    rfl
  have e24 : readExact (stream.drop 8) 24 "@UTF header" = .error (.EOF "@UTF header") := by
    rw [readExact, if_neg (by rw [List.length_drop]; omega)]
  rw [Reader.new, e8]
  simp only [bind, Except.bind]
  rw [if_neg (by rw [List.take_take]; norm_num; exact hm), ets]
  simp only [pure, Except.pure, bind, Except.bind]
  rw [if_neg (by omega), e24]

/--
C2 (amended): `Reader::new` accepts the header only if
`24 ≤ row_offset ≤ string_offset ≤ blob_offset ≤ table_size` and
`row_size * row_count`, **computed in 32-bit (wrapping) arithmetic**, equals
`string_offset - row_offset`; conversely, whenever the stream carries both
headers with the right magic and `table_size ≥ 24` but violates one of the
inequalities or the wrapped row-area equation, `Reader::new` fails with the
`MalformedHeader` structural error.  (The claim's exact mathematical product
is refuted by `claim_C2_counterexample`: the `u32` multiplication
`row_size as u32 * row_count` overflows.)
-/
theorem claim_C2_header_checks_amended :
    (∀ stream r, Reader.new stream = .ok r →
      24 ≤ hdrRowOffset stream ∧ hdrRowOffset stream ≤ hdrStringOffset stream ∧
      hdrStringOffset stream ≤ hdrBlobOffset stream ∧
      hdrBlobOffset stream ≤ hdrTableSize stream ∧
      (hdrRowSize stream * hdrRowCount stream) % 2 ^ 32 =
        hdrStringOffset stream - hdrRowOffset stream) ∧
    (∀ stream, 32 ≤ stream.length → stream.take 4 = utfMagic →
      24 ≤ hdrTableSize stream →
      ¬ (24 ≤ hdrRowOffset stream ∧ hdrRowOffset stream ≤ hdrStringOffset stream ∧
         hdrStringOffset stream ≤ hdrBlobOffset stream ∧
         hdrBlobOffset stream ≤ hdrTableSize stream ∧
         (hdrRowSize stream * hdrRowCount stream) % 2 ^ 32 =
           hdrStringOffset stream - hdrRowOffset stream) →
      Reader.new stream = .error .MalformedHeader) := by
  constructor
  · intro stream r h
    by_cases h8 : 8 ≤ stream.length
    · by_cases hm : stream.take 4 = utfMagic
      · by_cases hts : 24 ≤ hdrTableSize stream
        · by_cases h32 : 32 ≤ stream.length
          · rw [readerNew_unfold stream h32 hm hts] at h
            by_cases hviol : 24 > hdrRowOffset stream ∨
                hdrRowOffset stream > hdrStringOffset stream ∨
                hdrStringOffset stream > hdrBlobOffset stream ∨
                hdrBlobOffset stream > hdrTableSize stream ∨
                (hdrRowSize stream * hdrRowCount stream) % 2 ^ 32 ≠
                  hdrStringOffset stream - hdrRowOffset stream
            · rw [if_pos hviol] at h
              exact absurd h (by simp)
            · push_neg at hviol
              omega
          · rw [readerNew_err_len32 stream h8 hm hts (by omega)] at h
            exact absurd h (by simp)
        · rw [readerNew_err_ts stream h8 hm (by omega)] at h
          exact absurd h (by simp)
      · rw [readerNew_err_magic stream h8 hm] at h
        exact absurd h (by simp)
    · rw [readerNew_err_short stream (by omega)] at h
      exact absurd h (by simp)
  · intro stream h32 hm hts hviol
    rw [readerNew_unfold stream h32 hm hts, if_pos (by omega)]

/-- A 34-byte stream accepted by `Reader::new` although (as exact integers)
`row_size * row_count = 2 * 2147483648 = 2^33 ≠ 0 = string_offset -
row_offset`: the `u32` product wraps to 0. -/
def c2stream : List Nat :=
  [0x40, 0x55, 0x54, 0x46, 0, 0, 0, 26,
   0, 0, 0, 24, 0, 0, 0, 24, 0, 0, 0, 26, 0, 0, 0, 0,
   0, 0, 0, 2, 128, 0, 0, 0, 65, 0]

/-- C2 (counterexample to the claim as stated): `Reader::new` accepts
`c2stream` even though `row_size × row_count ≠ string_offset − row_offset`
as exact integers — the equation only holds modulo `2^32`. -/
theorem claim_C2_counterexample :
    (Reader.new c2stream).isOk = true ∧
    hdrRowSize c2stream * hdrRowCount c2stream ≠
      hdrStringOffset c2stream - hdrRowOffset c2stream := by decide

theorem claim_C2_witness :
    (Reader.new c2stream = .ok (Reader.mk [] [] [(0, [65])] [] 0 0)) ∧
    (24 ≤ hdrRowOffset c2stream ∧ hdrRowOffset c2stream ≤ hdrStringOffset c2stream ∧
     hdrStringOffset c2stream ≤ hdrBlobOffset c2stream ∧
     hdrBlobOffset c2stream ≤ hdrTableSize c2stream ∧
     (hdrRowSize c2stream * hdrRowCount c2stream) % 2 ^ 32 =
       hdrStringOffset c2stream - hdrRowOffset c2stream) :=
  ⟨by decide, claim_C2_header_checks_amended.1 c2stream
    (Reader.mk [] [] [(0, [65])] [] 0 0) (by decide)⟩

/-! ### Claim C9: the column read checks -/

theorem beToNat_single (f : Nat) : beToNat [f] = f := by
  simp [beToNat]

theorem read_flag_spec (r : Reader) (f : Nat) (tail : List Nat)
    (hcur : r.columnRem = f :: tail) :
    r.read_primitive false .U8 = .ok (.num f, { r with columnRem := tail }) := by
  have h := read_primitive_spec r false .U8 [f] tail (by simp [ValueKind.width])
    (by simpa using hcur)
  rw [h]
  simp [parsePrim, beToNat_single]

theorem read_name_spec (r : Reader) (offBytes rest cname : List Nat)
    (hoff : offBytes.length = 4)
    (hcur : r.columnRem = offBytes ++ rest)
    (hlook : List.lookup (beToNat offBytes) r.strings = some cname) :
    r.read_primitive false .STR = .ok (.strv cname, { r with columnRem := rest }) := by
  have h := read_primitive_spec r false .STR offBytes rest
    (by rw [hoff]; rfl) (by simpa using hcur)
  rw [h]
  simp [parsePrim, hlook]

/--
C9: the sequence and classification of the column checks.  On a column
cursor holding flag byte `f` and a name reference resolving to `cname`,
`read_constant_column_private` (backing `read_constant_column` and its
`_opt` variant) and `read_rowed_column_private` (backing
`read_rowed_column`/`_opt`) check in order: name equality
(`WrongColumnName`), the flag's low nibble against the expected kind's tag
(`WrongColumnType` when the nibble is itself one of the eleven valid value
tags, `InvalidColumnType` otherwise), and the high nibble against Constant
`0x3` (resp. Rowed `0x5`) — the `_opt` variants (`optional = true`) also
accepting Zero `0x1` as the absent case — with `WrongColumnStorage` when the
nibble is one of the three valid storage tags and `InvalidColumnStorage`
otherwise; on success the constant variant additionally decodes one value of
the expected kind from the column cursor.  The final two conjuncts pin down
the valid-tag predicates. -/
theorem claim_C9_column_checks (r : Reader) (k : ValueKind)
    (name cname : List Nat) (f : Nat) (offBytes rest : List Nat)
    (hoff : offBytes.length = 4)
    (hcur : r.columnRem = f :: (offBytes ++ rest))
    (hlook : List.lookup (beToNat offBytes) r.strings = some cname) :
    (∀ optional,
      r.read_constant_column_private k name optional =
        if cname ≠ name then .error (.WrongColumnName cname name)
        else if f &&& 0x0f ≠ k.tag then
          if is_valid_value_flag (f &&& 0x0f) then
            .error (.WrongColumnType (f &&& 0x0f) k.tag)
          else .error (.InvalidColumnType (f &&& 0x0f))
        else if f &&& 0xf0 == 0x30 then
          match Reader.read_value { r with columnRem := rest } false k with
          | .ok p => .ok (some p.1, p.2)
          | .error e => .error e
        else if optional && (f &&& 0xf0 == 0x10) then
          .ok (none, { r with columnRem := rest })
        else if is_valid_storage_flag (f &&& 0xf0) then
          .error (.WrongColumnStorage (f &&& 0xf0) "0x30")
        else .error (.InvalidColumnStorage (f &&& 0xf0))) ∧
    (∀ optional,
      r.read_rowed_column_private name k optional =
        if cname ≠ name then .error (.WrongColumnName cname name)
        else if f &&& 0x0f ≠ k.tag then
          if is_valid_value_flag (f &&& 0x0f) then
            .error (.WrongColumnType (f &&& 0x0f) k.tag)
          else .error (.InvalidColumnType (f &&& 0x0f))
        else if f &&& 0xf0 == 0x50 then .ok (true, { r with columnRem := rest })
        else if optional && (f &&& 0xf0 == 0x10) then
          .ok (false, { r with columnRem := rest })
        else if is_valid_storage_flag (f &&& 0xf0) then
          .error (.WrongColumnStorage (f &&& 0xf0) "0x50")
        else .error (.InvalidColumnStorage (f &&& 0xf0))) ∧
    (∀ half, is_valid_value_flag half = true ↔
      half ∈ [0, 1, 2, 3, 4, 5, 6, 7, 8, 0xa, 0xb]) ∧
    (∀ half, is_valid_storage_flag half = true ↔ half ∈ [0x10, 0x30, 0x50]) := by
  have hflag := read_flag_spec r f (offBytes ++ rest) hcur
  have hname := read_name_spec { r with columnRem := offBytes ++ rest } offBytes rest
    cname hoff rfl hlook
  refine ⟨?_, ?_, ?_, ?_⟩
  · intro optional
    rw [Reader.read_constant_column_private, hflag]
    simp only [bind, Except.bind]
    rw [hname]
    simp only [UTFValue.asStr, UTFValue.asNum, pure, Except.pure]
    by_cases h1 : cname ≠ name
    · simp only [if_pos h1]
    · simp only [if_neg h1]
      by_cases h2 : f &&& 0x0f ≠ k.tag
      · simp only [if_pos h2]
      · simp only [if_neg h2]
        by_cases h4 : (f &&& 0xf0 == 0x30) = true
        · simp only [if_pos h4]
          cases Reader.read_value { r with columnRem := rest } false k with
          | ok p => rfl
          | error e => rfl
        · simp only [if_neg h4]
          by_cases h5 : (optional && (f &&& 0xf0 == 0x10)) = true
          · simp only [if_pos h5]
          · simp only [if_neg h5]
            by_cases h6 : is_valid_storage_flag (f &&& 0xf0) = true
            · simp only [if_pos h6]
              rfl
            · simp only [if_neg h6]
              rfl
  · intro optional
    rw [Reader.read_rowed_column_private, hflag]
    simp only [bind, Except.bind]
    rw [hname]
    simp only [UTFValue.asStr, UTFValue.asNum, pure, Except.pure]
    by_cases h1 : cname ≠ name
    · simp only [if_pos h1]
    · simp only [if_neg h1]
      by_cases h2 : f &&& 0x0f ≠ k.tag
      · simp only [if_pos h2]
      · simp only [if_neg h2]
        by_cases h4 : (f &&& 0xf0 == 0x50) = true
        · simp only [if_pos h4]
        · simp only [if_neg h4]
          by_cases h5 : (optional && (f &&& 0xf0 == 0x10)) = true
          · simp only [if_pos h5]
          · simp only [if_neg h5]
            by_cases h6 : is_valid_storage_flag (f &&& 0xf0) = true
            · simp only [if_pos h6]
              rfl
            · simp only [if_neg h6]
              rfl
  · intro half
    simp only [is_valid_value_flag, Bool.or_eq_true, decide_eq_true_eq, beq_iff_eq,
      List.mem_cons, List.not_mem_nil, or_false]
    omega
  · intro half
    simp only [is_valid_storage_flag, Bool.or_eq_true, beq_iff_eq,
      List.mem_cons, List.not_mem_nil, or_false]
    omega

theorem claim_C9_witness :
    (([0, 0, 0, 7] : List Nat).length = 4) ∧
    ((Reader.mk [52, 0, 0, 0, 7] [] [(7, [73, 100])] [] 0 0).columnRem =
      52 :: ([0, 0, 0, 7] ++ [])) ∧
    (List.lookup (beToNat [0, 0, 0, 7])
        (Reader.mk [52, 0, 0, 0, 7] [] [(7, [73, 100])] [] 0 0).strings =
      some [73, 100]) ∧
    ((∀ optional,
      (Reader.mk [52, 0, 0, 0, 7] [] [(7, [73, 100])] [] 0 0).read_constant_column_private
          .U32 [73, 100] optional =
        if [73, 100] ≠ [73, 100] then .error (.WrongColumnName [73, 100] [73, 100])
        else if 52 &&& 0x0f ≠ ValueKind.tag .U32 then
          if is_valid_value_flag (52 &&& 0x0f) then
            .error (.WrongColumnType (52 &&& 0x0f) (ValueKind.tag .U32))
          else .error (.InvalidColumnType (52 &&& 0x0f))
        else if 52 &&& 0xf0 == 0x30 then
          match Reader.read_value
              { Reader.mk [52, 0, 0, 0, 7] [] [(7, [73, 100])] [] 0 0 with
                columnRem := [] } false .U32 with
          | .ok p => .ok (some p.1, p.2)
          | .error e => .error e
        else if optional && (52 &&& 0xf0 == 0x10) then
          .ok (none, { Reader.mk [52, 0, 0, 0, 7] [] [(7, [73, 100])] [] 0 0 with
            columnRem := [] })
        else if is_valid_storage_flag (52 &&& 0xf0) then
          .error (.WrongColumnStorage (52 &&& 0xf0) "0x30")
        else .error (.InvalidColumnStorage (52 &&& 0xf0))) ∧
    (∀ optional,
      (Reader.mk [52, 0, 0, 0, 7] [] [(7, [73, 100])] [] 0 0).read_rowed_column_private
          [73, 100] .U32 optional =
        if [73, 100] ≠ [73, 100] then .error (.WrongColumnName [73, 100] [73, 100])
        else if 52 &&& 0x0f ≠ ValueKind.tag .U32 then
          if is_valid_value_flag (52 &&& 0x0f) then
            .error (.WrongColumnType (52 &&& 0x0f) (ValueKind.tag .U32))
          else .error (.InvalidColumnType (52 &&& 0x0f))
        else if 52 &&& 0xf0 == 0x50 then
          .ok (true, { Reader.mk [52, 0, 0, 0, 7] [] [(7, [73, 100])] [] 0 0 with
            columnRem := [] })
        else if optional && (52 &&& 0xf0 == 0x10) then
          .ok (false, { Reader.mk [52, 0, 0, 0, 7] [] [(7, [73, 100])] [] 0 0 with
            columnRem := [] })
        else if is_valid_storage_flag (52 &&& 0xf0) then
          .error (.WrongColumnStorage (52 &&& 0xf0) "0x50")
        else .error (.InvalidColumnStorage (52 &&& 0xf0))) ∧
    (∀ half, is_valid_value_flag half = true ↔
      half ∈ [0, 1, 2, 3, 4, 5, 6, 7, 8, 0xa, 0xb]) ∧
    (∀ half, is_valid_storage_flag half = true ↔ half ∈ [0x10, 0x30, 0x50])) :=
  ⟨by decide, by decide, by decide,
    claim_C9_column_checks (Reader.mk [52, 0, 0, 0, 7] [] [(7, [73, 100])] [] 0 0)
      .U32 [73, 100] [73, 100] 52 [0, 0, 0, 7] [] (by decide) (by decide) (by decide)⟩

/-! ### Claim C5: the packet envelope -/

theorem read_packet_unfold (stream pfx : List Nat) (h16 : 16 ≤ stream.length) :
    read_packet stream pfx =
      if pfx ≠ stream.take 4 then .error .WrongTableSchema
      else if leToNat ((stream.drop 8).take 8) < 32 then .error .MalformedHeader
      else
        match readExact (stream.drop 16) (leToNat ((stream.drop 8).take 8))
            "UTF table" with
        | .error e => .error e
        | .ok (table_data, _) =>
          if table_data.take 4 = utfMagic then
            .ok ⟨false, leToNat ((stream.drop 4).take 4), table_data⟩
          else if ¬ can_decrypt table_data then .error .DecryptionError
          else if (cri_decrypt table_data).take 4 = utfMagic then
            .ok ⟨true, leToNat ((stream.drop 4).take 4), cri_decrypt table_data⟩
          else .error .DecryptionError := by
  have e16 : readExact stream 16 "UTF packet header" =
      .ok (stream.take 16, stream.drop 16) := by
    rw [readExact, if_pos (by omega)]
  have b1 : (stream.take 16).take 4 = stream.take 4 := by
    rw [List.take_take]
    norm_num
  have b2 : ((stream.take 16).drop 4).take 4 = (stream.drop 4).take 4 :=
    take_drop_take stream 16 4 4 (by norm_num)
  have b3 : (stream.take 16).drop 8 = (stream.drop 8).take 8 := by
    rw [List.drop_take]
  rw [read_packet, e16]
  simp only [bind, Except.bind]
  rw [b1, b2, b3]
  by_cases h1 : pfx ≠ stream.take 4
  · rw [if_pos h1, if_pos h1]
  · rw [if_neg h1, if_neg h1]
    simp only [pure, Except.pure]
    by_cases h2 : leToNat ((stream.drop 8).take 8) < 32
    · rw [if_pos h2, if_pos h2]
    · rw [if_neg h2, if_neg h2]
      cases hio : readExact (stream.drop 16) (leToNat ((stream.drop 8).take 8))
          "UTF table" with
      | error e => rfl
      | ok p =>
          obtain ⟨td, rst⟩ := p
          rfl

/--
C5: `Packet::read_packet` fails with `WrongTableSchema` when the stream's
first 4 bytes differ from the caller-supplied tag; fails with
`MalformedHeader` when the little-endian payload-length field is below 32;
treats a payload whose first 4 bytes are `@UTF` as plaintext
(`encrypted = false`, with the `unknown_value` field preserved); otherwise
requires the little-endian guard `0xF5F39E1F` at payload offset 0
(`can_decrypt`), failing with `DecryptionError` when absent; and when the
guard is present XORs the whole payload with the 64-byte repeating mask
(`cri_decrypt`, the positional XOR by `claim_C3`) and succeeds with
`encrypted = true` exactly when the result begins with `@UTF`, failing with
`DecryptionError` otherwise. -/
theorem claim_C5_read_packet (stream pfx : List Nat) (h16 : 16 ≤ stream.length) :
    (pfx ≠ stream.take 4 → read_packet stream pfx = .error .WrongTableSchema) ∧
    (pfx = stream.take 4 → leToNat ((stream.drop 8).take 8) < 32 →
      read_packet stream pfx = .error .MalformedHeader) ∧
    (pfx = stream.take 4 → 32 ≤ leToNat ((stream.drop 8).take 8) →
      16 + leToNat ((stream.drop 8).take 8) ≤ stream.length →
      (((((stream.drop 16).take (leToNat ((stream.drop 8).take 8))).take 4 = utfMagic) →
          read_packet stream pfx = .ok ⟨false, leToNat ((stream.drop 4).take 4),
            (stream.drop 16).take (leToNat ((stream.drop 8).take 8))⟩) ∧
       ((((stream.drop 16).take (leToNat ((stream.drop 8).take 8))).take 4 ≠ utfMagic) →
          ¬ can_decrypt ((stream.drop 16).take (leToNat ((stream.drop 8).take 8))) →
          read_packet stream pfx = .error .DecryptionError) ∧
       ((((stream.drop 16).take (leToNat ((stream.drop 8).take 8))).take 4 ≠ utfMagic) →
          can_decrypt ((stream.drop 16).take (leToNat ((stream.drop 8).take 8))) →
          (cri_decrypt ((stream.drop 16).take (leToNat ((stream.drop 8).take 8)))).take 4
            = utfMagic →
          read_packet stream pfx = .ok ⟨true, leToNat ((stream.drop 4).take 4),
            cri_decrypt ((stream.drop 16).take (leToNat ((stream.drop 8).take 8)))⟩) ∧
       ((((stream.drop 16).take (leToNat ((stream.drop 8).take 8))).take 4 ≠ utfMagic) →
          can_decrypt ((stream.drop 16).take (leToNat ((stream.drop 8).take 8))) →
          (cri_decrypt ((stream.drop 16).take (leToNat ((stream.drop 8).take 8)))).take 4
            ≠ utfMagic →
          read_packet stream pfx = .error .DecryptionError))) ∧
    (∀ buf : List Nat, can_decrypt buf = true ↔ leToNat (buf.take 4) = 0xF5F39E1F) ∧
    (∀ buf : List Nat, (∀ b ∈ buf, b < 256) →
      cri_decrypt buf = specPositionalXor buf) := by
  rw [read_packet_unfold stream pfx h16]
  refine ⟨?_, ?_, ?_, ?_, ?_⟩
  · intro htag
    rw [if_pos htag]
  · intro htag hlen
    rw [if_neg (by simpa using htag), if_pos hlen]
  · intro htag hlen hfit
    have epay : readExact (stream.drop 16) (leToNat ((stream.drop 8).take 8))
        "UTF table" = .ok ((stream.drop 16).take (leToNat ((stream.drop 8).take 8)),
          (stream.drop 16).drop (leToNat ((stream.drop 8).take 8))) := by
      rw [readExact, if_pos (by rw [List.length_drop]; omega)]
    rw [if_neg (by simpa using htag), if_neg (by omega), epay]
    simp only []
    refine ⟨?_, ?_, ?_, ?_⟩
    · intro hmagic
      rw [if_pos hmagic]
    · intro hmagic hguard
      rw [if_neg hmagic, if_pos hguard]
    · intro hmagic hguard hdec
      rw [if_neg hmagic, if_neg (not_not_intro hguard), if_pos hdec]
    · intro hmagic hguard hdec
      rw [if_neg hmagic, if_neg (not_not_intro hguard), if_neg hdec]
  · intro buf
    rw [can_decrypt, beq_iff_eq]
  · intro buf hb
    exact cri_decrypt_eq_spec buf hb

/-- A 48-byte packet stream with tag `TAB `, unknown value 7, payload length
32 and a plaintext `@UTF` payload. -/
def c5stream : List Nat :=
  [84, 65, 66, 32, 7, 0, 0, 0, 32, 0, 0, 0, 0, 0, 0, 0] ++
    utfMagic ++ List.replicate 28 0

theorem claim_C5_witness :
    16 ≤ c5stream.length ∧
    ((([84, 65, 66, 32] : List Nat) ≠ c5stream.take 4 →
      read_packet c5stream [84, 65, 66, 32] = .error .WrongTableSchema) ∧
    (([84, 65, 66, 32] : List Nat) = c5stream.take 4 →
      leToNat ((c5stream.drop 8).take 8) < 32 →
      read_packet c5stream [84, 65, 66, 32] = .error .MalformedHeader) ∧
    (([84, 65, 66, 32] : List Nat) = c5stream.take 4 →
      32 ≤ leToNat ((c5stream.drop 8).take 8) →
      16 + leToNat ((c5stream.drop 8).take 8) ≤ c5stream.length →
      (((((c5stream.drop 16).take (leToNat ((c5stream.drop 8).take 8))).take 4 = utfMagic) →
          read_packet c5stream [84, 65, 66, 32] =
            .ok ⟨false, leToNat ((c5stream.drop 4).take 4),
              (c5stream.drop 16).take (leToNat ((c5stream.drop 8).take 8))⟩) ∧
       ((((c5stream.drop 16).take (leToNat ((c5stream.drop 8).take 8))).take 4 ≠ utfMagic) →
          ¬ can_decrypt ((c5stream.drop 16).take (leToNat ((c5stream.drop 8).take 8))) →
          read_packet c5stream [84, 65, 66, 32] = .error .DecryptionError) ∧
       ((((c5stream.drop 16).take (leToNat ((c5stream.drop 8).take 8))).take 4 ≠ utfMagic) →
          can_decrypt ((c5stream.drop 16).take (leToNat ((c5stream.drop 8).take 8))) →
          (cri_decrypt ((c5stream.drop 16).take (leToNat ((c5stream.drop 8).take 8)))).take 4
            = utfMagic →
          read_packet c5stream [84, 65, 66, 32] =
            .ok ⟨true, leToNat ((c5stream.drop 4).take 4),
              cri_decrypt ((c5stream.drop 16).take (leToNat ((c5stream.drop 8).take 8)))⟩) ∧
       ((((c5stream.drop 16).take (leToNat ((c5stream.drop 8).take 8))).take 4 ≠ utfMagic) →
          can_decrypt ((c5stream.drop 16).take (leToNat ((c5stream.drop 8).take 8))) →
          (cri_decrypt ((c5stream.drop 16).take (leToNat ((c5stream.drop 8).take 8)))).take 4
            ≠ utfMagic →
          read_packet c5stream [84, 65, 66, 32] = .error .DecryptionError))) ∧
    (∀ buf : List Nat, can_decrypt buf = true ↔ leToNat (buf.take 4) = 0xF5F39E1F) ∧
    (∀ buf : List Nat, (∀ b ∈ buf, b < 256) →
      cri_decrypt buf = specPositionalXor buf)) :=
  ⟨by decide, claim_C5_read_packet c5stream [84, 65, 66, 32] (by decide)⟩

/-! ### Claim C1: the write/read round trip

A table is described by its name, an ordered list of column specifications
(saying which `push_*` call the writer makes, mirroring what the `utf_table`
macro generates), and its rows.  Reading back makes the matching
`read_*` calls in the same order. -/

/-- One column as pushed by the writer: which API call is used, the column
name, the value kind, and the payload of the call. -/
inductive ColSpec where
  | constant (name : List Nat) (k : ValueKind) (v : UTFValue)
  | constantOpt (name : List Nat) (k : ValueKind) (v : Option UTFValue)
  | rowed (name : List Nat) (k : ValueKind)
  | rowedOpt (name : List Nat) (k : ValueKind) (included : Bool)
deriving Repr, DecidableEq

/-- The writer call made for one column. -/
def ColSpec.push (w : Writer) : ColSpec → Writer
  | .constant name k v => w.push_constant_column k name v
  | .constantOpt name k v => w.push_constant_column_opt k name v
  | .rowed name k => w.push_rowed_column k name
  | .rowedOpt name k inc => w.push_rowed_column_opt k name inc

/-- The kinds of the columns that carry per-row data. -/
def activeKinds (cols : List ColSpec) : List ValueKind :=
  cols.filterMap fun c => match c with
    | .rowed _ k => some k
    | .rowedOpt _ k inc => if inc then some k else none
    | _ => none

/-- The row size: the summed on-disk widths of the row-carrying columns. -/
def rowSize (cols : List ColSpec) : Nat :=
  ((activeKinds cols).map ValueKind.width).sum

/-- Write one row: one `write_value(true, _)` per active column. -/
def writeRow (w : Writer) (ks : List ValueKind) (vs : List UTFValue) : Writer :=
  (List.zip ks vs).foldl (fun w p => w.write_value true p.1 p.2) w

/-- The full write sequence: `Writer::new`, the column pushes, then the row
values (the finalizing `end` is applied separately). -/
def writeTable (name : List Nat) (cols : List ColSpec)
    (rows : List (List UTFValue)) : Writer :=
  rows.foldl (fun w row => writeRow w (activeKinds cols) row)
    (cols.foldl ColSpec.push (Writer.new name))

/-- What the matching read call reports for one column. -/
inductive ColOut where
  | const (v : UTFValue)
  | constOpt (v : Option UTFValue)
  | rowedOk
  | rowedOpt (included : Bool)
deriving Repr, DecidableEq

/-- The reader call matching one column specification. -/
def ColSpec.read (r : Reader) : ColSpec → Except Error (ColOut × Reader)
  | .constant name k _ => do
      let (v, r1) ← r.read_constant_column k name
      pure (.const v, r1)
  | .constantOpt name k _ => do
      let (v, r1) ← r.read_constant_column_opt k name
      pure (.constOpt v, r1)
  | .rowed name k => do
      let r1 ← r.read_rowed_column k name
      pure (.rowedOk, r1)
  | .rowedOpt name k _ => do
      let (b, r1) ← r.read_rowed_column_opt k name
      pure (.rowedOpt b, r1)

/-- The matching column reads, in declaration order. -/
def readCols (r : Reader) : List ColSpec → Except Error (List ColOut × Reader)
  | [] => pure ([], r)
  | c :: cs => do
      let (o, r1) ← c.read r
      let (os, r2) ← readCols r1 cs
      pure (o :: os, r2)

/-- One row of `read_value(true, _)` calls in declaration order. -/
def readRowValues (r : Reader) : List ValueKind → Except Error (List UTFValue × Reader)
  | [] => pure ([], r)
  | k :: ks => do
      let (v, r1) ← r.read_value true k
      let (vs, r2) ← readRowValues r1 ks
      pure (v :: vs, r2)

/-- `row_count` rows of reads. -/
def readRows (r : Reader) (ks : List ValueKind) :
    Nat → Except Error (List (List UTFValue) × Reader)
  | 0 => pure ([], r)
  | n + 1 => do
      let (row, r1) ← readRowValues r ks
      let (rows, r2) ← readRows r1 ks n
      pure (row :: rows, r2)

/-- The value the matching read is expected to report. -/
def expectedOut : ColSpec → ColOut
  | .constant _ _ v => .const v
  | .constantOpt _ _ v => .constOpt v
  | .rowed _ _ => .rowedOk
  | .rowedOpt _ _ inc => .rowedOpt inc

/-- A well-formed string for the pool: NUL-free bytes, valid UTF-8 (any
Rust `&str` without interior NULs satisfies this). -/
def strOk (s : List Nat) : Bool :=
  s.all (fun b => decide (0 < b) && decide (b < 256)) && utf8Valid s

/-- Value/kind compatibility with in-range payloads (automatic for values
coming from the Rust API: the types enforce the kind and the ranges). -/
def valueOk : ValueKind → UTFValue → Bool
  | .STR, .strv s => strOk s
  | .BLOB, .blobv b => b.all (fun x => decide (x < 256))
  | .STR, _ => false
  | .BLOB, _ => false
  | k, .num n => decide (n < 256 ^ k.width)
  | _, _ => false

/-- Well-formedness of one column specification. -/
def colOk : ColSpec → Bool
  | .constant name k v => strOk name && valueOk k v
  | .constantOpt name k (some v) => strOk name && valueOk k v
  | .constantOpt name _ none => strOk name
  | .rowed name _ => strOk name
  | .rowedOpt name _ _ => strOk name

/-- Well-formedness of one row against the active kinds. -/
def rowOk (ks : List ValueKind) (vs : List UTFValue) : Bool :=
  (vs.length == ks.length) && (List.zip ks vs).all fun p => valueOk p.1 p.2

/-- The total emitted table size (primary header excluded, maximal padding
assumed); bounding it by `2^32` rules out all `u32` truncation. -/
def tableSizeBound (w : Writer) : Nat :=
  24 + w.column_data.length + w.row_data.length + w.string_data.length + 8 +
    w.blobs.length

/-- A valid table: well-formed name, columns and rows, with the counts and
sizes inside their `u16`/`u32` ranges. -/
def ValidTable (name : List Nat) (cols : List ColSpec)
    (rows : List (List UTFValue)) : Prop :=
  strOk name = true ∧ (∀ c ∈ cols, colOk c = true) ∧
  (∀ row ∈ rows, rowOk (activeKinds cols) row = true) ∧
  cols.length < 2 ^ 16 ∧ rows.length < 2 ^ 32 ∧ rowSize cols < 2 ^ 16 ∧
  tableSizeBound (writeTable name cols rows) < 2 ^ 32

instance (name : List Nat) (cols : List ColSpec) (rows : List (List UTFValue)) :
    Decidable (ValidTable name cols rows) := by
  rw [ValidTable]
  infer_instance

theorem flag_split (k : ValueKind) (st : Nat)
    (hst : st = 0x10 ∨ st = 0x30 ∨ st = 0x50) :
    (st ||| k.tag) &&& 0x0f = k.tag ∧ (st ||| k.tag) &&& 0xf0 = st ∧
      st ||| k.tag < 256 := by
  rcases hst with rfl | rfl | rfl <;> cases k <;> decide

theorem read_value_spec (rr : Reader) (row : Bool) (k : ValueKind)
    (pre rest : List Nat) (v : UTFValue) (hlen : pre.length = k.width)
    (hcur : (if row then rr.rowRem else rr.columnRem) = pre ++ rest)
    (hparse : parsePrim k pre rr.strings rr.blobs = some v) :
    rr.read_value row k = .ok (v,
      if row then { rr with rowRem := rest } else { rr with columnRem := rest }) := by
  rw [Reader.read_value, read_primitive_spec rr row k pre rest hlen hcur, hparse]

theorem rcc_present_spec (rr : Reader) (k : ValueKind)
    (name offB valB rest : List Nat) (v : UTFValue) (optional : Bool)
    (hoffb : offB.length = 4) (hvb : valB.length = k.width)
    (hcur : rr.columnRem = (0x30 ||| k.tag) :: (offB ++ (valB ++ rest)))
    (hlook : List.lookup (beToNat offB) rr.strings = some name)
    (hparse : parsePrim k valB rr.strings rr.blobs = some v) :
    rr.read_constant_column_private k name optional =
      .ok (some v, { rr with columnRem := rest }) := by
  have hsplit := flag_split k 0x30 (by norm_num)
  have hflag := read_flag_spec rr (0x30 ||| k.tag) (offB ++ (valB ++ rest)) hcur
  have hname := read_name_spec { rr with columnRem := offB ++ (valB ++ rest) }
    offB (valB ++ rest) name hoffb rfl (by exact hlook)
  have hval : Reader.read_value { rr with columnRem := valB ++ rest } false k =
      .ok (v, { rr with columnRem := rest }) :=
    read_value_spec _ false k valB rest v hvb (by simp) (by exact hparse)
  rw [Reader.read_constant_column_private, hflag]
  simp only [bind, Except.bind]
  rw [hname]
  simp only [UTFValue.asStr, UTFValue.asNum, pure, Except.pure]
  rw [if_neg (by simp), hsplit.1, if_neg (by simp), hsplit.2.1]
  rw [if_pos (by rfl), hval]

theorem rcc_absent_spec (rr : Reader) (k : ValueKind)
    (name offB rest : List Nat)
    (hoffb : offB.length = 4)
    (hcur : rr.columnRem = (0x10 ||| k.tag) :: (offB ++ rest))
    (hlook : List.lookup (beToNat offB) rr.strings = some name) :
    rr.read_constant_column_private k name true =
      .ok (none, { rr with columnRem := rest }) := by
  have hsplit := flag_split k 0x10 (by norm_num)
  have hflag := read_flag_spec rr (0x10 ||| k.tag) (offB ++ rest) hcur
  have hname := read_name_spec { rr with columnRem := offB ++ rest }
    offB rest name hoffb rfl (by exact hlook)
  rw [Reader.read_constant_column_private, hflag]
  simp only [bind, Except.bind]
  rw [hname]
  simp only [UTFValue.asStr, UTFValue.asNum, pure, Except.pure]
  rw [if_neg (by simp), hsplit.1, if_neg (by simp), hsplit.2.1]
  rw [if_neg (by decide), if_pos (by decide)]

theorem rrc_included_spec (rr : Reader) (k : ValueKind)
    (name offB rest : List Nat) (optional : Bool)
    (hoffb : offB.length = 4)
    (hcur : rr.columnRem = (0x50 ||| k.tag) :: (offB ++ rest))
    (hlook : List.lookup (beToNat offB) rr.strings = some name) :
    rr.read_rowed_column_private name k optional =
      .ok (true, { rr with columnRem := rest }) := by
  have hsplit := flag_split k 0x50 (by norm_num)
  have hflag := read_flag_spec rr (0x50 ||| k.tag) (offB ++ rest) hcur
  have hname := read_name_spec { rr with columnRem := offB ++ rest }
    offB rest name hoffb rfl (by exact hlook)
  rw [Reader.read_rowed_column_private, hflag]
  simp only [bind, Except.bind]
  rw [hname]
  simp only [UTFValue.asStr, UTFValue.asNum, pure, Except.pure]
  rw [if_neg (by simp), hsplit.1, if_neg (by simp), hsplit.2.1]
  rw [if_pos (by rfl)]

theorem rrc_excluded_spec (rr : Reader) (k : ValueKind)
    (name offB rest : List Nat)
    (hoffb : offB.length = 4)
    (hcur : rr.columnRem = (0x10 ||| k.tag) :: (offB ++ rest))
    (hlook : List.lookup (beToNat offB) rr.strings = some name) :
    rr.read_rowed_column_private name k true =
      .ok (false, { rr with columnRem := rest }) := by
  have hsplit := flag_split k 0x10 (by norm_num)
  have hflag := read_flag_spec rr (0x10 ||| k.tag) (offB ++ rest) hcur
  have hname := read_name_spec { rr with columnRem := offB ++ rest }
    offB rest name hoffb rfl (by exact hlook)
  rw [Reader.read_rowed_column_private, hflag]
  simp only [bind, Except.bind]
  rw [hname]
  simp only [UTFValue.asStr, UTFValue.asNum, pure, Except.pure]
  rw [if_neg (by simp), hsplit.1, if_neg (by simp), hsplit.2.1]
  rw [if_neg (by decide), if_pos (by decide)]

/-- The string pool as a list of NUL-terminated segments. -/
def segsConcat (segs : List (List Nat)) : List Nat :=
  segs.flatMap fun s => s ++ [0]

/-- The pool offset at which segment `i` starts. -/
def segStart (segs : List (List Nat)) (i : Nat) : Nat :=
  (((segs.take i).map fun s => s.length + 1)).sum

theorem segsConcat_nil : segsConcat [] = [] := rfl

theorem segsConcat_cons (s : List Nat) (segs : List (List Nat)) :
    segsConcat (s :: segs) = s ++ [0] ++ segsConcat segs := by
  simp [segsConcat, List.flatMap_cons, List.append_assoc]

theorem segsConcat_append (a b : List (List Nat)) :
    segsConcat (a ++ b) = segsConcat a ++ segsConcat b := by
  simp [segsConcat]

theorem segStart_zero (segs : List (List Nat)) : segStart segs 0 = 0 := rfl

theorem segStart_cons_succ (s : List Nat) (segs : List (List Nat)) (i : Nat) :
    segStart (s :: segs) (i + 1) = s.length + 1 + segStart segs i := by
  simp [segStart, List.take_succ_cons]

theorem segStart_append_len (segs : List (List Nat)) (s : List Nat) :
    segStart (segs ++ [s]) segs.length = (segsConcat segs).length := by
  induction segs with
  | nil => simp [segStart, segsConcat]
  | cons t segs ih =>
      rw [List.cons_append, List.length_cons, segStart_cons_succ, ih,
        segsConcat_cons]
      simp
      omega

theorem segStart_lt_concat (segs : List (List Nat)) (i : Nat)
    (hi : i < segs.length) : segStart segs i < (segsConcat segs).length := by
  induction segs generalizing i with
  | nil => simp at hi
  | cons s segs ih =>
      cases i with
      | zero =>
          rw [segStart_zero, segsConcat_cons]
          simp
      | succ j =>
          rw [segStart_cons_succ, segsConcat_cons]
          have := ih j (by simpa using hi)
          simp only [List.length_append, List.length_cons]
          omega

theorem segStart_get_append (segs : List (List Nat)) (i : Nat)
    (hi : i < segs.length) (ext : List (List Nat)) :
    segStart (segs ++ ext) i = segStart segs i ∧
      (segs ++ ext).get? i = segs.get? i := by
  constructor
  · rw [segStart, segStart, List.take_append_of_le_length (by omega)]
  · rw [List.get?_append hi]

/-- Monotone evolution of the writer state: buffers only grow and the
string-map entries persist. -/
structure WMono (w w' : Writer) : Prop where
  col : ∃ d, w'.column_data = w.column_data ++ d
  row : ∃ d, w'.row_data = w.row_data ++ d
  str_map : ∀ s off, List.lookup s w.strings = some off →
    List.lookup s w'.strings = some off
  pool : ∃ d, w'.string_data = w.string_data ++ d
  blob : ∃ d, w'.blobs = w.blobs ++ d

theorem WMono.refl (w : Writer) : WMono w w :=
  ⟨⟨[], by simp⟩, ⟨[], by simp⟩, fun _ _ h => h, ⟨[], by simp⟩, ⟨[], by simp⟩⟩

theorem WMono.trans {a b c : Writer} (h1 : WMono a b) (h2 : WMono b c) :
    WMono a c := by
  obtain ⟨⟨d1, e1⟩, ⟨d2, e2⟩, m1, ⟨d3, e3⟩, ⟨d4, e4⟩⟩ := h1
  obtain ⟨⟨f1, g1⟩, ⟨f2, g2⟩, m2, ⟨f3, g3⟩, ⟨f4, g4⟩⟩ := h2
  exact ⟨⟨d1 ++ f1, by rw [g1, e1, List.append_assoc]⟩,
    ⟨d2 ++ f2, by rw [g2, e2, List.append_assoc]⟩,
    fun s off h => m2 s off (m1 s off h),
    ⟨d3 ++ f3, by rw [g3, e3, List.append_assoc]⟩,
    ⟨d4 ++ f4, by rw [g4, e4, List.append_assoc]⟩⟩

/-- The string-pool invariant: the pool is the concatenation of NUL-free,
UTF-8-valid, NUL-terminated segments, and every dedup-map entry points at a
segment start (stored `as u32`). -/
structure WInv (w : Writer) (segs : List (List Nat)) : Prop where
  pool_eq : w.string_data = segsConcat segs
  segs_ok : ∀ s ∈ segs, (∀ b ∈ s, 0 < b ∧ b < 256) ∧ utf8Valid s = true
  map_ok : ∀ s off, List.lookup s w.strings = some off →
    ∃ i, i < segs.length ∧ segs.get? i = some s ∧ segStart segs i % 2 ^ 32 = off

theorem lor_shift_add (off len : Nat) (hlen : len < 2 ^ 32) :
    (off <<< 32) ||| len = off * 2 ^ 32 + len := by
  rw [Nat.shiftLeft_eq]
  have hcomm : off * 2 ^ 32 + len = len + 2 ^ 32 * off := by ring
  rw [hcomm]
  apply Nat.eq_of_testBit_eq
  intro i
  rw [Nat.testBit_lor, testBit_add_two_pow_mul _ _ _ _ hlen]
  have hmul : off * 2 ^ 32 = 0 + 2 ^ 32 * off := by ring
  rw [hmul, testBit_add_two_pow_mul _ _ _ _ (Nat.pos_pow_of_pos 32 (by norm_num))]
  by_cases hi : i < 32
  · simp [hi]
  · have hlow : len.testBit i = false :=
      Nat.testBit_lt_two_pow (lt_of_lt_of_le hlen (Nat.pow_le_pow_right (by norm_num) (by omega)))
    simp [hi, hlow]

theorem beBytes_add_mul_high (b : Nat) :
    ∀ lo hi : Nat, lo < 256 ^ b → beBytes b (hi * 256 ^ b + lo) = beBytes b lo := by
  induction b with
  | zero => intro lo hi h; rfl
  | succ b ih =>
      intro lo hi h
      rw [beBytes, beBytes]
      have hhead : (hi * 256 ^ (b + 1) + lo) / 256 ^ b % 256 = lo / 256 ^ b % 256 := by
        have h2 : hi * 256 ^ (b + 1) + lo = lo + 256 ^ b * (256 * hi) := by ring
        rw [h2, Nat.add_mul_div_left _ _ (Nat.pos_pow_of_pos b (by norm_num))]
        have h3 : lo / 256 ^ b + 256 * hi = lo / 256 ^ b + 256 * hi := rfl
        omega
      have htail : beBytes b (hi * 256 ^ (b + 1) + lo) = beBytes b lo := by
        have hdec : hi * 256 ^ (b + 1) + lo =
            (hi * 256 + lo / 256 ^ b) * 256 ^ b + lo % 256 ^ b := by
          have hdm := Nat.div_add_mod lo (256 ^ b)
          have hp : (256 : Nat) ^ (b + 1) = 256 * 256 ^ b := by ring
          rw [hp]
          nlinarith [hdm]
        rw [hdec, ih _ _ (Nat.mod_lt _ (Nat.pos_pow_of_pos b (by norm_num)))]
        have hlo : lo = (lo / 256 ^ b) * 256 ^ b + lo % 256 ^ b := by
          rw [Nat.mul_comm]
          exact (Nat.div_add_mod lo (256 ^ b)).symm
        conv_rhs => rw [hlo]
        rw [ih _ _ (Nat.mod_lt _ (Nat.pos_pow_of_pos b (by norm_num)))]
      rw [hhead, htail]

theorem beBytes_append (a b hi lo : Nat) (hlo : lo < 256 ^ b) :
    beBytes (a + b) (hi * 256 ^ b + lo) = beBytes a hi ++ beBytes b lo := by
  induction a generalizing hi with
  | zero =>
      rw [Nat.zero_add, beBytes_add_mul_high b lo hi hlo]
      rfl
  | succ a ih =>
      have hstep : a + 1 + b = (a + b) + 1 := by omega
      rw [hstep, beBytes, ih]
      have hhead : (hi * 256 ^ b + lo) / 256 ^ (a + b) % 256 = hi / 256 ^ a % 256 := by
        have h1 : (256 : Nat) ^ (a + b) = 256 ^ b * 256 ^ a := by rw [← pow_add]; ring_nf
        rw [h1, ← Nat.div_div_eq_div_mul]
        have h2 : (hi * 256 ^ b + lo) / 256 ^ b = hi := by
          have hc : hi * 256 ^ b + lo = lo + 256 ^ b * hi := by ring
          rw [hc, Nat.add_mul_div_left _ _ (Nat.pos_pow_of_pos b (by norm_num)),
            Nat.div_eq_of_lt hlo, Nat.zero_add]
        rw [h2]
      rw [hhead, beBytes]
      simp

theorem parsePrim_num (k : ValueKind) (hk : k ≠ .STR ∧ k ≠ .BLOB)
    (buf : List Nat) (M : List (Nat × List Nat)) (B : List Nat) :
    parsePrim k buf M B = some (.num (beToNat buf)) := by
  cases k <;> first
    | rfl
    | (exact absurd rfl hk.1)
    | (exact absurd rfl hk.2)

theorem write_primitive_num_eq (w : Writer) (rowed : Bool) (k : ValueKind) (n : Nat) :
    w.write_primitive rowed k (.num n) =
      if rowed then { w with row_data := w.row_data ++ beBytes k.width n }
      else { w with column_data := w.column_data ++ beBytes k.width n } := by
  cases k <;> rfl

theorem write_primitive_str_found (w : Writer) (rowed : Bool) (s : List Nat)
    (idx : Nat) (hfind : List.lookup s w.strings = some idx) :
    w.write_primitive rowed .STR (.strv s) =
      if rowed then { w with row_data := w.row_data ++ beBytes 4 idx }
      else { w with column_data := w.column_data ++ beBytes 4 idx } := by
  have h : primWrite .STR (.strv s) w.strings w.string_data w.blobs =
      (beBytes 4 idx, w.strings, w.string_data, w.blobs) := by
    show (match strWrite w.strings w.string_data s with
      | (buf, st, sb) => (buf, st, sb, w.blobs)) = _
    rw [strWrite, hfind]
  unfold Writer.write_primitive
  rw [h]

theorem write_primitive_str_new (w : Writer) (rowed : Bool) (s : List Nat)
    (hfind : List.lookup s w.strings = none) :
    w.write_primitive rowed .STR (.strv s) =
      if rowed then
        { w with
          row_data := w.row_data ++ beBytes 4 (w.string_data.length % 2 ^ 32),
          strings := (s, w.string_data.length % 2 ^ 32) :: w.strings,
          string_data := w.string_data ++ s ++ [0] }
      else
        { w with
          column_data := w.column_data ++ beBytes 4 (w.string_data.length % 2 ^ 32),
          strings := (s, w.string_data.length % 2 ^ 32) :: w.strings,
          string_data := w.string_data ++ s ++ [0] } := by
  have h : primWrite .STR (.strv s) w.strings w.string_data w.blobs =
      (beBytes 4 (w.string_data.length % 2 ^ 32),
        (s, w.string_data.length % 2 ^ 32) :: w.strings,
        w.string_data ++ s ++ [0], w.blobs) := by
    show (match strWrite w.strings w.string_data s with
      | (buf, st, sb) => (buf, st, sb, w.blobs)) = _
    rw [strWrite, hfind]
  unfold Writer.write_primitive
  rw [h]

theorem write_primitive_blob_eq (w : Writer) (rowed : Bool) (b : List Nat) :
    w.write_primitive rowed .BLOB (.blobv b) =
      if rowed then
        { w with
          row_data := w.row_data ++ beBytes 8 (((w.blobs.length <<< 32) ||| b.length) % 2 ^ 64),
          blobs := w.blobs ++ b }
      else
        { w with
          column_data :=
            w.column_data ++ beBytes 8 (((w.blobs.length <<< 32) ||| b.length) % 2 ^ 64),
          blobs := w.blobs ++ b } := by
  unfold Writer.write_primitive primWrite blobWrite
  rfl

/-- The entries the string-pool scan inserts, in scan order: segment `i`
starts at `start + segStart segs i`. -/
def scanEntries (segs : List (List Nat)) (start : Nat) : List (Nat × List Nat) :=
  match segs with
  | [] => []
  | s :: ss => (start, s) :: scanEntries ss (start + s.length + 1)

theorem scanGo_push (s : List Nat) (hs : ∀ b ∈ s, b ≠ 0) :
    ∀ rest start cur acc,
      scanGo (s ++ rest) start cur acc = scanGo rest start (cur ++ s) acc := by
  induction s with
  | nil => intro rest start cur acc; simp
  | cons b s ih =>
      intro rest start cur acc
      have hb : b ≠ 0 := hs b (List.mem_cons_self b s)
      cases b with
      | zero => exact absurd rfl hb
      | succ n =>
          rw [List.cons_append]
          show scanGo (s ++ rest) start (cur ++ [n + 1]) acc = _
          rw [ih (fun x hx => hs x (List.mem_cons_of_mem _ hx)) rest start
            (cur ++ [n + 1]) acc, List.append_assoc]
          rfl

theorem scanGo_concat (segs : List (List Nat))
    (hok : ∀ s ∈ segs, (∀ b ∈ s, 0 < b ∧ b < 256) ∧ utf8Valid s = true) :
    ∀ start acc,
      scanGo (segsConcat segs) start [] acc =
        .ok ((scanEntries segs start).reverse ++ acc) := by
  induction segs with
  | nil => intro start acc; simp [segsConcat, scanGo, scanEntries]
  | cons s ss ih =>
      intro start acc
      have hsok := hok s (List.mem_cons_self s ss)
      rw [segsConcat_cons, List.append_assoc,
        scanGo_push s (fun b hb => Nat.pos_iff_ne_zero.mp (hsok.1 b hb).1)]
      rw [List.nil_append]
      show (if utf8Valid s then
          scanGo (segsConcat ss) (start + s.length + 1) [] ((start, s) :: acc)
        else .error .StringMalformed) = _
      rw [if_pos hsok.2, ih (fun t ht => hok t (List.mem_cons_of_mem s ht))]
      rw [scanEntries]
      simp

theorem scanEntries_key_ge (segs : List (List Nat)) :
    ∀ start k v, (k, v) ∈ scanEntries segs start → start ≤ k := by
  induction segs with
  | nil => intro start k v h; simp [scanEntries] at h
  | cons s ss ih =>
      intro start k v h
      rw [scanEntries] at h
      rcases List.mem_cons.mp h with h | h
      · cases h; exact le_refl _
      · have := ih (start + s.length + 1) k v h
        omega

theorem lookup_append_some {α β : Type} [BEq α] (l1 l2 : List (α × β)) (k : α)
    (v : β) (h : List.lookup k l1 = some v) :
    List.lookup k (l1 ++ l2) = some v := by
  induction l1 with
  | nil => simp [List.lookup] at h
  | cons p l1 ih =>
      obtain ⟨a, b⟩ := p
      rw [List.cons_append]
      cases hk : k == a with
      | true => simp only [List.lookup, hk] at h ⊢; exact h
      | false => simp only [List.lookup, hk] at h ⊢; exact ih h

theorem lookup_append_none {α β : Type} [BEq α] (l1 l2 : List (α × β)) (k : α)
    (h : List.lookup k l1 = none) :
    List.lookup k (l1 ++ l2) = List.lookup k l2 := by
  induction l1 with
  | nil => simp
  | cons p l1 ih =>
      obtain ⟨a, b⟩ := p
      rw [List.cons_append]
      cases hk : k == a with
      | true => simp only [List.lookup, hk] at h; exact Option.noConfusion h
      | false => simp only [List.lookup, hk] at h ⊢; exact ih h

theorem lookup_none_of_keys_ne {α β : Type} [BEq α] [LawfulBEq α]
    (l : List (α × β)) (k : α) (h : ∀ p ∈ l, p.1 ≠ k) :
    List.lookup k l = none := by
  induction l with
  | nil => rfl
  | cons p l ih =>
      obtain ⟨a, b⟩ := p
      have hne : a ≠ k := h (a, b) (List.mem_cons_self _ l)
      have hk : (k == a) = false := by
        simp only [beq_eq_false_iff_ne]
        exact fun hc => hne hc.symm
      simp only [List.lookup, hk]
      exact ih fun q hq => h q (List.mem_cons_of_mem _ hq)

theorem scan_lookup (segs : List (List Nat)) :
    ∀ start i, i < segs.length →
      List.lookup (start + segStart segs i) ((scanEntries segs start).reverse) =
        segs.get? i := by
  induction segs with
  | nil => intro start i hi; simp at hi
  | cons s ss ih =>
      intro start i hi
      rw [scanEntries, List.reverse_cons]
      cases i with
      | zero =>
          rw [segStart_zero, Nat.add_zero]
          have hnone : List.lookup start ((scanEntries ss (start + s.length + 1)).reverse) =
              none := by
            apply lookup_none_of_keys_ne
            intro p hp
            have := scanEntries_key_ge ss (start + s.length + 1) p.1 p.2
              (by rw [List.mem_reverse] at hp; exact hp)
            omega
          rw [lookup_append_none _ _ _ hnone]
          simp [List.lookup]
      | succ j =>
          rw [segStart_cons_succ]
          have hj : j < ss.length := by simpa using hi
          have hrec := ih (start + s.length + 1) j hj
          obtain ⟨v, hv⟩ : ∃ v, ss.get? j = some v :=
            ⟨ss.get ⟨j, hj⟩, List.get?_eq_get hj⟩
          rw [hv] at hrec
          have hkey : start + (s.length + 1 + segStart ss j) =
              start + s.length + 1 + segStart ss j := by omega
          show List.lookup _ _ = ss.get? j
          rw [hkey, hv, lookup_append_some _ _ _ _ hrec]

theorem segsConcat_replicate_nil (n : Nat) :
    segsConcat (List.replicate n ([] : List Nat)) = List.replicate n 0 := by
  induction n with
  | zero => rfl
  | succ n ih =>
      rw [List.replicate_succ, segsConcat_cons, ih, List.replicate_succ]
      simp

theorem strOk_spec (s : List Nat) (h : strOk s = true) :
    (∀ b ∈ s, 0 < b ∧ b < 256) ∧ utf8Valid s = true := by
  rw [strOk, Bool.and_eq_true] at h
  refine ⟨fun b hb => ?_, h.2⟩
  have := List.all_eq_true.mp h.1 b hb
  simp only [Bool.and_eq_true, decide_eq_true_eq] at this
  exact this

/-- Writing a string value: the dedup map resolves the string afterwards, the
pool invariant is preserved (one fresh segment at most), and the emitted
4-byte reference is its (in-range) pool offset. -/
theorem strWrite_inv (w : Writer) (rowed : Bool) (s : List Nat)
    (segs : List (List Nat)) (hinv : WInv w segs) (hs : strOk s = true) :
    ∃ ext off,
      WInv (w.write_primitive rowed .STR (.strv s)) (segs ++ ext) ∧
      WMono w (w.write_primitive rowed .STR (.strv s)) ∧
      (w.write_primitive rowed .STR (.strv s)).column_data =
        w.column_data ++ (if rowed then [] else beBytes 4 off) ∧
      (w.write_primitive rowed .STR (.strv s)).row_data =
        w.row_data ++ (if rowed then beBytes 4 off else []) ∧
      (w.write_primitive rowed .STR (.strv s)).blobs = w.blobs ∧
      (w.write_primitive rowed .STR (.strv s)).field_count = w.field_count ∧
      List.lookup s (w.write_primitive rowed .STR (.strv s)).strings = some off ∧
      off < 2 ^ 32 := by
  cases hfind : List.lookup s w.strings with
  | some idx =>
      obtain ⟨i, hi, hgi, hoff⟩ := hinv.map_ok s idx hfind
      have hidx : idx < 2 ^ 32 := by rw [← hoff]; exact Nat.mod_lt _ (by norm_num)
      refine ⟨[], idx, ?_⟩
      rw [List.append_nil, write_primitive_str_found w rowed s idx hfind]
      have hkeep : WMono w { w with strings := w.strings } :=
        ⟨⟨[], (List.append_nil _).symm⟩, ⟨[], (List.append_nil _).symm⟩,
          fun _ _ h => h, ⟨[], (List.append_nil _).symm⟩, ⟨[], (List.append_nil _).symm⟩⟩
      cases rowed with
      | false =>
          exact ⟨⟨hinv.pool_eq, hinv.segs_ok, hinv.map_ok⟩,
            ⟨⟨beBytes 4 idx, rfl⟩, ⟨[], (List.append_nil _).symm⟩, fun _ _ h => h,
              ⟨[], (List.append_nil _).symm⟩, ⟨[], (List.append_nil _).symm⟩⟩,
            rfl, (List.append_nil _).symm, rfl, rfl, hfind, hidx⟩
      | true =>
          exact ⟨⟨hinv.pool_eq, hinv.segs_ok, hinv.map_ok⟩,
            ⟨⟨[], (List.append_nil _).symm⟩, ⟨beBytes 4 idx, rfl⟩, fun _ _ h => h,
              ⟨[], (List.append_nil _).symm⟩, ⟨[], (List.append_nil _).symm⟩⟩,
            (List.append_nil _).symm, rfl, rfl, rfl, hfind, hidx⟩
  | none =>
      rw [write_primitive_str_new w rowed s hfind]
      have hpos : w.string_data.length % 2 ^ 32 < 2 ^ 32 := Nat.mod_lt _ (by norm_num)
      have hsok := strOk_spec s hs
      have hpool : w.string_data ++ s ++ [0] = segsConcat (segs ++ [s]) := by
        rw [segsConcat_append, hinv.pool_eq, segsConcat_cons, segsConcat_nil,
          List.append_nil, List.append_assoc]
      have hsegs_ok : ∀ t ∈ segs ++ [s],
          (∀ b ∈ t, 0 < b ∧ b < 256) ∧ utf8Valid t = true := by
        intro t ht
        rcases List.mem_append.mp ht with h | h
        · exact hinv.segs_ok t h
        · rw [List.mem_singleton.mp h]; exact hsok
      have hmap_ok : ∀ t off,
          List.lookup t ((s, w.string_data.length % 2 ^ 32) :: w.strings) = some off →
          ∃ i, i < (segs ++ [s]).length ∧ (segs ++ [s]).get? i = some t ∧
            segStart (segs ++ [s]) i % 2 ^ 32 = off := by
        intro t off hl
        cases hts : t == s with
        | true =>
            simp only [List.lookup, hts] at hl
            have hteq : t = s := by simpa using hts
            refine ⟨segs.length, by simp, ?_, ?_⟩
            · rw [hteq, List.get?_concat_length]
            · rw [segStart_append_len, ← hinv.pool_eq]
              exact Option.some.inj hl
        | false =>
            simp only [List.lookup, hts] at hl
            obtain ⟨i, hi, hgi, hoff⟩ := hinv.map_ok t off hl
            obtain ⟨hseg, hget⟩ := segStart_get_append segs i hi [s]
            exact ⟨i, by simp; omega, by rw [hget]; exact hgi, by rw [hseg]; exact hoff⟩
      have hpersist : ∀ t off, List.lookup t w.strings = some off →
          List.lookup t ((s, w.string_data.length % 2 ^ 32) :: w.strings) = some off := by
        intro t off h
        cases hts : t == s with
        | true =>
            have hteq : t = s := by simpa using hts
            rw [hteq, hfind] at h
            exact Option.noConfusion h
        | false => simp only [List.lookup, hts]; exact h
      have hself : List.lookup s ((s, w.string_data.length % 2 ^ 32) :: w.strings) =
          some (w.string_data.length % 2 ^ 32) := by
        simp only [List.lookup, beq_self_eq_true]
      refine ⟨[s], w.string_data.length % 2 ^ 32, ?_⟩
      cases rowed with
      | false =>
          exact ⟨⟨hpool, hsegs_ok, hmap_ok⟩,
            ⟨⟨beBytes 4 (w.string_data.length % 2 ^ 32), rfl⟩,
              ⟨[], (List.append_nil _).symm⟩, hpersist,
              ⟨s ++ [0], List.append_assoc _ _ _⟩, ⟨[], (List.append_nil _).symm⟩⟩,
            rfl, (List.append_nil _).symm, rfl, rfl, hself, hpos⟩
      | true =>
          exact ⟨⟨hpool, hsegs_ok, hmap_ok⟩,
            ⟨⟨[], (List.append_nil _).symm⟩,
              ⟨beBytes 4 (w.string_data.length % 2 ^ 32), rfl⟩, hpersist,
              ⟨s ++ [0], List.append_assoc _ _ _⟩, ⟨[], (List.append_nil _).symm⟩⟩,
            (List.append_nil _).symm, rfl, rfl, rfl, hself, hpos⟩

/-- Writing a numeric value appends its big-endian bytes which always decode
back to the same number. -/
theorem value_step_num (w : Writer) (rowed : Bool) (k : ValueKind) (n : Nat)
    (segs : List (List Nat)) (hinv : WInv w segs)
    (hk : k ≠ .STR ∧ k ≠ .BLOB) (hn : n < 256 ^ k.width) :
    ∃ ext d, WInv (w.write_value rowed k (.num n)) (segs ++ ext) ∧
      WMono w (w.write_value rowed k (.num n)) ∧
      (w.write_value rowed k (.num n)).column_data =
        w.column_data ++ (if rowed then [] else d) ∧
      (w.write_value rowed k (.num n)).row_data =
        w.row_data ++ (if rowed then d else []) ∧
      (w.write_value rowed k (.num n)).field_count = w.field_count ∧
      d.length = k.width ∧
      (∀ wF : Writer, WMono (w.write_value rowed k (.num n)) wF →
        wF.blobs.length < 2 ^ 32 →
        ∀ (M : List (Nat × List Nat)) (B : List Nat),
          (∀ s off, List.lookup s wF.strings = some off →
            List.lookup off M = some s) →
          (∃ bex, B = wF.blobs ++ bex) →
          parsePrim k d M B = some (.num n)) := by
  rw [Writer.write_value, write_primitive_num_eq]
  refine ⟨[], beBytes k.width n, ?_⟩
  rw [List.append_nil]
  have hdec : ∀ (M : List (Nat × List Nat)) (B : List Nat),
      parsePrim k (beBytes k.width n) M B = some (.num n) := fun M B => by
    rw [parsePrim_num k hk, beToNat_beBytes_of_lt hn]
  cases rowed with
  | false =>
      exact ⟨⟨hinv.pool_eq, hinv.segs_ok, hinv.map_ok⟩,
        ⟨⟨beBytes k.width n, rfl⟩, ⟨[], (List.append_nil _).symm⟩, fun _ _ h => h,
          ⟨[], (List.append_nil _).symm⟩, ⟨[], (List.append_nil _).symm⟩⟩,
        rfl, (List.append_nil _).symm, rfl, beBytes_length _ _,
        fun _ _ _ M B _ _ => hdec M B⟩
  | true =>
      exact ⟨⟨hinv.pool_eq, hinv.segs_ok, hinv.map_ok⟩,
        ⟨⟨[], (List.append_nil _).symm⟩, ⟨beBytes k.width n, rfl⟩, fun _ _ h => h,
          ⟨[], (List.append_nil _).symm⟩, ⟨[], (List.append_nil _).symm⟩⟩,
        (List.append_nil _).symm, rfl, rfl, beBytes_length _ _,
        fun _ _ _ M B _ _ => hdec M B⟩

/-- Writing a string value: the emitted 4-byte pool reference decodes back to
the same string through any later map compatible with the final writer. -/
theorem value_step_str (w : Writer) (rowed : Bool) (s : List Nat)
    (segs : List (List Nat)) (hinv : WInv w segs) (hs : strOk s = true) :
    ∃ ext d, WInv (w.write_value rowed .STR (.strv s)) (segs ++ ext) ∧
      WMono w (w.write_value rowed .STR (.strv s)) ∧
      (w.write_value rowed .STR (.strv s)).column_data =
        w.column_data ++ (if rowed then [] else d) ∧
      (w.write_value rowed .STR (.strv s)).row_data =
        w.row_data ++ (if rowed then d else []) ∧
      (w.write_value rowed .STR (.strv s)).field_count = w.field_count ∧
      d.length = ValueKind.STR.width ∧
      (∀ wF : Writer, WMono (w.write_value rowed .STR (.strv s)) wF →
        wF.blobs.length < 2 ^ 32 →
        ∀ (M : List (Nat × List Nat)) (B : List Nat),
          (∀ t off, List.lookup t wF.strings = some off →
            List.lookup off M = some t) →
          (∃ bex, B = wF.blobs ++ bex) →
          parsePrim .STR d M B = some (.strv s)) := by
  obtain ⟨ext, off, hinv', hmono, hcol, hrow, hblob, hfc, hlook, hoff⟩ :=
    strWrite_inv w rowed s segs hinv hs
  refine ⟨ext, beBytes 4 off, hinv', hmono, hcol, hrow, hfc, beBytes_length _ _, ?_⟩
  intro wF hmF hbF M B hM hB
  have hlookF : List.lookup s wF.strings = some off := hmF.str_map s off hlook
  have hMoff : List.lookup off M = some s := hM s off hlookF
  show (List.lookup (beToNat (beBytes 4 off)) M).map UTFValue.strv =
      some (UTFValue.strv s)
  rw [beToNat_beBytes_of_lt (by
    rw [show (256 : Nat) ^ 4 = 2 ^ 32 from by norm_num]; exact hoff), hMoff]
  rfl

/-- Writing a blob value: the appended pool bytes and the packed
`(offset << 32) | length` reference decode back to the same blob out of any
extension of the final pool, as long as the final pool fits in `u32`. -/
theorem value_step_blob (w : Writer) (rowed : Bool) (b : List Nat)
    (segs : List (List Nat)) (hinv : WInv w segs) :
    ∃ ext d, WInv (w.write_value rowed .BLOB (.blobv b)) (segs ++ ext) ∧
      WMono w (w.write_value rowed .BLOB (.blobv b)) ∧
      (w.write_value rowed .BLOB (.blobv b)).column_data =
        w.column_data ++ (if rowed then [] else d) ∧
      (w.write_value rowed .BLOB (.blobv b)).row_data =
        w.row_data ++ (if rowed then d else []) ∧
      (w.write_value rowed .BLOB (.blobv b)).field_count = w.field_count ∧
      d.length = ValueKind.BLOB.width ∧
      (∀ wF : Writer, WMono (w.write_value rowed .BLOB (.blobv b)) wF →
        wF.blobs.length < 2 ^ 32 →
        ∀ (M : List (Nat × List Nat)) (B : List Nat),
          (∀ t off, List.lookup t wF.strings = some off →
            List.lookup off M = some t) →
          (∃ bex, B = wF.blobs ++ bex) →
          parsePrim .BLOB d M B = some (.blobv b)) := by
  rw [Writer.write_value, write_primitive_blob_eq]
  refine ⟨[], beBytes 8 (((w.blobs.length <<< 32) ||| b.length) % 2 ^ 64), ?_⟩
  rw [List.append_nil]
  have hdec : ∀ wF : Writer, (∃ e, wF.blobs = (w.blobs ++ b) ++ e) →
      wF.blobs.length < 2 ^ 32 →
      ∀ (M : List (Nat × List Nat)) (B' : List Nat), (∃ bex, B' = wF.blobs ++ bex) →
      parsePrim .BLOB (beBytes 8 (((w.blobs.length <<< 32) ||| b.length) % 2 ^ 64))
        M B' = some (.blobv b) := by
    rintro wF ⟨e, he⟩ hlt M B' ⟨bex, hB⟩
    have hlb : w.blobs.length + b.length ≤ wF.blobs.length := by
      rw [he]
      simp [List.length_append]
    have hoff32 : w.blobs.length < 2 ^ 32 := by omega
    have hblen32 : b.length < 2 ^ 32 := by omega
    have hpack : (w.blobs.length <<< 32) ||| b.length =
        w.blobs.length * 2 ^ 32 + b.length := lor_shift_add _ _ hblen32
    have hlt64 : w.blobs.length * 2 ^ 32 + b.length < 2 ^ 64 := by
      have h1 : w.blobs.length * 2 ^ 32 ≤ (2 ^ 32 - 1) * 2 ^ 32 :=
        Nat.mul_le_mul_right _ (by omega)
      have h2 : (2 ^ 32 - 1) * 2 ^ 32 + 2 ^ 32 = 2 ^ 64 := by norm_num
      omega
    have hmod : ((w.blobs.length <<< 32) ||| b.length) % 2 ^ 64 =
        w.blobs.length * 2 ^ 32 + b.length := by
      rw [hpack, Nat.mod_eq_of_lt hlt64]
    have hsplit : beBytes 8 (w.blobs.length * 2 ^ 32 + b.length) =
        beBytes 4 w.blobs.length ++ beBytes 4 b.length := by
      have h4 : (256 : Nat) ^ 4 = 2 ^ 32 := by norm_num
      have := beBytes_append 4 4 w.blobs.length b.length (by rw [h4]; exact hblen32)
      rw [h4] at this
      exact this
    rw [hmod, hsplit]
    have htake : (beBytes 4 w.blobs.length ++ beBytes 4 b.length).take 4 =
        beBytes 4 w.blobs.length := List.take_left' (beBytes_length _ _)
    have hdrop : (beBytes 4 w.blobs.length ++ beBytes 4 b.length).drop 4 =
        beBytes 4 b.length := List.drop_left' (beBytes_length _ _)
    show (if beToNat ((beBytes 4 w.blobs.length ++ beBytes 4 b.length).take 4) +
        beToNat (((beBytes 4 w.blobs.length ++ beBytes 4 b.length).drop 4).take 4) >
        B'.length then none
      else some (UTFValue.blobv ((B'.drop
        (beToNat ((beBytes 4 w.blobs.length ++ beBytes 4 b.length).take 4))).take
        (beToNat (((beBytes 4 w.blobs.length ++
          beBytes 4 b.length).drop 4).take 4))))) = some (UTFValue.blobv b)
    have h4 : (256 : Nat) ^ 4 = 2 ^ 32 := by norm_num
    rw [htake, hdrop, List.take_all_of_le (le_of_eq (beBytes_length 4 b.length)),
      beToNat_beBytes_of_lt (by rw [h4]; exact hoff32),
      beToNat_beBytes_of_lt (by rw [h4]; exact hblen32)]
    have hBlen : w.blobs.length + b.length ≤ B'.length := by
      rw [hB, List.length_append]
      omega
    rw [if_neg (by omega)]
    have hB' : B' = w.blobs ++ (b ++ (e ++ bex)) := by
      rw [hB, he]
      simp [List.append_assoc]
    rw [hB', List.drop_left' rfl, List.take_left' rfl]
  cases rowed with
  | false =>
      exact ⟨⟨hinv.pool_eq, hinv.segs_ok, hinv.map_ok⟩,
        ⟨⟨beBytes 8 (((w.blobs.length <<< 32) ||| b.length) % 2 ^ 64), rfl⟩,
          ⟨[], (List.append_nil _).symm⟩, fun _ _ h => h,
          ⟨[], (List.append_nil _).symm⟩, ⟨b, rfl⟩⟩,
        rfl, (List.append_nil _).symm, rfl, beBytes_length _ _,
        fun wF hmF hbF M B' hM hB' => hdec wF hmF.blob hbF M B' hB'⟩
  | true =>
      exact ⟨⟨hinv.pool_eq, hinv.segs_ok, hinv.map_ok⟩,
        ⟨⟨[], (List.append_nil _).symm⟩,
          ⟨beBytes 8 (((w.blobs.length <<< 32) ||| b.length) % 2 ^ 64), rfl⟩,
          fun _ _ h => h, ⟨[], (List.append_nil _).symm⟩, ⟨b, rfl⟩⟩,
        (List.append_nil _).symm, rfl, rfl, beBytes_length _ _,
        fun wF hmF hbF M B' hM hB' => hdec wF hmF.blob hbF M B' hB'⟩

/-- One `write_value` call for a well-formed kind/value pair: its bytes land
in the selected buffer, every invariant survives, and later parsing against a
compatible map and pool recovers the value. -/
theorem value_step (w : Writer) (rowed : Bool) (k : ValueKind) (v : UTFValue)
    (segs : List (List Nat)) (hinv : WInv w segs) (hok : valueOk k v = true) :
    ∃ ext d, WInv (w.write_value rowed k v) (segs ++ ext) ∧
      WMono w (w.write_value rowed k v) ∧
      (w.write_value rowed k v).column_data =
        w.column_data ++ (if rowed then [] else d) ∧
      (w.write_value rowed k v).row_data = w.row_data ++ (if rowed then d else []) ∧
      (w.write_value rowed k v).field_count = w.field_count ∧
      d.length = k.width ∧
      (∀ wF : Writer, WMono (w.write_value rowed k v) wF →
        wF.blobs.length < 2 ^ 32 →
        ∀ (M : List (Nat × List Nat)) (B : List Nat),
          (∀ t off, List.lookup t wF.strings = some off →
            List.lookup off M = some t) →
          (∃ bex, B = wF.blobs ++ bex) →
          parsePrim k d M B = some v) := by
  cases k <;> cases v <;> first
    | exact value_step_num w rowed _ _ segs hinv (by decide)
        (by simpa [valueOk, ValueKind.width] using hok)
    | exact value_step_str w rowed _ segs hinv (by simpa [valueOk] using hok)
    | exact value_step_blob w rowed _ segs hinv
    | simp [valueOk] at hok

theorem beBytes_one_lt (n : Nat) (h : n < 256) : beBytes 1 n = [n] := by
  show [n / 256 ^ 0 % 256] = [n]
  rw [pow_zero, Nat.div_one, Nat.mod_eq_of_lt h]

/-- The flag byte and the name reference every column push starts with: one
storage/kind byte and the 4-byte pool offset of the (deduplicated) name. -/
theorem push_flag_name (w : Writer) (st : Nat) (k : ValueKind) (name : List Nat)
    (segs : List (List Nat)) (hinv : WInv w segs) (hname : strOk name = true)
    (hst : st = 0x10 ∨ st = 0x30 ∨ st = 0x50) :
    ∃ ext offN,
      WInv ((w.write_primitive false .U8 (.num (st ||| k.tag))).write_primitive
        false .STR (.strv name)) (segs ++ ext) ∧
      WMono w ((w.write_primitive false .U8 (.num (st ||| k.tag))).write_primitive
        false .STR (.strv name)) ∧
      ((w.write_primitive false .U8 (.num (st ||| k.tag))).write_primitive
        false .STR (.strv name)).column_data =
        w.column_data ++ ((st ||| k.tag) :: beBytes 4 offN) ∧
      ((w.write_primitive false .U8 (.num (st ||| k.tag))).write_primitive
        false .STR (.strv name)).row_data = w.row_data ∧
      ((w.write_primitive false .U8 (.num (st ||| k.tag))).write_primitive
        false .STR (.strv name)).blobs = w.blobs ∧
      ((w.write_primitive false .U8 (.num (st ||| k.tag))).write_primitive
        false .STR (.strv name)).field_count = w.field_count ∧
      List.lookup name ((w.write_primitive false .U8
        (.num (st ||| k.tag))).write_primitive false .STR (.strv name)).strings =
        some offN ∧ offN < 2 ^ 32 := by
  have hflag := flag_split k st hst
  have h1 : w.write_primitive false .U8 (.num (st ||| k.tag)) =
      { w with column_data := w.column_data ++ [st ||| k.tag] } := by
    rw [write_primitive_num_eq]
    simp only [ValueKind.width]
    rw [beBytes_one_lt _ hflag.2.2]
    rfl
  set w1 := w.write_primitive false .U8 (.num (st ||| k.tag)) with hw1
  have hinv1 : WInv w1 segs := by
    rw [h1]
    exact ⟨hinv.pool_eq, hinv.segs_ok, hinv.map_ok⟩
  have hmono1 : WMono w w1 := by
    rw [h1]
    exact ⟨⟨[st ||| k.tag], rfl⟩, ⟨[], (List.append_nil _).symm⟩, fun _ _ h => h,
      ⟨[], (List.append_nil _).symm⟩, ⟨[], (List.append_nil _).symm⟩⟩
  obtain ⟨ext, offN, hinv2, hmono2, hcol2, hrow2, hblob2, hfc2, hlook2, hoffN⟩ :=
    strWrite_inv w1 false name segs hinv1 hname
  refine ⟨ext, offN, hinv2, hmono1.trans hmono2, ?_, ?_, ?_, ?_, hlook2, hoffN⟩
  · rw [hcol2, h1]
    simp [List.append_assoc]
  · rw [hrow2, h1]
    simp
  · rw [hblob2, h1]
  · rw [hfc2, h1]

theorem WMono_fc (w : Writer) (n : Nat) : WMono w { w with field_count := n } :=
  ⟨⟨[], (List.append_nil _).symm⟩, ⟨[], (List.append_nil _).symm⟩, fun _ _ h => h,
    ⟨[], (List.append_nil _).symm⟩, ⟨[], (List.append_nil _).symm⟩⟩

theorem read_constant_column_ok (r r' : Reader) (k : ValueKind) (name : List Nat)
    (v : UTFValue)
    (h : r.read_constant_column_private k name false = .ok (some v, r')) :
    r.read_constant_column k name = .ok (v, r') := by
  rw [Reader.read_constant_column]
  simp only [bind, Except.bind, h]
  rfl

theorem read_rowed_column_ok (r r' : Reader) (k : ValueKind) (name : List Nat)
    (b : Bool) (h : r.read_rowed_column_private name k false = .ok (b, r')) :
    r.read_rowed_column k name = .ok r' := by
  rw [Reader.read_rowed_column]
  simp only [bind, Except.bind, h]
  rfl

/-- One column push: the writer appends the column's flag/name/value bytes to
the column area, preserves the pool invariant, bumps the field count, and the
matching read call recovers the expected output from any cursor positioned at
those bytes with a compatible string map and blob pool. -/
theorem push_sim (w : Writer) (c : ColSpec) (segs : List (List Nat))
    (hinv : WInv w segs) (hc : colOk c = true) :
    ∃ ext d, WInv (ColSpec.push w c) (segs ++ ext) ∧ WMono w (ColSpec.push w c) ∧
      (ColSpec.push w c).column_data = w.column_data ++ d ∧
      (ColSpec.push w c).row_data = w.row_data ∧
      (ColSpec.push w c).field_count = (w.field_count + 1) % 2 ^ 16 ∧
      (∀ wF : Writer, WMono (ColSpec.push w c) wF → wF.blobs.length < 2 ^ 32 →
        ∀ (R : Reader) (rest : List Nat), R.columnRem = d ++ rest →
          (∀ t off, List.lookup t wF.strings = some off →
            List.lookup off R.strings = some t) →
          (∃ bex, R.blobs = wF.blobs ++ bex) →
          c.read R = .ok (expectedOut c, { R with columnRem := rest })) := by
  cases c with
  | constant name k v =>
      simp only [colOk, Bool.and_eq_true] at hc
      obtain ⟨hname, hval⟩ := hc
      obtain ⟨ext1, offN, hinv2, hmono2, hcol2, hrow2, hblob2, hfc2, hlook2, hoffN⟩ :=
        push_flag_name w 0x30 k name segs hinv hname (by norm_num)
      set w2 := (w.write_primitive false .U8 (.num (0x30 ||| k.tag))).write_primitive
        false .STR (.strv name) with hw2
      obtain ⟨ext2, dv, hinv3, hmono3, hcol3, hrow3, hfc3, hdvlen, hdec⟩ :=
        value_step w2 false k v (segs ++ ext1) hinv2 hval
      set w3 := w2.write_value false k v with hw3
      have hcol3' : w3.column_data = w2.column_data ++ dv := by rw [hcol3]; rfl
      have hrow3' : w3.row_data = w2.row_data := by rw [hrow3]; simp
      have hpush : ColSpec.push w (.constant name k v) =
          { w3 with field_count := (w3.field_count + 1) % 2 ^ 16 } := rfl
      refine ⟨ext1 ++ ext2, (0x30 ||| k.tag) :: (beBytes 4 offN ++ dv),
        ?_, ?_, ?_, ?_, ?_, ?_⟩
      · rw [hpush, ← List.append_assoc]
        exact ⟨hinv3.pool_eq, hinv3.segs_ok, hinv3.map_ok⟩
      · rw [hpush]
        exact (hmono2.trans hmono3).trans (WMono_fc w3 _)
      · rw [hpush]
        show w3.column_data = _
        rw [hcol3', hcol2]
        simp [List.append_assoc]
      · rw [hpush]
        show w3.row_data = _
        rw [hrow3', hrow2]
      · rw [hpush]
        show (w3.field_count + 1) % 2 ^ 16 = _
        rw [hfc3, hfc2]
      · intro wF hmF hbF R rest hcur hM hB
        rw [hpush] at hmF
        have hmw3F : WMono w3 wF := (WMono_fc w3 _).trans hmF
        have hlookF : List.lookup name wF.strings = some offN :=
          hmw3F.str_map name offN (hmono3.str_map name offN hlook2)
        have hcurR : R.columnRem = (0x30 ||| k.tag) ::
            (beBytes 4 offN ++ (dv ++ rest)) := by
          rw [hcur]
          simp [List.append_assoc]
        have hlookR : List.lookup (beToNat (beBytes 4 offN)) R.strings = some name := by
          rw [beToNat_beBytes_of_lt (by
            rw [show (256 : Nat) ^ 4 = 2 ^ 32 from by norm_num]; exact hoffN)]
          exact hM name offN hlookF
        have hparse : parsePrim k dv R.strings R.blobs = some v :=
          hdec wF hmw3F hbF R.strings R.blobs hM hB
        have hpriv := rcc_present_spec R k name (beBytes 4 offN) dv rest v false
          (beBytes_length _ _) hdvlen hcurR hlookR hparse
        have hcc := read_constant_column_ok R _ k name v hpriv
        show ColSpec.read R _ = _
        simp only [ColSpec.read, bind, Except.bind, hcc]
        rfl
  | constantOpt name k v =>
      cases v with
      | some v =>
          simp only [colOk, Bool.and_eq_true] at hc
          obtain ⟨hname, hval⟩ := hc
          obtain ⟨ext1, offN, hinv2, hmono2, hcol2, hrow2, hblob2, hfc2, hlook2,
            hoffN⟩ := push_flag_name w 0x30 k name segs hinv hname (by norm_num)
          set w2 := (w.write_primitive false .U8
            (.num (0x30 ||| k.tag))).write_primitive false .STR (.strv name) with hw2
          obtain ⟨ext2, dv, hinv3, hmono3, hcol3, hrow3, hfc3, hdvlen, hdec⟩ :=
            value_step w2 false k v (segs ++ ext1) hinv2 hval
          set w3 := w2.write_value false k v with hw3
          have hcol3' : w3.column_data = w2.column_data ++ dv := by rw [hcol3]; rfl
          have hrow3' : w3.row_data = w2.row_data := by rw [hrow3]; simp
          have hpush : ColSpec.push w (.constantOpt name k (some v)) =
              { w3 with field_count := (w3.field_count + 1) % 2 ^ 16 } := rfl
          refine ⟨ext1 ++ ext2, (0x30 ||| k.tag) :: (beBytes 4 offN ++ dv),
            ?_, ?_, ?_, ?_, ?_, ?_⟩
          · rw [hpush, ← List.append_assoc]
            exact ⟨hinv3.pool_eq, hinv3.segs_ok, hinv3.map_ok⟩
          · rw [hpush]
            exact (hmono2.trans hmono3).trans (WMono_fc w3 _)
          · rw [hpush]
            show w3.column_data = _
            rw [hcol3', hcol2]
            simp [List.append_assoc]
          · rw [hpush]
            show w3.row_data = _
            rw [hrow3', hrow2]
          · rw [hpush]
            show (w3.field_count + 1) % 2 ^ 16 = _
            rw [hfc3, hfc2]
          · intro wF hmF hbF R rest hcur hM hB
            rw [hpush] at hmF
            have hmw3F : WMono w3 wF := (WMono_fc w3 _).trans hmF
            have hlookF : List.lookup name wF.strings = some offN :=
              hmw3F.str_map name offN (hmono3.str_map name offN hlook2)
            have hcurR : R.columnRem = (0x30 ||| k.tag) ::
                (beBytes 4 offN ++ (dv ++ rest)) := by
              rw [hcur]
              simp [List.append_assoc]
            have hlookR : List.lookup (beToNat (beBytes 4 offN)) R.strings =
                some name := by
              rw [beToNat_beBytes_of_lt (by
                rw [show (256 : Nat) ^ 4 = 2 ^ 32 from by norm_num]; exact hoffN)]
              exact hM name offN hlookF
            have hparse : parsePrim k dv R.strings R.blobs = some v :=
              hdec wF hmw3F hbF R.strings R.blobs hM hB
            have hpriv := rcc_present_spec R k name (beBytes 4 offN) dv rest v true
              (beBytes_length _ _) hdvlen hcurR hlookR hparse
            show ColSpec.read R _ = _
            simp only [ColSpec.read, Reader.read_constant_column_opt, bind,
              Except.bind, hpriv]
            rfl
      | none =>
          simp only [colOk] at hc
          obtain ⟨ext1, offN, hinv2, hmono2, hcol2, hrow2, hblob2, hfc2, hlook2,
            hoffN⟩ := push_flag_name w 0x10 k name segs hinv hc (by norm_num)
          set w2 := (w.write_primitive false .U8
            (.num (0x10 ||| k.tag))).write_primitive false .STR (.strv name) with hw2
          have hpush : ColSpec.push w (.constantOpt name k none) =
              { w2 with field_count := (w2.field_count + 1) % 2 ^ 16 } := rfl
          refine ⟨ext1, (0x10 ||| k.tag) :: beBytes 4 offN, ?_, ?_, ?_, ?_, ?_, ?_⟩
          · rw [hpush]
            exact ⟨hinv2.pool_eq, hinv2.segs_ok, hinv2.map_ok⟩
          · rw [hpush]
            exact hmono2.trans (WMono_fc w2 _)
          · rw [hpush]
            show w2.column_data = _
            exact hcol2
          · rw [hpush]
            show w2.row_data = _
            exact hrow2
          · rw [hpush]
            show (w2.field_count + 1) % 2 ^ 16 = _
            rw [hfc2]
          · intro wF hmF hbF R rest hcur hM hB
            rw [hpush] at hmF
            have hmw2F : WMono w2 wF := (WMono_fc w2 _).trans hmF
            have hlookF : List.lookup name wF.strings = some offN :=
              hmw2F.str_map name offN hlook2
            have hcurR : R.columnRem = (0x10 ||| k.tag) ::
                (beBytes 4 offN ++ rest) := by
              rw [hcur]
              rfl
            have hlookR : List.lookup (beToNat (beBytes 4 offN)) R.strings =
                some name := by
              rw [beToNat_beBytes_of_lt (by
                rw [show (256 : Nat) ^ 4 = 2 ^ 32 from by norm_num]; exact hoffN)]
              exact hM name offN hlookF
            have hpriv := rcc_absent_spec R k name (beBytes 4 offN) rest
              (beBytes_length _ _) hcurR hlookR
            show ColSpec.read R _ = _
            simp only [ColSpec.read, Reader.read_constant_column_opt, bind,
              Except.bind, hpriv]
            rfl
  | rowed name k =>
      simp only [colOk] at hc
      obtain ⟨ext1, offN, hinv2, hmono2, hcol2, hrow2, hblob2, hfc2, hlook2, hoffN⟩ :=
        push_flag_name w 0x50 k name segs hinv hc (by norm_num)
      set w2 := (w.write_primitive false .U8 (.num (0x50 ||| k.tag))).write_primitive
        false .STR (.strv name) with hw2
      have hpush : ColSpec.push w (.rowed name k) =
          { w2 with field_count := (w2.field_count + 1) % 2 ^ 16 } := rfl
      refine ⟨ext1, (0x50 ||| k.tag) :: beBytes 4 offN, ?_, ?_, ?_, ?_, ?_, ?_⟩
      · rw [hpush]
        exact ⟨hinv2.pool_eq, hinv2.segs_ok, hinv2.map_ok⟩
      · rw [hpush]
        exact hmono2.trans (WMono_fc w2 _)
      · rw [hpush]
        show w2.column_data = _
        exact hcol2
      · rw [hpush]
        show w2.row_data = _
        exact hrow2
      · rw [hpush]
        show (w2.field_count + 1) % 2 ^ 16 = _
        rw [hfc2]
      · intro wF hmF hbF R rest hcur hM hB
        rw [hpush] at hmF
        have hmw2F : WMono w2 wF := (WMono_fc w2 _).trans hmF
        have hlookF : List.lookup name wF.strings = some offN :=
          hmw2F.str_map name offN hlook2
        have hcurR : R.columnRem = (0x50 ||| k.tag) :: (beBytes 4 offN ++ rest) := by
          rw [hcur]
          rfl
        have hlookR : List.lookup (beToNat (beBytes 4 offN)) R.strings = some name := by
          rw [beToNat_beBytes_of_lt (by
            rw [show (256 : Nat) ^ 4 = 2 ^ 32 from by norm_num]; exact hoffN)]
          exact hM name offN hlookF
        have hpriv := rrc_included_spec R k name (beBytes 4 offN) rest false
          (beBytes_length _ _) hcurR hlookR
        have hrr := read_rowed_column_ok R _ k name true hpriv
        show ColSpec.read R _ = _
        simp only [ColSpec.read, bind, Except.bind, hrr]
        rfl
  | rowedOpt name k inc =>
      simp only [colOk] at hc
      cases inc with
      | true =>
          obtain ⟨ext1, offN, hinv2, hmono2, hcol2, hrow2, hblob2, hfc2, hlook2,
            hoffN⟩ := push_flag_name w 0x50 k name segs hinv hc (by norm_num)
          set w2 := (w.write_primitive false .U8
            (.num (0x50 ||| k.tag))).write_primitive false .STR (.strv name) with hw2
          have hpush : ColSpec.push w (.rowedOpt name k true) =
              { w2 with field_count := (w2.field_count + 1) % 2 ^ 16 } := rfl
          refine ⟨ext1, (0x50 ||| k.tag) :: beBytes 4 offN, ?_, ?_, ?_, ?_, ?_, ?_⟩
          · rw [hpush]
            exact ⟨hinv2.pool_eq, hinv2.segs_ok, hinv2.map_ok⟩
          · rw [hpush]
            exact hmono2.trans (WMono_fc w2 _)
          · rw [hpush]
            show w2.column_data = _
            exact hcol2
          · rw [hpush]
            show w2.row_data = _
            exact hrow2
          · rw [hpush]
            show (w2.field_count + 1) % 2 ^ 16 = _
            rw [hfc2]
          · intro wF hmF hbF R rest hcur hM hB
            rw [hpush] at hmF
            have hmw2F : WMono w2 wF := (WMono_fc w2 _).trans hmF
            have hlookF : List.lookup name wF.strings = some offN :=
              hmw2F.str_map name offN hlook2
            have hcurR : R.columnRem = (0x50 ||| k.tag) ::
                (beBytes 4 offN ++ rest) := by
              rw [hcur]
              rfl
            have hlookR : List.lookup (beToNat (beBytes 4 offN)) R.strings =
                some name := by
              rw [beToNat_beBytes_of_lt (by
                rw [show (256 : Nat) ^ 4 = 2 ^ 32 from by norm_num]; exact hoffN)]
              exact hM name offN hlookF
            have hpriv := rrc_included_spec R k name (beBytes 4 offN) rest true
              (beBytes_length _ _) hcurR hlookR
            show ColSpec.read R _ = _
            simp only [ColSpec.read, Reader.read_rowed_column_opt, bind,
              Except.bind, hpriv]
            rfl
      | false =>
          obtain ⟨ext1, offN, hinv2, hmono2, hcol2, hrow2, hblob2, hfc2, hlook2,
            hoffN⟩ := push_flag_name w 0x10 k name segs hinv hc (by norm_num)
          set w2 := (w.write_primitive false .U8
            (.num (0x10 ||| k.tag))).write_primitive false .STR (.strv name) with hw2
          have hpush : ColSpec.push w (.rowedOpt name k false) =
              { w2 with field_count := (w2.field_count + 1) % 2 ^ 16 } := rfl
          refine ⟨ext1, (0x10 ||| k.tag) :: beBytes 4 offN, ?_, ?_, ?_, ?_, ?_, ?_⟩
          · rw [hpush]
            exact ⟨hinv2.pool_eq, hinv2.segs_ok, hinv2.map_ok⟩
          · rw [hpush]
            exact hmono2.trans (WMono_fc w2 _)
          · rw [hpush]
            show w2.column_data = _
            exact hcol2
          · rw [hpush]
            show w2.row_data = _
            exact hrow2
          · rw [hpush]
            show (w2.field_count + 1) % 2 ^ 16 = _
            rw [hfc2]
          · intro wF hmF hbF R rest hcur hM hB
            rw [hpush] at hmF
            have hmw2F : WMono w2 wF := (WMono_fc w2 _).trans hmF
            have hlookF : List.lookup name wF.strings = some offN :=
              hmw2F.str_map name offN hlook2
            have hcurR : R.columnRem = (0x10 ||| k.tag) ::
                (beBytes 4 offN ++ rest) := by
              rw [hcur]
              rfl
            have hlookR : List.lookup (beToNat (beBytes 4 offN)) R.strings =
                some name := by
              rw [beToNat_beBytes_of_lt (by
                rw [show (256 : Nat) ^ 4 = 2 ^ 32 from by norm_num]; exact hoffN)]
              exact hM name offN hlookF
            have hpriv := rrc_excluded_spec R k name (beBytes 4 offN) rest
              (beBytes_length _ _) hcurR hlookR
            show ColSpec.read R _ = _
            simp only [ColSpec.read, Reader.read_rowed_column_opt, bind,
              Except.bind, hpriv]
            rfl

theorem mod_add_step (a b n : Nat) : ((a % n) + b) % n = (a + b) % n :=
  Nat.mod_add_mod a n b

/-- The column pushes in sequence: concatenated column bytes, one field-count
bump each, and the matching reads succeed in declaration order. -/
theorem cols_sim (cols : List ColSpec) : ∀ (w : Writer) (segs : List (List Nat)),
    WInv w segs → (∀ c ∈ cols, colOk c = true) → w.field_count < 2 ^ 16 →
    ∃ ext D, WInv (cols.foldl ColSpec.push w) (segs ++ ext) ∧
      WMono w (cols.foldl ColSpec.push w) ∧
      (cols.foldl ColSpec.push w).column_data = w.column_data ++ D ∧
      (cols.foldl ColSpec.push w).row_data = w.row_data ∧
      (cols.foldl ColSpec.push w).field_count =
        (w.field_count + cols.length) % 2 ^ 16 ∧
      (∀ wF : Writer, WMono (cols.foldl ColSpec.push w) wF →
        wF.blobs.length < 2 ^ 32 →
        ∀ (R : Reader) (rest : List Nat), R.columnRem = D ++ rest →
          (∀ t off, List.lookup t wF.strings = some off →
            List.lookup off R.strings = some t) →
          (∃ bex, R.blobs = wF.blobs ++ bex) →
          readCols R cols =
            .ok (cols.map expectedOut, { R with columnRem := rest })) := by
  induction cols with
  | nil =>
      intro w segs hinv hok hfc
      refine ⟨[], [], ?_, WMono.refl w, (List.append_nil _).symm, rfl,
        by
          show w.field_count = (w.field_count + 0) % 2 ^ 16
          rw [Nat.add_zero, Nat.mod_eq_of_lt hfc], ?_⟩
      · rw [List.append_nil]
        exact hinv
      · intro wF hmF hbF R rest hcur hM hB
        have hre : rest = R.columnRem := by rw [hcur]; rfl
        show Except.ok ([], R) = _
        rw [hre]
        rfl
  | cons c cs ih =>
      intro w segs hinv hok hfc
      obtain ⟨ext1, d1, hinv1, hmono1, hcol1, hrow1, hfc1, hread1⟩ :=
        push_sim w c segs hinv (hok c (List.mem_cons_self c cs))
      obtain ⟨ext2, D2, hinv2, hmono2, hcol2, hrow2, hfc2, hread2⟩ :=
        ih (ColSpec.push w c) (segs ++ ext1) hinv1
          (fun c' hc' => hok c' (List.mem_cons_of_mem c hc'))
          (by rw [hfc1]; exact Nat.mod_lt _ (by norm_num))
      rw [List.foldl_cons]
      refine ⟨ext1 ++ ext2, d1 ++ D2, by rw [← List.append_assoc]; exact hinv2,
        hmono1.trans hmono2, ?_, ?_, ?_, ?_⟩
      · rw [hcol2, hcol1, List.append_assoc]
      · rw [hrow2, hrow1]
      · rw [hfc2, hfc1, mod_add_step, List.length_cons]
        congr 1
        omega
      · intro wF hmF hbF R rest hcur hM hB
        have hc1 : c.read R = .ok (expectedOut c,
            { R with columnRem := D2 ++ rest }) := by
          refine hread1 wF (hmono2.trans hmF) hbF R (D2 ++ rest) ?_ hM hB
          rw [hcur, List.append_assoc]
        have hc2 : readCols { R with columnRem := D2 ++ rest } cs =
            .ok (cs.map expectedOut, { R with columnRem := rest }) :=
          hread2 wF hmF hbF _ rest rfl hM hB
        show readCols R (c :: cs) = _
        rw [readCols]
        simp only [bind, Except.bind, hc1, hc2]
        rfl

theorem rowOk_cons (k : ValueKind) (ks : List ValueKind) (v : UTFValue)
    (vs : List UTFValue) :
    rowOk (k :: ks) (v :: vs) = true ↔
      (valueOk k v = true ∧ rowOk ks vs = true) := by
  simp only [rowOk, List.length_cons, List.zip_cons_cons, List.all_cons,
    Bool.and_eq_true, beq_iff_eq, Nat.add_right_cancel_iff]
  tauto

/-- One written row: its bytes in the row buffer, and the per-column
`read_value(true, _)` calls read exactly those values back. -/
theorem row_sim (ks : List ValueKind) : ∀ (vs : List UTFValue) (w : Writer)
    (segs : List (List Nat)), WInv w segs → rowOk ks vs = true →
    ∃ ext d, WInv (writeRow w ks vs) (segs ++ ext) ∧ WMono w (writeRow w ks vs) ∧
      (writeRow w ks vs).column_data = w.column_data ∧
      (writeRow w ks vs).row_data = w.row_data ++ d ∧
      (writeRow w ks vs).field_count = w.field_count ∧
      d.length = (ks.map ValueKind.width).sum ∧
      (∀ wF : Writer, WMono (writeRow w ks vs) wF → wF.blobs.length < 2 ^ 32 →
        ∀ (R : Reader) (rest : List Nat), R.rowRem = d ++ rest →
          (∀ t off, List.lookup t wF.strings = some off →
            List.lookup off R.strings = some t) →
          (∃ bex, R.blobs = wF.blobs ++ bex) →
          readRowValues R ks = .ok (vs, { R with rowRem := rest })) := by
  induction ks with
  | nil =>
      intro vs w segs hinv hok
      have hvs : vs = [] := by
        cases vs with
        | nil => rfl
        | cons v vs => simp [rowOk] at hok
      subst hvs
      refine ⟨[], [], by rw [List.append_nil]; exact hinv, WMono.refl w, rfl,
        (List.append_nil _).symm, rfl, rfl, ?_⟩
      intro wF hmF hbF R rest hcur hM hB
      have hre : rest = R.rowRem := by rw [hcur]; rfl
      show Except.ok ([], R) = _
      rw [hre]
  | cons k ks ih =>
      intro vs w segs hinv hok
      cases vs with
      | nil => simp [rowOk] at hok
      | cons v vs =>
          obtain ⟨hv, hvs⟩ := (rowOk_cons k ks v vs).mp hok
          obtain ⟨ext1, d1, hinv1, hmono1, hcol1, hrow1, hfc1, hd1len, hdec1⟩ :=
            value_step w true k v segs hinv hv
          obtain ⟨ext2, d2, hinv2, hmono2, hcol2, hrow2, hfc2, hd2len, hdec2⟩ :=
            ih vs (w.write_value true k v) (segs ++ ext1) hinv1 hvs
          have hcol1' : (w.write_value true k v).column_data = w.column_data := by
            rw [hcol1]
            simp
          have hrow1' : (w.write_value true k v).row_data = w.row_data ++ d1 := by
            rw [hrow1]
            rfl
          have hstep : writeRow w (k :: ks) (v :: vs) =
              writeRow (w.write_value true k v) ks vs := rfl
          rw [hstep]
          refine ⟨ext1 ++ ext2, d1 ++ d2, by rw [← List.append_assoc]; exact hinv2,
            hmono1.trans hmono2, ?_, ?_, ?_, ?_, ?_⟩
          · rw [hcol2, hcol1']
          · rw [hrow2, hrow1', List.append_assoc]
          · rw [hfc2, hfc1]
          · rw [List.length_append, hd1len, hd2len, List.map_cons, List.sum_cons]
          · intro wF hmF hbF R rest hcur hM hB
            have hval : Reader.read_value R true k = .ok (v,
                { R with rowRem := d2 ++ rest }) := by
              refine read_value_spec R true k d1 (d2 ++ rest) v hd1len ?_ ?_
              · show R.rowRem = _
                rw [hcur, List.append_assoc]
              · exact hdec1 wF (hmono2.trans hmF) hbF R.strings R.blobs hM hB
            have hrest : readRowValues { R with rowRem := d2 ++ rest } ks =
                .ok (vs, { R with rowRem := rest }) :=
              hdec2 wF hmF hbF _ rest rfl hM hB
            show readRowValues R (k :: ks) = _
            rw [readRowValues]
            simp only [bind, Except.bind, hval, hrest]
            rfl

/-- All written rows: concatenated row bytes, and `row_count` rows of reads
reproduce the row list. -/
theorem rows_sim (rows : List (List UTFValue)) (ks : List ValueKind) :
    ∀ (w : Writer) (segs : List (List Nat)), WInv w segs →
    (∀ row ∈ rows, rowOk ks row = true) →
    ∃ ext D,
      WInv (rows.foldl (fun w row => writeRow w ks row) w) (segs ++ ext) ∧
      WMono w (rows.foldl (fun w row => writeRow w ks row) w) ∧
      (rows.foldl (fun w row => writeRow w ks row) w).column_data =
        w.column_data ∧
      (rows.foldl (fun w row => writeRow w ks row) w).row_data =
        w.row_data ++ D ∧
      (rows.foldl (fun w row => writeRow w ks row) w).field_count =
        w.field_count ∧
      D.length = rows.length * (ks.map ValueKind.width).sum ∧
      (∀ wF : Writer, WMono (rows.foldl (fun w row => writeRow w ks row) w) wF →
        wF.blobs.length < 2 ^ 32 →
        ∀ (R : Reader) (rest : List Nat), R.rowRem = D ++ rest →
          (∀ t off, List.lookup t wF.strings = some off →
            List.lookup off R.strings = some t) →
          (∃ bex, R.blobs = wF.blobs ++ bex) →
          readRows R ks rows.length = .ok (rows, { R with rowRem := rest })) := by
  induction rows with
  | nil =>
      intro w segs hinv hok
      refine ⟨[], [], by rw [List.append_nil]; exact hinv, WMono.refl w, rfl,
        (List.append_nil _).symm, rfl, by simp, ?_⟩
      intro wF hmF hbF R rest hcur hM hB
      have hre : rest = R.rowRem := by rw [hcur]; rfl
      show Except.ok ([], R) = _
      rw [hre]
  | cons row rows ih =>
      intro w segs hinv hok
      obtain ⟨ext1, d1, hinv1, hmono1, hcol1, hrow1, hfc1, hd1len, hdec1⟩ :=
        row_sim ks row w segs hinv (hok row (List.mem_cons_self row rows))
      obtain ⟨ext2, D2, hinv2, hmono2, hcol2, hrow2, hfc2, hD2len, hdec2⟩ :=
        ih (writeRow w ks row) (segs ++ ext1) hinv1
          (fun r hr => hok r (List.mem_cons_of_mem row hr))
      rw [List.foldl_cons]
      refine ⟨ext1 ++ ext2, d1 ++ D2, by rw [← List.append_assoc]; exact hinv2,
        hmono1.trans hmono2, ?_, ?_, ?_, ?_, ?_⟩
      · rw [hcol2, hcol1]
      · rw [hrow2, hrow1, List.append_assoc]
      · rw [hfc2, hfc1]
      · rw [List.length_append, hd1len, hD2len, List.length_cons]
        ring
      · intro wF hmF hbF R rest hcur hM hB
        have hr1 : readRowValues R ks = .ok (row,
            { R with rowRem := D2 ++ rest }) := by
          refine hdec1 wF (hmono2.trans hmF) hbF R (D2 ++ rest) ?_ hM hB
          rw [hcur, List.append_assoc]
        have hr2 : readRows { R with rowRem := D2 ++ rest } ks rows.length =
            .ok (rows, { R with rowRem := rest }) :=
          hdec2 wF hmF hbF _ rest rfl hM hB
        show readRows R ks (rows.length + 1) = _
        rw [readRows]
        simp only [bind, Except.bind, hr1, hr2]
        rfl

theorem strOk_nullName : strOk nullName = true := by decide

/-- The fresh writer satisfies the pool invariant with the two seeded
segments `<NULL>` (offset 0) and the table name (offset 7). -/
theorem winv_new (name : List Nat) (hname : strOk name = true) :
    WInv (Writer.new name) [nullName, name] := by
  refine ⟨?_, ?_, ?_⟩
  · show nullName ++ [0] ++ name ++ [0] = segsConcat [nullName, name]
    rw [segsConcat_cons, segsConcat_cons, segsConcat_nil, List.append_nil]
    simp [List.append_assoc]
  · intro s hs
    rcases List.mem_cons.mp hs with h | h
    · rw [h]; exact strOk_spec nullName strOk_nullName
    · rw [List.mem_singleton.mp h]; exact strOk_spec name hname
  · intro s off h0
    have h : List.lookup s [(name, 7), (nullName, 0)] = some off := h0
    cases hn : s == name with
    | true =>
        simp only [List.lookup, hn] at h
        have hs : s = name := by simpa using hn
        refine ⟨1, by norm_num, ?_, ?_⟩
        · rw [hs]; rfl
        · rw [← Option.some.inj h]
          rfl
    | false =>
        simp only [List.lookup, hn] at h
        cases hn0 : s == nullName with
        | true =>
            simp only [List.lookup, hn0] at h
            have hs : s = nullName := by simpa using hn0
            refine ⟨0, by norm_num, ?_, ?_⟩
            · rw [hs]; rfl
            · rw [← Option.some.inj h]
              rfl
        | false =>
            simp only [List.lookup, hn0] at h
            exact Option.noConfusion h

/-- The success layout of `Writer::end` (the pad given as an argument equal
to `8 - (pool_end % 8)`). -/
theorem writerEnd_layout (w : Writer) (row_size row_count pad : Nat)
    (hpad : pad = 8 - (24 + w.column_data.length + w.row_data.length +
      w.string_data.length) % 8)
    (hrows : w.row_data.length = row_size * row_count)
    (hsize : 24 + w.column_data.length + w.row_data.length +
      w.string_data.length + 8 + w.blobs.length < 2 ^ 32) :
    Writer.end w row_size row_count = .ok (utfMagic ++
      beBytes 4 (24 + w.column_data.length + w.row_data.length +
        w.string_data.length + pad + w.blobs.length) ++
      beBytes 4 (24 + w.column_data.length) ++
      beBytes 4 (24 + w.column_data.length + w.row_data.length) ++
      beBytes 4 (24 + w.column_data.length + w.row_data.length +
        w.string_data.length + pad) ++
      beBytes 4 7 ++
      beBytes 2 w.field_count ++ beBytes 2 row_size ++ beBytes 4 row_count ++
      w.column_data ++ w.row_data ++ w.string_data ++
      List.replicate pad 0 ++ w.blobs) := by
  subst hpad
  have hand : ∀ x : Nat, x &&& 7 = x % 8 := fun x => by
    have h := Nat.and_pow_two_sub_one_eq_mod x 3
    norm_num at h
    exact h
  rw [Writer.end, if_neg (by simp [hrows])]
  simp only []
  have e1 : (w.column_data.length % 2 ^ 32 + 24) % 2 ^ 32 =
      24 + w.column_data.length := by omega
  rw [e1]
  have e2 : (24 + w.column_data.length + w.row_data.length % 2 ^ 32) % 2 ^ 32 =
      24 + w.column_data.length + w.row_data.length := by omega
  rw [e2]
  have e3 : (24 + w.column_data.length + w.row_data.length +
      w.string_data.length % 2 ^ 32) % 2 ^ 32 =
      24 + w.column_data.length + w.row_data.length + w.string_data.length := by
    omega
  rw [e3, hand]
  have e4 : (24 + w.column_data.length + w.row_data.length + w.string_data.length +
      (8 - (24 + w.column_data.length + w.row_data.length +
        w.string_data.length) % 8)) % 2 ^ 32 =
      24 + w.column_data.length + w.row_data.length + w.string_data.length +
      (8 - (24 + w.column_data.length + w.row_data.length +
        w.string_data.length) % 8) := by
    omega
  rw [e4]
  have e5 : (24 + w.column_data.length + w.row_data.length + w.string_data.length +
      (8 - (24 + w.column_data.length + w.row_data.length +
        w.string_data.length) % 8) + w.blobs.length % 2 ^ 32) % 2 ^ 32 =
      24 + w.column_data.length + w.row_data.length + w.string_data.length +
      (8 - (24 + w.column_data.length + w.row_data.length +
        w.string_data.length) % 8) + w.blobs.length := by
    omega
  rw [e5]

theorem utfMagic_length : utfMagic.length = 4 := rfl

/-- Extract the `w`-byte field at offset `k` of a stream that splits as
`pre ++ (mid ++ post)` with `pre.length = k` and `mid.length = w`. -/
theorem field_at (pre mid post : List Nat) (k w : Nat)
    (hk : pre.length = k) (hw : mid.length = w) :
    ((pre ++ (mid ++ post)).drop k).take w = mid := by
  subst hk
  rw [List.drop_left, List.take_left' hw]

/-- Feeding the bytes of a successful `Writer::end` back into `Reader::new`:
the header checks pass, the four regions are recovered exactly, the string
pool rescans to a map resolving `7` to the table name and every writer map
entry to its string. -/
theorem readerNew_on_end (w : Writer) (segs : List (List Nat)) (nm : List Nat)
    (tl : List (List Nat)) (row_size row_count pad : Nat)
    (hinv : WInv w segs) (hsegs : segs = nullName :: nm :: tl)
    (hpad : pad = 8 - (24 + w.column_data.length + w.row_data.length +
      w.string_data.length) % 8)
    (hrows : w.row_data.length = row_size * row_count)
    (hrs : row_size < 2 ^ 16) (hrc : row_count < 2 ^ 32)
    (hsize : 24 + w.column_data.length + w.row_data.length +
      w.string_data.length + 8 + w.blobs.length < 2 ^ 32) :
    ∃ (out : List Nat) (entries : List (Nat × List Nat)),
      Writer.end w row_size row_count = .ok out ∧
      Reader.new out = .ok
        { columnRem := w.column_data
          rowRem := w.row_data
          strings := entries
          blobs := w.blobs
          table_name_index := 7
          field_count := w.field_count % 2 ^ 16 } ∧
      List.lookup 7 entries = some nm ∧
      (∀ t off, List.lookup t w.strings = some off →
        List.lookup off entries = some t) := by
  have hpadle : pad ≤ 8 := by omega
  have hpadpos : 1 ≤ pad := by omega
  have h2564 : (256 : Nat) ^ 4 = 2 ^ 32 := by norm_num
  have h2562 : (256 : Nat) ^ 2 = 2 ^ 16 := by norm_num
  have hend := writerEnd_layout w row_size row_count pad hpad hrows hsize
  set TS := 24 + w.column_data.length + w.row_data.length +
    w.string_data.length + pad + w.blobs.length with hTSdef
  set RO := 24 + w.column_data.length with hROdef
  set SO := 24 + w.column_data.length + w.row_data.length with hSOdef
  set BO := 24 + w.column_data.length + w.row_data.length +
    w.string_data.length + pad with hBOdef
  set out := utfMagic ++ beBytes 4 TS ++ beBytes 4 RO ++ beBytes 4 SO ++
    beBytes 4 BO ++ beBytes 4 7 ++ beBytes 2 w.field_count ++
    beBytes 2 row_size ++ beBytes 4 row_count ++ w.column_data ++ w.row_data ++
    w.string_data ++ List.replicate pad 0 ++ w.blobs with hout
  set segsAll := segs ++ List.replicate pad ([] : List Nat) with hsegsAll
  set entries := (scanEntries segsAll 0).reverse with hentries
  -- the split equations for the header fields
  have hsp4 : out = utfMagic ++ (beBytes 4 TS ++ (beBytes 4 RO ++ beBytes 4 SO ++
      beBytes 4 BO ++ beBytes 4 7 ++ beBytes 2 w.field_count ++
      beBytes 2 row_size ++ beBytes 4 row_count ++ w.column_data ++ w.row_data ++
      w.string_data ++ List.replicate pad 0 ++ w.blobs)) := by
    rw [hout]
    simp [List.append_assoc]
  have hsp8 : out = (utfMagic ++ beBytes 4 TS) ++ (beBytes 4 RO ++
      (beBytes 4 SO ++ beBytes 4 BO ++ beBytes 4 7 ++ beBytes 2 w.field_count ++
      beBytes 2 row_size ++ beBytes 4 row_count ++ w.column_data ++ w.row_data ++
      w.string_data ++ List.replicate pad 0 ++ w.blobs)) := by
    rw [hout]
    simp [List.append_assoc]
  have hsp12 : out = (utfMagic ++ beBytes 4 TS ++ beBytes 4 RO) ++
      (beBytes 4 SO ++ (beBytes 4 BO ++ beBytes 4 7 ++ beBytes 2 w.field_count ++
      beBytes 2 row_size ++ beBytes 4 row_count ++ w.column_data ++ w.row_data ++
      w.string_data ++ List.replicate pad 0 ++ w.blobs)) := by
    rw [hout]
    simp [List.append_assoc]
  have hsp16 : out = (utfMagic ++ beBytes 4 TS ++ beBytes 4 RO ++ beBytes 4 SO) ++
      (beBytes 4 BO ++ (beBytes 4 7 ++ beBytes 2 w.field_count ++
      beBytes 2 row_size ++ beBytes 4 row_count ++ w.column_data ++ w.row_data ++
      w.string_data ++ List.replicate pad 0 ++ w.blobs)) := by
    rw [hout]
    simp [List.append_assoc]
  have hsp20 : out = (utfMagic ++ beBytes 4 TS ++ beBytes 4 RO ++ beBytes 4 SO ++
      beBytes 4 BO) ++ (beBytes 4 7 ++ (beBytes 2 w.field_count ++
      beBytes 2 row_size ++ beBytes 4 row_count ++ w.column_data ++ w.row_data ++
      w.string_data ++ List.replicate pad 0 ++ w.blobs)) := by
    rw [hout]
    simp [List.append_assoc]
  have hsp24 : out = (utfMagic ++ beBytes 4 TS ++ beBytes 4 RO ++ beBytes 4 SO ++
      beBytes 4 BO ++ beBytes 4 7) ++ (beBytes 2 w.field_count ++
      (beBytes 2 row_size ++ beBytes 4 row_count ++ w.column_data ++ w.row_data ++
      w.string_data ++ List.replicate pad 0 ++ w.blobs)) := by
    rw [hout]
    simp [List.append_assoc]
  have hsp26 : out = (utfMagic ++ beBytes 4 TS ++ beBytes 4 RO ++ beBytes 4 SO ++
      beBytes 4 BO ++ beBytes 4 7 ++ beBytes 2 w.field_count) ++
      (beBytes 2 row_size ++ (beBytes 4 row_count ++ w.column_data ++ w.row_data ++
      w.string_data ++ List.replicate pad 0 ++ w.blobs)) := by
    rw [hout]
    simp [List.append_assoc]
  have hsp28 : out = (utfMagic ++ beBytes 4 TS ++ beBytes 4 RO ++ beBytes 4 SO ++
      beBytes 4 BO ++ beBytes 4 7 ++ beBytes 2 w.field_count ++
      beBytes 2 row_size) ++ (beBytes 4 row_count ++ (w.column_data ++
      w.row_data ++ w.string_data ++ List.replicate pad 0 ++ w.blobs)) := by
    rw [hout]
    simp [List.append_assoc]
  have hsp32 : out = (utfMagic ++ beBytes 4 TS ++ beBytes 4 RO ++ beBytes 4 SO ++
      beBytes 4 BO ++ beBytes 4 7 ++ beBytes 2 w.field_count ++
      beBytes 2 row_size ++ beBytes 4 row_count) ++ (w.column_data ++
      (w.row_data ++ (w.string_data ++ (List.replicate pad 0 ++ w.blobs)))) := by
    rw [hout]
    simp [List.append_assoc]
  have hl8 : (utfMagic ++ beBytes 4 TS).length = 8 := by
    simp [utfMagic_length, beBytes_length]
  have hl12 : (utfMagic ++ beBytes 4 TS ++ beBytes 4 RO).length = 12 := by
    simp [utfMagic_length, beBytes_length]
  have hl16 : (utfMagic ++ beBytes 4 TS ++ beBytes 4 RO ++
      beBytes 4 SO).length = 16 := by
    simp [utfMagic_length, beBytes_length]
  have hl20 : (utfMagic ++ beBytes 4 TS ++ beBytes 4 RO ++ beBytes 4 SO ++
      beBytes 4 BO).length = 20 := by
    simp [utfMagic_length, beBytes_length]
  have hl24 : (utfMagic ++ beBytes 4 TS ++ beBytes 4 RO ++ beBytes 4 SO ++
      beBytes 4 BO ++ beBytes 4 7).length = 24 := by
    simp [utfMagic_length, beBytes_length]
  have hl26 : (utfMagic ++ beBytes 4 TS ++ beBytes 4 RO ++ beBytes 4 SO ++
      beBytes 4 BO ++ beBytes 4 7 ++ beBytes 2 w.field_count).length = 26 := by
    simp [utfMagic_length, beBytes_length]
  have hl28 : (utfMagic ++ beBytes 4 TS ++ beBytes 4 RO ++ beBytes 4 SO ++
      beBytes 4 BO ++ beBytes 4 7 ++ beBytes 2 w.field_count ++
      beBytes 2 row_size).length = 28 := by
    simp [utfMagic_length, beBytes_length]
  have hl32 : (utfMagic ++ beBytes 4 TS ++ beBytes 4 RO ++ beBytes 4 SO ++
      beBytes 4 BO ++ beBytes 4 7 ++ beBytes 2 w.field_count ++
      beBytes 2 row_size ++ beBytes 4 row_count).length = 32 := by
    simp [utfMagic_length, beBytes_length]
  -- the header fields of the emitted stream
  have hTSe : hdrTableSize out = TS := by
    rw [hdrTableSize, hsp4, field_at _ _ _ 4 4 utfMagic_length (beBytes_length 4 _),
      beToNat_beBytes_of_lt (by rw [h2564]; omega)]
  have hROe : hdrRowOffset out = RO := by
    rw [hdrRowOffset, hsp8, field_at _ _ _ 8 4 hl8 (beBytes_length 4 _),
      beToNat_beBytes_of_lt (by rw [h2564]; omega)]
  have hSOe : hdrStringOffset out = SO := by
    rw [hdrStringOffset, hsp12, field_at _ _ _ 12 4 hl12 (beBytes_length 4 _),
      beToNat_beBytes_of_lt (by rw [h2564]; omega)]
  have hBOe : hdrBlobOffset out = BO := by
    rw [hdrBlobOffset, hsp16, field_at _ _ _ 16 4 hl16 (beBytes_length 4 _),
      beToNat_beBytes_of_lt (by rw [h2564]; omega)]
  have hTNe : hdrTableName out = 7 := by
    rw [hdrTableName, hsp20, field_at _ _ _ 20 4 hl20 (beBytes_length 4 _),
      beToNat_beBytes_of_lt (by rw [h2564]; norm_num)]
  have hFCe : hdrFieldCount out = w.field_count % 2 ^ 16 := by
    rw [hdrFieldCount, hsp24, field_at _ _ _ 24 2 hl24 (beBytes_length 2 _),
      beToNat_beBytes, h2562]
  have hRSe : hdrRowSize out = row_size := by
    rw [hdrRowSize, hsp26, field_at _ _ _ 26 2 hl26 (beBytes_length 2 _),
      beToNat_beBytes_of_lt (by rw [h2562]; omega)]
  have hRCe : hdrRowCount out = row_count := by
    rw [hdrRowCount, hsp28, field_at _ _ _ 28 4 hl28 (beBytes_length 4 _),
      beToNat_beBytes_of_lt (by rw [h2564]; omega)]
  have hd32 : out.drop 32 = w.column_data ++ (w.row_data ++ (w.string_data ++
      (List.replicate pad 0 ++ w.blobs))) := by
    rw [hsp32, ← hl32, List.drop_left]
  have hmagic : out.take 4 = utfMagic := by
    rw [hsp4]
    exact List.take_left' utfMagic_length
  have hlenout : out.length = 32 + w.column_data.length + w.row_data.length +
      w.string_data.length + pad + w.blobs.length := by
    rw [hout]
    simp only [List.length_append, List.length_replicate, beBytes_length,
      utfMagic_length]
  have h32le : 32 ≤ out.length := by omega
  have hts24 : 24 ≤ hdrTableSize out := by rw [hTSe]; omega
  -- the region reads
  have e_rc : readExact (out.drop 32) (RO - 24) "UTF column data" =
      .ok (w.column_data, w.row_data ++ (w.string_data ++
        (List.replicate pad 0 ++ w.blobs))) := by
    have hn : RO - 24 = w.column_data.length := by omega
    rw [hd32, hn, readExact,
      if_pos (by rw [List.length_append]; omega)]
    rw [List.take_left' rfl, List.drop_left' rfl]
  have e_rr : readExact (w.row_data ++ (w.string_data ++
      (List.replicate pad 0 ++ w.blobs))) (SO - RO) "UTF row data" =
      .ok (w.row_data, w.string_data ++ (List.replicate pad 0 ++ w.blobs)) := by
    have hn : SO - RO = w.row_data.length := by omega
    rw [hn, readExact, if_pos (by rw [List.length_append]; omega)]
    rw [List.take_left' rfl, List.drop_left' rfl]
  have hlenSP : (w.string_data ++ List.replicate pad 0).length =
      w.string_data.length + pad := by
    rw [List.length_append, List.length_replicate]
  have e_rs : readExact (w.string_data ++ (List.replicate pad 0 ++ w.blobs))
      (BO - SO) "UTF string data" =
      .ok (w.string_data ++ List.replicate pad 0, w.blobs) := by
    have hn : BO - SO = w.string_data.length + pad := by omega
    rw [hn, ← List.append_assoc, readExact,
      if_pos (by rw [List.length_append, hlenSP]; omega)]
    rw [List.take_left' hlenSP, List.drop_left' hlenSP]
  have e_rb : readExact w.blobs (TS - BO) "UTF blob data" =
      .ok (w.blobs, []) := by
    have hn : TS - BO = w.blobs.length := by omega
    rw [hn, readExact, if_pos (Nat.le_refl _)]
    rw [List.take_length, List.drop_length]
  -- the string-pool rescan
  have hokAll : ∀ s ∈ segsAll, (∀ b ∈ s, 0 < b ∧ b < 256) ∧
      utf8Valid s = true := by
    intro s hs
    rcases List.mem_append.mp hs with h | h
    · exact hinv.segs_ok s h
    · rw [List.eq_of_mem_replicate h]
      exact ⟨fun b hb => absurd hb (List.not_mem_nil b), rfl⟩
  have hpoolAll : w.string_data ++ List.replicate pad 0 = segsConcat segsAll := by
    rw [hsegsAll, segsConcat_append, segsConcat_replicate_nil, hinv.pool_eq]
  have hscan : scanGo (w.string_data ++ List.replicate pad 0) 0 [] [] =
      .ok entries := by
    rw [hpoolAll, scanGo_concat segsAll hokAll 0 [], List.append_nil]
  have hsegsAll2 : segsAll = nullName :: nm :: (tl ++ List.replicate pad []) := by
    rw [hsegsAll, hsegs]
    simp
  have hlook7 : List.lookup 7 entries = some nm := by
    have h1lt : 1 < segsAll.length := by
      rw [hsegsAll2]
      simp
    have := scan_lookup segsAll 0 1 h1lt
    rw [Nat.zero_add] at this
    have hseg1 : segStart segsAll 1 = 7 := by
      rw [hsegsAll2, segStart_cons_succ, segStart_zero]
      rfl
    rw [hseg1] at this
    have hget1 : segsAll.get? 1 = some nm := by
      rw [hsegsAll2]
      rfl
    rw [hget1] at this
    exact this
  have hSlt : w.string_data.length < 2 ^ 32 := by omega
  have hcompat : ∀ t off, List.lookup t w.strings = some off →
      List.lookup off entries = some t := by
    intro t off h
    obtain ⟨i, hi, hgi, hoff⟩ := hinv.map_ok t off h
    have hstart_lt : segStart segs i < w.string_data.length := by
      rw [hinv.pool_eq]
      exact segStart_lt_concat segs i hi
    have hoff' : segStart segs i = off := by
      rw [← hoff, Nat.mod_eq_of_lt (by omega)]
    obtain ⟨hseq, hgeq⟩ := segStart_get_append segs i hi (List.replicate pad [])
    have hilt : i < segsAll.length := by
      rw [hsegsAll, List.length_append]
      omega
    have := scan_lookup segsAll 0 i hilt
    rw [Nat.zero_add] at this
    rw [← hsegsAll] at hseq hgeq
    rw [hseq, hoff', hgeq, hgi] at this
    rw [hentries]
    exact this
  -- assemble Reader.new
  have hcont : readerNewCont out = .ok
      { columnRem := w.column_data
        rowRem := w.row_data
        strings := entries
        blobs := w.blobs
        table_name_index := 7
        field_count := w.field_count % 2 ^ 16 } := by
    rw [readerNewCont, hROe, hSOe, hBOe, hTSe, hTNe, hFCe]
    simp only [bind, Except.bind, e_rc, e_rr, e_rs, hscan, hlook7,
      Option.isNone_some, Bool.false_eq_true, if_false, e_rb, pure, Except.pure]
  have hnew : Reader.new out = .ok
      { columnRem := w.column_data
        rowRem := w.row_data
        strings := entries
        blobs := w.blobs
        table_name_index := 7
        field_count := w.field_count % 2 ^ 16 } := by
    rw [readerNew_unfold out h32le hmagic hts24, hROe, hSOe, hBOe, hTSe,
      hRSe, hRCe]
    have hprod : (row_size * row_count) % 2 ^ 32 = SO - RO := by
      rw [← hrows, Nat.mod_eq_of_lt (by omega)]
      omega
    rw [if_neg (by
      push_neg
      exact ⟨by omega, by omega, by omega, by omega, hprod⟩), hcont]
  exact ⟨out, entries, hend, hnew, hlook7, hcompat⟩

/-- C1: round trip.  For every valid table (well-formed name, columns and
rows, with the counts and total size inside their `u16`/`u32` ranges),
writing it — `Writer::new`, the `push_constant_column(_opt)` /
`push_rowed_column(_opt)` calls in declaration order, one
`write_value(true, _)` per active column per row, then `end` with the
matching row size and row count — succeeds, `Reader::new` accepts the
emitted bytes, reports the same table name and field count, the matching
`read_constant_column(_opt)` / `read_rowed_column(_opt)` calls reproduce
every column's value and inclusion state in order, and `row_count` rounds of
`read_value(true, _)` reproduce exactly the original rows, consuming both
the column and the row regions completely — including optional rowed
columns, populated or not. -/
theorem claim_C1_roundtrip (name : List Nat) (cols : List ColSpec)
    (rows : List (List UTFValue)) (hv : ValidTable name cols rows) :
    ∃ (out : List Nat) (r0 r1 r2 : Reader),
      Writer.end (writeTable name cols rows) (rowSize cols) rows.length =
        .ok out ∧
      Reader.new out = .ok r0 ∧
      Reader.table_name r0 = name ∧
      r0.field_count = cols.length ∧
      readCols r0 cols = .ok (cols.map expectedOut, r1) ∧
      r1.columnRem = [] ∧
      readRows r1 (activeKinds cols) rows.length = .ok (rows, r2) ∧
      r2.rowRem = [] := by
  obtain ⟨hname, hcols, hrows, hclen, hrlen, hrsz, hbound⟩ := hv
  have hinv0 := winv_new name hname
  obtain ⟨ext1, Dc, hinvC, hmonoC, hcolC, hrowC, hfcC, hreadC⟩ :=
    cols_sim cols (Writer.new name) [nullName, name] hinv0 hcols
      (by show (0 : Nat) < 2 ^ 16; norm_num)
  set wc := cols.foldl ColSpec.push (Writer.new name) with hwc
  obtain ⟨ext2, Dr, hinvF, hmonoF, hcolF, hrowF, hfcF, hDrlen, hreadR⟩ :=
    rows_sim rows (activeKinds cols) wc ([nullName, name] ++ ext1) hinvC hrows
  set wF := rows.foldl (fun w row => writeRow w (activeKinds cols) row) wc with hwF
  have hwT : writeTable name cols rows = wF := rfl
  have hColD : wF.column_data = Dc := by
    rw [hcolF, hcolC]
    rfl
  have hRowD : wF.row_data = Dr := by
    rw [hrowF, hrowC]
    rfl
  have hFcF : wF.field_count = cols.length := by
    rw [hfcF, hfcC]
    show (0 + cols.length) % 2 ^ 16 = cols.length
    rw [Nat.zero_add, Nat.mod_eq_of_lt hclen]
  have hRlenF : wF.row_data.length = rowSize cols * rows.length := by
    rw [hRowD, rowSize, hDrlen]
    ring
  have hbound' : 24 + wF.column_data.length + wF.row_data.length +
      wF.string_data.length + 8 + wF.blobs.length < 2 ^ 32 := by
    rw [hwT, tableSizeBound] at hbound
    exact hbound
  have hBF : wF.blobs.length < 2 ^ 32 := by omega
  obtain ⟨out, entries, hend, hnew, hlook7, hcompat⟩ :=
    readerNew_on_end wF (([nullName, name] ++ ext1) ++ ext2) name (ext1 ++ ext2)
      (rowSize cols) rows.length
      (8 - (24 + wF.column_data.length + wF.row_data.length +
        wF.string_data.length) % 8)
      hinvF (by simp) rfl hRlenF hrsz hrlen hbound'
  set r0 : Reader :=
    { columnRem := wF.column_data
      rowRem := wF.row_data
      strings := entries
      blobs := wF.blobs
      table_name_index := 7
      field_count := wF.field_count % 2 ^ 16 } with hr0
  have htn : Reader.table_name r0 = name := by
    rw [Reader.table_name]
    show (List.lookup 7 entries).getD [] = name
    rw [hlook7]
    rfl
  have hfc0 : r0.field_count = cols.length := by
    show wF.field_count % 2 ^ 16 = cols.length
    rw [hFcF, Nat.mod_eq_of_lt hclen]
  have hRCols : readCols r0 cols =
      .ok (cols.map expectedOut, { r0 with columnRem := [] }) := by
    refine hreadC wF hmonoF hBF r0 [] ?_ hcompat ⟨[], (List.append_nil _).symm⟩
    show wF.column_data = Dc ++ []
    rw [List.append_nil]
    exact hColD
  have hRRows : readRows { r0 with columnRem := [] } (activeKinds cols)
      rows.length = .ok (rows,
        { r0 with columnRem := [], rowRem := [] }) := by
    refine hreadR wF (WMono.refl wF) hBF { r0 with columnRem := [] } [] ?_
      hcompat ⟨[], (List.append_nil _).symm⟩
    show wF.row_data = Dr ++ []
    rw [List.append_nil]
    exact hRowD
  refine ⟨out, r0, { r0 with columnRem := [] },
    { r0 with columnRem := [], rowRem := [] }, ?_, hnew, htn, hfc0, hRCols, rfl,
    hRRows, rfl⟩
  rw [hwT]
  exact hend

/-- A concrete table for the round trip: name `Demo`; a constant string
column, a present and an absent optional constant, rowed `U32`/`STR`/`BLOB`
columns, an included and an excluded optional rowed column; two rows. -/
def c1name : List Nat := [68, 101, 109, 111]

def c1cols : List ColSpec :=
  [.constant [67, 109, 116] .STR (.strv [104, 105]),
   .constantOpt [67, 50] .U8 (some (.num 5)),
   .constantOpt [88] .U64 none,
   .rowed [73, 100] .U32,
   .rowedOpt [79, 112] .STR true,
   .rowedOpt [78, 111] .U16 false,
   .rowed [66, 98] .BLOB]

def c1rows : List (List UTFValue) :=
  [[.num 1, .strv [104, 105], .blobv [1, 2]],
   [.num 2, .strv [122], .blobv []]]

theorem claim_C1_witness :
    ValidTable c1name c1cols c1rows ∧
    (∃ (out : List Nat) (r0 r1 r2 : Reader),
      Writer.end (writeTable c1name c1cols c1rows) (rowSize c1cols)
        c1rows.length = .ok out ∧
      Reader.new out = .ok r0 ∧
      Reader.table_name r0 = c1name ∧
      r0.field_count = c1cols.length ∧
      readCols r0 c1cols = .ok (c1cols.map expectedOut, r1) ∧
      r1.columnRem = [] ∧
      readRows r1 (activeKinds c1cols) c1rows.length = .ok (c1rows, r2) ∧
      r2.rowRem = []) :=
  ⟨by decide, claim_C1_roundtrip c1name c1cols c1rows (by decide)⟩

end CriwareUtf
